import Mathlib

/-!
Verification development for the battlesnake-2020 decision agent.

The definitions below are a shallow embedding of the Rust sources:
`src/game/{point,dir,snake,mod}.rs`, `src/simulator.rs`, `src/profile/sim.rs`,
`src/profile/alpha_beta.rs`, `src/profile/mcts/game_tree.rs` and
`src/analytics.rs`.

Modelling conventions:
  * `i8` grid coordinates are modelled as `Int` (no claim exercises the i8
    boundary), `u8` health as `Nat` with explicit wrap-around `% 256` where
    the source performs wrapping arithmetic, `usize`/`u16` counters as `Nat`.
  * Rust `HashMap<String, _>` is modelled as an association list
    `List (String × _)` with a fixed iteration order; theorems that depend on
    map semantics carry `Nodup` hypotheses on the keys.  `HashSet<Point>` is
    modelled as `Finset Point`.
  * Rust panics (`unwrap`, out-of-bounds indexing) are modelled either by
    `Option` results or by total functions with default values; every theorem
    carries hypotheses (ids present, bodies long enough) that keep the
    defaults unreachable, mirroring the states on which the Rust code does
    not panic.
  * `f32`/`f64` arithmetic is modelled by exact arithmetic (`ℝ` for the UCB
    computation, `ℚ` for the ensemble score comparisons).
-/

namespace BS

/-! ## Core data model (src/game/) -/

/-- `Dir` from src/game/dir.rs. -/
inductive Dir where
  | Up
  | Down
  | Left
  | Right
deriving DecidableEq, Repr

/-- `Point` from src/game/point.rs: integer grid coordinates (i8 in Rust). -/
structure Point where
  x : Int
  y : Int
deriving DecidableEq, Repr

/-- `SafetyIndex` from src/game/mod.rs. -/
inductive SafetyIndex where
  | Safe
  | Risky
  | Unsafe
deriving DecidableEq, Repr

/-- `Snake` from src/game/snake.rs.  `health` is a u8 in Rust. -/
structure Snake where
  id : String
  health : Nat
  body : List Point
deriving DecidableEq, Repr

/-- `Board` from src/game/mod.rs.  `snakes : HashMap<String, Snake>` is
modelled as an association list with a fixed iteration order. -/
structure Board where
  height : Int
  width : Int
  food : Finset Point
  snakes : List (String × Snake)
deriving DecidableEq

/-- `State` from src/game/mod.rs (the game id is irrelevant to every claim
and is omitted). -/
structure GState where
  turn : Nat
  board : Board
deriving DecidableEq

/-! ### Association-list operations standing in for HashMap -/

/-- `HashMap::get`. -/
def slookup {α : Type} : List (String × α) → String → Option α
  | [], _ => none
  | (k, v) :: rest, key => if k = key then some v else slookup rest key

/-- `HashMap::get_mut` followed by an in-place update: every entry whose key
matches is updated (keys are unique in an actual HashMap). -/
def supdate {α : Type} (l : List (String × α)) (key : String) (f : α → α) :
    List (String × α) :=
  l.map fun e => if e.1 = key then (e.1, f e.2) else e

/-- `HashMap::remove`. -/
def sremove {α : Type} (l : List (String × α)) (key : String) :
    List (String × α) :=
  l.filter fun e => e.1 ≠ key

/-- `HashMap::contains_key`. -/
def scontains {α : Type} (l : List (String × α)) (key : String) : Bool :=
  l.any fun e => e.1 = key

/-- `HashMap::insert` (replace the value if present, append otherwise). -/
def sinsert {α : Type} (l : List (String × α)) (key : String) (v : α) :
    List (String × α) :=
  if scontains l key then supdate l key (fun _ => v) else l ++ [(key, v)]

@[simp] theorem slookup_nil {α : Type} (k : String) :
    slookup ([] : List (String × α)) k = none := rfl

@[simp] theorem slookup_cons {α : Type} (k k' : String) (v : α) (rest) :
    slookup ((k', v) :: rest) k =
      if k' = k then some v else slookup rest k := rfl

/-! ### Point operations (src/game/point.rs) -/

/-- `Point::manhattan`. -/
def Point.manhattan (p q : Point) : Nat :=
  ((p.x - q.x).natAbs + (p.y - q.y).natAbs)

/-- `Point::dir_to`: the direction from `p` to `q`. -/
def Point.dir_to (p q : Point) : Option Dir :=
  if q.y - p.y > 0 then some .Down
  else if q.y - p.y < 0 then some .Up
  else if q.x - p.x > 0 then some .Right
  else if q.x - p.x < 0 then some .Left
  else none

/-- `Point::orthogonal`: the four adjacent points, in source order
(up, down, left, right). -/
def Point.orthogonal (p : Point) : List Point :=
  [⟨p.x, p.y - 1⟩, ⟨p.x, p.y + 1⟩, ⟨p.x - 1, p.y⟩, ⟨p.x + 1, p.y⟩]

/-- `Point::in_bounds`. -/
def Point.in_bounds (p : Point) (st : GState) : Bool :=
  p.x < st.board.width && p.x ≥ 0 && p.y < st.board.height && p.y ≥ 0

/-- `Point::is_outer`: whether the point is on the outer edge of the board. -/
def Point.is_outer (p : Point) (st : GState) : Bool :=
  p.x = 0 || p.x = st.board.width - 1 || p.y = 0 || p.y = st.board.height - 1

/-- Head of a snake body (`body[0]`; Rust panics on an empty body, theorems
assume non-empty bodies). -/
def Snake.head (s : Snake) : Point :=
  s.body.headD ⟨0, 0⟩

/-- The tail tip `body[len - 1]`. -/
def Snake.tailTip (s : Snake) : Point :=
  s.body.getD (s.body.length - 1) ⟨0, 0⟩

/-- The segment before the tail tip, `body[len - 2]` (Rust panics for
`len < 2`; theorems assume `len ≥ 2`). -/
def Snake.beforeTail (s : Snake) : Point :=
  s.body.getD (s.body.length - 2) ⟨0, 0⟩

/-- The loop body of `Point::safety_index`: walk the snake map, returning
`Unsafe` early for an occupied non-vacating segment and accumulating the
`Risky` flag in `curr`; after the loop, out-of-bounds points are `Unsafe`. -/
def safety_index_aux (p : Point) (s : Snake) (st : GState) :
    List (String × Snake) → SafetyIndex → SafetyIndex
  | [], curr => if p.in_bounds st then curr else .Unsafe
  | (id, sn) :: rest, curr =>
    if sn.body.any (· = p) ∧ (p ≠ sn.tailTip ∨ sn.tailTip = sn.beforeTail) then
      .Unsafe
    else
      let curr' :=
        if (p.orthogonal.any fun q => q.y = sn.head.y ∧ q.x = sn.head.x) ∧
            id ≠ s.id ∧ s.body.length ≤ sn.body.length then
          SafetyIndex.Risky
        else curr
      safety_index_aux p s st rest curr'

/-- `Point::safety_index` from src/game/point.rs. -/
def Point.safety_index (p : Point) (s : Snake) (st : GState) : SafetyIndex :=
  safety_index_aux p s st st.board.snakes .Safe

/-- `Point::is_valid` from src/game/point.rs: post-move validity. -/
def Point.is_valid (p : Point) (s : Snake) (st : GState) : Bool :=
  (st.board.snakes.all fun e =>
    !(p = e.2.head && e.1 ≠ s.id && s.body.length ≤ e.2.body.length) &&
    !((e.2.body.drop 1).any (· = p))) &&
  p.in_bounds st

/-! ### Dir operations (src/game/dir.rs) -/

/-- `Dir::resulting_point`. -/
def Dir.resulting_point (d : Dir) (p : Point) : Point :=
  match d with
  | .Up => ⟨p.x, p.y - 1⟩
  | .Down => ⟨p.x, p.y + 1⟩
  | .Left => ⟨p.x - 1, p.y⟩
  | .Right => ⟨p.x + 1, p.y⟩

/-- `Dir::is_safety_index`. -/
def Dir.is_safety_index (d : Dir) (s : Snake) (st : GState)
    (se : SafetyIndex) : Bool :=
  (d.resulting_point s.head).safety_index s st = se

/-- `Dir::will_collect_food`. -/
def Dir.will_collect_food (d : Dir) (s : Snake) (food : Finset Point) : Bool :=
  d.resulting_point s.head ∈ food

/-! ### Snake operations (src/game/snake.rs) -/

/-- `Snake::find_safe_move`: scan up/down/left/right first for `Safe`, then
for `Risky`; default to `Up`. -/
def Snake.find_safe_move (s : Snake) (st : GState) : Dir :=
  let dirs : List Dir := [.Up, .Down, .Left, .Right]
  let orth := s.head.orthogonal
  let pick : SafetyIndex → Option Dir := fun level =>
    (List.range 4).findSome? fun i =>
      if (orth.getD i ⟨0, 0⟩).safety_index s st = level then dirs.get? i
      else none
  match pick .Safe with
  | some d => d
  | none =>
    match pick .Risky with
    | some d => d
    | none => .Up

/-- u8 wrapping decrement (`self.health -= 1` in release mode). -/
def wrapDec (h : Nat) : Nat :=
  (h + 255) % 256

/-- `Snake::update_from_move`: returns the updated snake, the new head, and
the collected food cell (if any). -/
def Snake.update_from_move (s : Snake) (d : Dir) (food : Finset Point) :
    Snake × Point × Option Point :=
  let collected := d.will_collect_food s food
  let new_point := d.resulting_point s.head
  let body1 := (new_point :: s.body).dropLast
  if collected then
    let body2 :=
      match body1.getLast? with
      | some p => body1 ++ [p]
      | none => body1
    ({ s with health := 100, body := body2 }, new_point, some new_point)
  else
    ({ s with health := wrapDec s.health, body := body1 }, new_point, none)

/-! ## Turn Simulator (src/simulator.rs) -/

/-- `Future` from src/simulator.rs. -/
structure Future where
  alive : Bool
  finished : Bool
  dead_snakes : Nat
  foods : Nat
  enemy_foods : Nat
  dir : Dir
deriving DecidableEq, Repr

/-- Accumulator for the first loop of `process_step` (moving every snake). -/
structure MoveAcc where
  snakes : List (String × Snake)
  results : List (String × Point)
  eaten : Finset Point
  fut : Future
deriving DecidableEq

/-- One iteration of the moves loop of `process_step`.  The food set passed
to `update_from_move` is the pre-turn food set: src/simulator.rs defers food
removal (the `eaten_foods` set) until after the loop.  A missing id makes the
Rust code panic; here the entry is skipped and theorems assume presence. -/
def move_loop_step (selfId : String) (food : Finset Point) (acc : MoveAcc)
    (m : String × Dir) : MoveAcc :=
  let fut0 := if m.1 = selfId then { acc.fut with dir := m.2 } else acc.fut
  match slookup acc.snakes m.1 with
  | none => { acc with fut := fut0 }
  | some sn =>
    let u := sn.update_from_move m.2 food
    let snakes' := supdate acc.snakes m.1 fun _ => u.1
    match u.2.2 with
    | some p =>
      let fut1 :=
        if m.1 = selfId then { fut0 with foods := fut0.foods + 1 }
        else { fut0 with enemy_foods := fut0.enemy_foods + 1 }
      { snakes := snakes', results := acc.results ++ [(m.1, u.2.1)],
        eaten := insert p acc.eaten, fut := fut1 }
    | none =>
      { snakes := snakes', results := acc.results ++ [(m.1, u.2.1)],
        eaten := acc.eaten, fut := fut0 }

/-- The moves loop of `process_step`. -/
def move_loop (selfId : String) (food : Finset Point)
    (moves : List (String × Dir)) (acc : MoveAcc) : MoveAcc :=
  moves.foldl (move_loop_step selfId food) acc

/-- The second loop of `process_step`: snakes without a supplied move keep
their current head as their result head. -/
def add_non_movers (snakes : List (String × Snake))
    (results : List (String × Point)) : List (String × Point) :=
  snakes.foldl
    (fun rs e => if scontains rs e.1 then rs else rs ++ [(e.1, e.2.head)])
    results

/-- One iteration of the validity loop of `process_step`. -/
def check_step (selfId : String) (stMid : GState)
    (acc : List String × Future) (r : String × Point) :
    List String × Future :=
  match slookup stMid.board.snakes r.1 with
  | none => acc
  | some sn =>
    if ¬ (r.2.is_valid sn stMid = true) ∨ sn.health = 0 then
      if r.1 = selfId then
        (acc.1, { acc.2 with alive := false, finished := true })
      else
        (acc.1 ++ [r.1], { acc.2 with dead_snakes := acc.2.dead_snakes + 1 })
    else acc

/-- The validity loop of `process_step`: collect dead non-protagonists in
`to_remove`, count them, and mark the protagonist dead if its head is invalid
or its health is zero. -/
def check_loop (selfId : String) (stMid : GState)
    (results : List (String × Point)) (fut : Future) :
    List String × Future :=
  results.foldl (check_step selfId stMid) ([], fut)

/-- The initial outcome record of `process_step`. -/
def ps_init_fut : Future := ⟨true, false, 0, 0, 0, .Up⟩

/-- The accumulator produced by the moves loop of `process_step`. -/
def ps_acc (st : GState) (selfId : String) (moves : List (String × Dir)) :
    MoveAcc :=
  move_loop selfId st.board.food moves ⟨st.board.snakes, [], ∅, ps_init_fut⟩

/-- The state after moves are applied and eaten food is removed, on which
the validity loop runs (turn counter already incremented). -/
def ps_mid (st : GState) (selfId : String) (moves : List (String × Dir)) :
    GState :=
  { turn := st.turn + 1,
    board :=
      { st.board with
          food := st.board.food \ (ps_acc st selfId moves).eaten,
          snakes := (ps_acc st selfId moves).snakes } }

/-- The result map fed to the validity loop (movers' new heads plus the
current head of every snake without a move). -/
def ps_results (st : GState) (selfId : String)
    (moves : List (String × Dir)) : List (String × Point) :=
  add_non_movers (ps_acc st selfId moves).snakes (ps_acc st selfId moves).results

/-- `process_step` from src/simulator.rs. -/
def process_step (st : GState) (selfId : String)
    (moves : List (String × Dir)) : GState × Future :=
  let stMid := ps_mid st selfId moves
  let chk :=
    check_loop selfId stMid (ps_results st selfId moves)
      (ps_acc st selfId moves).fut
  let snakes' := chk.1.foldl (fun sns id => sremove sns id) stMid.board.snakes
  let fut3 :=
    if chk.1 ≠ [] ∧ snakes'.length = 1 then { chk.2 with finished := true }
    else chk.2
  ({ stMid with board := { stMid.board with snakes := snakes' } }, fut3)

/-! ## Ensemble Branch Simulator per-turn transition
(`SimBranch::process_step` in src/profile/sim.rs) -/

/-- The `Future` struct private to src/profile/sim.rs (`winner` instead of
`finished`). -/
structure SimFuture where
  alive : Bool
  winner : Bool
  dead_snakes : Nat
  foods : Nat
  enemy_foods : Nat
  dir : Dir
deriving DecidableEq, Repr

/-- Accumulator for the moves loop of `SimBranch::process_step`; unlike the
Turn Simulator it threads the food set, which is depleted inside the loop. -/
structure SimMoveAcc where
  snakes : List (String × Snake)
  food : Finset Point
  results : List (String × Point)
  fut : SimFuture
deriving DecidableEq

/-- One iteration of the moves loop of `SimBranch::process_step`: food is
removed from the board immediately on pickup. -/
def sim_move_loop_step (selfId : String) (acc : SimMoveAcc)
    (m : String × Dir) : SimMoveAcc :=
  let fut0 := if m.1 = selfId then { acc.fut with dir := m.2 } else acc.fut
  match slookup acc.snakes m.1 with
  | none => { acc with fut := fut0 }
  | some sn =>
    let u := sn.update_from_move m.2 acc.food
    let snakes' := supdate acc.snakes m.1 fun _ => u.1
    match u.2.2 with
    | some p =>
      let fut1 :=
        if m.1 = selfId then { fut0 with foods := fut0.foods + 1 }
        else { fut0 with enemy_foods := fut0.enemy_foods + 1 }
      { snakes := snakes', food := acc.food.erase p,
        results := acc.results ++ [(m.1, u.2.1)], fut := fut1 }
    | none =>
      { snakes := snakes', food := acc.food,
        results := acc.results ++ [(m.1, u.2.1)], fut := fut0 }

/-- The validity loop of `SimBranch::process_step`.  The returned flag
records the early `return` taken as soon as the protagonist is found dead
(no snake removal happens in that case). -/
def sim_check_loop (selfId : String) (stMid : GState) :
    List (String × Point) → List String → SimFuture →
    List String × SimFuture × Bool
  | [], toRemove, fut => (toRemove, fut, false)
  | r :: rest, toRemove, fut =>
    match slookup stMid.board.snakes r.1 with
    | none => sim_check_loop selfId stMid rest toRemove fut
    | some sn =>
      if ¬ (r.2.is_valid sn stMid = true) ∨ sn.health = 0 then
        if r.1 = selfId then (toRemove, { fut with alive := false }, true)
        else
          sim_check_loop selfId stMid rest (toRemove ++ [r.1])
            { fut with dead_snakes := fut.dead_snakes + 1 }
      else sim_check_loop selfId stMid rest toRemove fut

/-- The initial outcome record of `SimBranch::process_step`. -/
def sps_init_fut : SimFuture := ⟨true, false, 0, 0, 0, .Up⟩

/-- The accumulator produced by the moves loop of
`SimBranch::process_step`. -/
def sps_acc (st : GState) (selfId : String) (moves : List (String × Dir)) :
    SimMoveAcc :=
  moves.foldl (sim_move_loop_step selfId)
    ⟨st.board.snakes, st.board.food, [], sps_init_fut⟩

/-- The post-move state of `SimBranch::process_step` (no turn increment). -/
def sps_mid (st : GState) (selfId : String) (moves : List (String × Dir)) :
    GState :=
  { turn := st.turn,
    board :=
      { st.board with
          food := (sps_acc st selfId moves).food,
          snakes := (sps_acc st selfId moves).snakes } }

/-- `SimBranch::process_step` from src/profile/sim.rs.  Note: no turn
increment, no handling of snakes without a move, food depleted inside the
moves loop, and an early return on protagonist death. -/
def sim_process_step (st : GState) (selfId : String)
    (moves : List (String × Dir)) : GState × SimFuture :=
  let stMid := sps_mid st selfId moves
  let chk :=
    sim_check_loop selfId stMid (sps_acc st selfId moves).results []
      (sps_acc st selfId moves).fut
  if chk.2.2 then (stMid, chk.2.1)
  else
    let snakes' := chk.1.foldl (fun sns id => sremove sns id) stMid.board.snakes
    let fut2 :=
      if chk.1 ≠ [] ∧ snakes'.length = 1 then { chk.2.1 with winner := true }
      else chk.2.1
    ({ stMid with board := { stMid.board with snakes := snakes' } }, fut2)

/-! ## Corner risk (src/game/dir.rs, `Dir::is_corner_risky`) -/

/-- The three point lists (diagonal, outer, blocker) built by
`Dir::is_corner_risky` for each direction, in source order. -/
def corner_points (d : Dir) (head : Point) :
    List Point × List Point × List Point :=
  match d with
  | .Up =>
    ([⟨head.x - 1, head.y - 2⟩, ⟨head.x + 1, head.y - 2⟩],
     [⟨head.x - 2, head.y - 2⟩, ⟨head.x - 1, head.y - 3⟩,
      ⟨head.x + 1, head.y - 3⟩, ⟨head.x + 2, head.y - 2⟩],
     [⟨head.x - 1, head.y - 1⟩, ⟨head.x + 1, head.y - 1⟩])
  | .Down =>
    ([⟨head.x + 1, head.y + 2⟩, ⟨head.x - 1, head.y + 2⟩],
     [⟨head.x + 2, head.y + 2⟩, ⟨head.x + 1, head.y + 3⟩,
      ⟨head.x - 1, head.y + 3⟩, ⟨head.x - 2, head.y + 2⟩],
     [⟨head.x + 1, head.y + 1⟩, ⟨head.x - 1, head.y + 1⟩])
  | .Left =>
    ([⟨head.x - 2, head.y + 1⟩, ⟨head.x - 2, head.y - 1⟩],
     [⟨head.x - 2, head.y + 2⟩, ⟨head.x - 3, head.y + 1⟩,
      ⟨head.x - 3, head.y - 1⟩, ⟨head.x - 2, head.y - 2⟩],
     [⟨head.x - 1, head.y + 1⟩, ⟨head.x - 1, head.y - 1⟩])
  | .Right =>
    ([⟨head.x + 2, head.y - 1⟩, ⟨head.x + 2, head.y + 1⟩],
     [⟨head.x + 2, head.y - 2⟩, ⟨head.x + 3, head.y - 1⟩,
      ⟨head.x + 3, head.y + 1⟩, ⟨head.x + 2, head.y + 2⟩],
     [⟨head.x + 1, head.y - 1⟩, ⟨head.x + 1, head.y + 1⟩])

/-- The final loop of `is_corner_risky`: look for a not-shorter opponent
whose head sits on one of the outer points, and in that case answer whether
the corresponding blocker cell is `Unsafe` (early return). -/
def corner_scan (s : Snake) (st : GState) (outer blocker : List Point) :
    List (String × Snake) → Bool
  | [] => false
  | (id, sn) :: rest =>
    if id = s.id then corner_scan s st outer blocker rest
    else if s.body.length ≤ sn.body.length then
      if outer.getD 0 ⟨0, 0⟩ = sn.head ∨ outer.getD 1 ⟨0, 0⟩ = sn.head then
        decide ((blocker.getD 1 ⟨0, 0⟩).safety_index s st = .Unsafe)
      else if outer.getD 2 ⟨0, 0⟩ = sn.head ∨ outer.getD 3 ⟨0, 0⟩ = sn.head then
        decide ((blocker.getD 0 ⟨0, 0⟩).safety_index s st = .Unsafe)
      else corner_scan s st outer blocker rest
    else corner_scan s st outer blocker rest

/-- `Dir::is_corner_risky` from src/game/dir.rs. -/
def Dir.is_corner_risky (d : Dir) (s : Snake) (st : GState) : Bool :=
  let pts := corner_points d s.head
  let diag :=
    pts.1.filter fun p => ¬ st.board.snakes.any fun e => e.2.body.any (· = p)
  if diag.length = 0 then false
  else corner_scan s st pts.2.1 pts.2.2 st.board.snakes

/-! ## Ensemble Simulator decision walk (`Sim::get_move`, src/profile/sim.rs)

The walk operates on the already-sorted candidate vector
`scores_vec : Vec<(Dir, f64, usize)>` (descending by score;
`sort_unstable_by` makes the tie order unspecified, so theorems quantify
over the sorted vector).  `f64` scores are modelled by exact rationals;
the literal `3.3` is the exact rational 33/10. -/

/-- The immediate-acceptance test of the decision walk: Safe, not
corner-risky, and not a step from an inner cell onto the outer edge. -/
def sim_qualify (s : Snake) (st : GState) (d : Dir) : Bool :=
  d.is_safety_index s st .Safe && !(d.is_corner_risky s st) &&
  !(!(s.head.is_outer st) && (d.resulting_point s.head).is_outer st)

/-- The skip test applied to a later candidate `c` relative to the current
candidate's score and survival length. -/
def sim_skip_cond (s : Snake) (st : GState) (score : ℚ) (len : Nat)
    (c : Dir × ℚ × Nat) : Bool :=
  c.1.is_safety_index s st .Safe &&
  (score - |score / (33 / 10)| < c.2.1) &&
  (len - len / 3 < c.2.2) &&
  !(c.1.is_corner_risky s st) &&
  !(!(s.head.is_outer st) && (c.1.resulting_point s.head).is_outer st)

/-- The ranked decision walk at the end of `Sim::get_move`: accept the
current candidate if it qualifies; otherwise skip it when some later
candidate is itself acceptable and within tolerance, else return it
("risky move"); fall back to `find_safe_move` when the vector is empty. -/
def sim_walk (s : Snake) (st : GState) : List (Dir × ℚ × Nat) → Dir
  | [] => s.find_safe_move st
  | c :: rest =>
    if sim_qualify s st c.1 then c.1
    else if rest.any fun c' => sim_skip_cond s st c.2.1 c.2.2 c' then
      sim_walk s st rest
    else c.1

/-! ## Flood fill (src/game/point.rs) and A* successors -/

/-- The while loop of `Point::flood_fill`, fuel-indexed.  Each iteration
pops one point from the end of `to_visit`; the total number of iterations
is bounded by one plus the number of points ever pushed, which the
`max_size` break keeps below `max_size + 4`, so fuel `max_size + 5` is
never exhausted. -/
def flood_fill_loop (s : Snake) (st : GState) (max_size : Nat) :
    Nat → List Point × List Point → List Point
  | 0, acc => acc.1
  | fuel + 1, acc =>
    match acc.2.getLast? with
    | none => acc.1
    | some curr =>
      let upd :=
        curr.orthogonal.foldl
          (fun (a : List Point × List Point) p =>
            if ¬ a.1.contains p ∧ p.safety_index s st ≠ .Unsafe then
              (a.1 ++ [p], a.2 ++ [p])
            else a)
          (acc.1, acc.2.dropLast)
      if max_size < upd.1.length then upd.1
      else flood_fill_loop s st max_size fuel upd

/-- `Point::flood_fill` from src/game/point.rs. -/
def Point.flood_fill (p : Point) (s : Snake) (st : GState) (max_size : Nat) :
    List Point :=
  flood_fill_loop s st max_size (max_size + 5) ([p], [p])

/-- `Point::successors` (A* neighbourhood): the four orthogonal neighbours
whose safety index is Safe or Risky, with unit cost. -/
def Point.successors (p : Point) (s : Snake) (st : GState) :
    List (Point × Nat) :=
  p.orthogonal.filterMap fun q =>
    match q.safety_index s st with
    | .Safe => some (q, 1)
    | .Risky => some (q, 1)
    | .Unsafe => none

/-! ## Adversarial search (src/profile/alpha_beta.rs) -/

/-- `MAX` from src/profile/alpha_beta.rs. -/
def AB_MAX : Int := 1000

/-- `MIN` from src/profile/alpha_beta.rs. -/
def AB_MIN : Int := -1000

/-- `HEAD_ON` from src/profile/alpha_beta.rs. -/
def HEAD_ON : Int := -500

/-- `MAX_DEPTH` from src/profile/alpha_beta.rs. -/
def MAX_DEPTH : Nat := 10

/-- `AlphaBeta::get_flood_score`. -/
def get_flood_score (st : GState) (id : String) : Int :=
  match slookup st.board.snakes id with
  | none => 0
  | some s => ((s.head.flood_fill s st s.body.length).length : Int)

/-- Apply `update_from_move` to the snake `id` inside a cloned state and
remove the eaten food cell, as both minimax branches do. -/
def minimax_apply_move (st : GState) (id : String) (sn : Snake) (d : Dir) :
    Snake × GState :=
  let u := sn.update_from_move d st.board.food
  let food' :=
    match u.2.2 with
    | some p => st.board.food.erase p
    | none => st.board.food
  (u.1,
   { st with
      board :=
        { st.board with
            snakes := supdate st.board.snakes id fun _ => u.1,
            food := food' } })

/-- The successor loop of `AlphaBeta::minimax` (early `break`/`continue`/
`return` encoded by the recursion structure).  `eval st' maximizing'` stands
for the recursive `minimax` call at depth + 1 on the cloned state, which the
caller supplies (defunctionalised so the recursion is structural in `fuel`
alone).  `alpha` and `beta` are loop constants in the source
(`new_alpha`/`new_beta` are fresh bindings used only by the break test). -/
def ab_loop (eval : GState → Bool → Int) (selfId enemyId : String)
    (st : GState) (maximizing : Bool) (temp_snake : Snake)
    (best_score : Int) (best_move : Point) (alpha beta : Int) :
    List (Point × Nat) → Int × Point
  | [] => (best_score, best_move)
  | (pos_move, _) :: rest =>
    let dir := (temp_snake.head.dir_to pos_move).getD .Up
    if maximizing then
      match slookup st.board.snakes selfId with
      | none => (best_score, best_move)
      | some sn =>
        let m := minimax_apply_move st selfId sn dir
        if m.1.health = 0 then
          ab_loop eval selfId enemyId st maximizing temp_snake
            best_score best_move alpha beta rest
        else
          let val := eval m.2 false
          let best_move' := if best_score < val then pos_move else best_move
          let best_score' := max best_score val
          if beta ≤ max alpha best_score' then (best_score', best_move')
          else
            ab_loop eval selfId enemyId st maximizing temp_snake
              best_score' best_move' alpha beta rest
    else
      match slookup st.board.snakes enemyId with
      | none => (best_score, best_move)
      | some sn =>
        let m := minimax_apply_move st enemyId sn dir
        match slookup st.board.snakes selfId with
        | none => (best_score, best_move)
        | some our_snake =>
          if our_snake.head = pos_move then
            if m.1.body.length < our_snake.body.length then
              ab_loop eval selfId enemyId st maximizing temp_snake
                best_score best_move alpha beta rest
            else (HEAD_ON, best_move)
          else
            let val := eval m.2 true
            let best_move' := if val < best_score then pos_move else best_move
            let best_score' := min best_score val
            if min best_score' beta < alpha then (best_score', best_move')
            else
              ab_loop eval selfId enemyId st maximizing temp_snake
                best_score' best_move' alpha beta rest

/-- `AlphaBeta::minimax`.  The extra `fuel` argument makes the recursion
structural; the top-level call uses fuel 11, which the `depth > MAX_DEPTH`
guard never exhausts (depth starts at 1). -/
def minimax : Nat → String → String → Nat → GState → Bool → Int → Int →
    Int × Point
  | 0, _, _, _, _, _, _, _ => (0, ⟨0, 0⟩)
  | fuel + 1, selfId, enemyId, depth, st, maximizing, alpha, beta =>
    if MAX_DEPTH < depth then
      (2 * get_flood_score st selfId - get_flood_score st enemyId, ⟨0, 0⟩)
    else
      match slookup st.board.snakes (if maximizing then selfId else enemyId) with
      | none => ((if maximizing then AB_MIN else AB_MAX), ⟨0, 0⟩)
      | some temp_snake =>
        let succs0 := temp_snake.head.successors temp_snake st
        let succs :=
          if maximizing then succs0
          else
            match slookup st.board.snakes selfId with
            | none => succs0
            | some selfSn =>
              succs0 ++
                temp_snake.head.orthogonal.filterMap fun q =>
                  if q = selfSn.head then some (selfSn.head, 0) else none
        ab_loop
          (fun st' maximizing' =>
            (minimax fuel selfId enemyId (depth + 1) st' maximizing' alpha
              beta).1)
          selfId enemyId st maximizing temp_snake
          (if maximizing then AB_MIN else AB_MAX) ⟨0, 0⟩ alpha beta succs

/-- The enemy-id scan at the top of `AlphaBeta::get_move` (the last
non-protagonist id in iteration order). -/
def alpha_beta_enemy_id (selfId : String)
    (snakes : List (String × Snake)) : String :=
  snakes.foldl (fun acc e => if e.1 ≠ selfId then e.1 else acc)
    "Not Initalized"

/-- `AlphaBeta::get_move` (the `panic` on single-snake states is excluded
by the two-snake hypothesis carried by the theorems). -/
def alpha_beta_get_move (s : Snake) (st : GState) : Dir :=
  let enemyId := alpha_beta_enemy_id s.id st.board.snakes
  let r := minimax 11 s.id enemyId 1 st true AB_MIN AB_MAX
  if AB_MIN < r.1 then (s.head.dir_to r.2).getD .Up
  else s.find_safe_move st

/-! ## Opponent Profiler (src/analytics.rs) -/

/-- `MATCH_THRESH` from src/analytics.rs. -/
def MATCH_THRESH : Nat := 9

/-- `MOVE_BUFFER_SIZE` from src/analytics.rs. -/
def MOVE_BUFFER_SIZE : Nat := 10

/-- The `Analytics` struct.  The boxed `Profile` objects are modelled as
move functions (the profiles registered in src/routes.rs are stateless);
the `full_game` log is omitted (it is only written on drop). -/
structure Analytics where
  realMoves : List (String × List Dir)
  expectedMoves : List (String × List (String × List Dir))
  profMatches : List (String × String)
  algs : List (String × (Snake → GState → Dir))

/-- Shift a new move into the front of a fixed-length ring buffer
(`insert(0, d)` followed by `pop()`). -/
def shift_in (buf : List Dir) (d : Dir) : List Dir :=
  (d :: buf).dropLast

/-- Index-wise agreement between an expected-move buffer and an observed
buffer (both have length `MOVE_BUFFER_SIZE` by construction; the source
indexes `exp_moves` by the positions of `real_moves`). -/
def match_count (expMoves realMoves : List Dir) : Nat :=
  ((realMoves.zip expMoves).filter fun p => p.2 = p.1).length

/-- `Analytics::fire` from src/analytics.rs: shift in the newest observed
move per snake, run the match-detection loop, then compute and shift in
the next expected move per (snake, heuristic) pair. -/
def Analytics.fire (a : Analytics) (sId : String) (st : GState) : Analytics :=
  let real1 :=
    st.board.snakes.foldl
      (fun rm e =>
        match (e.2.body.getD 1 ⟨0, 0⟩).dir_to e.2.head with
        | some d => supdate rm e.1 fun buf => shift_in buf d
        | none => rm)
      a.realMoves
  let matches1 :=
    a.expectedMoves.foldl
      (fun m e =>
        if e.1 = sId then m
        else
          e.2.foldl
            (fun m2 algEntry =>
              let realM := (slookup real1 e.1).getD []
              if MATCH_THRESH ≤ match_count algEntry.2 realM then
                sinsert m2 e.1 algEntry.1
              else sremove m2 e.1)
            m)
      a.profMatches
  let exp1 :=
    st.board.snakes.foldl
      (fun em e =>
        a.algs.foldl
          (fun em2 alg =>
            let mv := alg.2 e.2 st
            supdate em2 e.1 fun algMap =>
              supdate algMap alg.1 fun buf => shift_in buf mv)
          em)
      a.expectedMoves
  { a with
      realMoves := real1
      profMatches := matches1
      expectedMoves := exp1 }

/-! ## Monte-Carlo tree search (src/profile/mcts/game_tree.rs) -/

/-- `Node` from src/profile/mcts/game_tree.rs (arena-indexed). -/
structure MNode where
  parent : Option Nat
  children : List (Option Nat)
  score : Nat
  simCount : Nat
  state : GState
  future : Option Future
  isSelfNode : Bool
deriving DecidableEq

/-- `GameTree` (the `AStarBasic` member holds no data that affects the tree
and is omitted; the rollout default policy it feeds is modelled
nondeterministically by the step relation below). -/
structure GameTree where
  innerVec : List MNode
  selfId : String
  enemyId : String
deriving DecidableEq

/-- Placeholder node returned for an out-of-range arena index (Rust
panics); all theorems index inside the arena. -/
def defaultMNode : MNode :=
  ⟨none, [none, none, none, none], 0, 0, ⟨0, ⟨0, 0, ∅, []⟩⟩, none, false⟩

/-- Arena access `inner_vec[i]`. -/
def nodeAt (t : GameTree) (i : Nat) : MNode :=
  (t.innerVec.get? i).getD defaultMNode

/-- Visit count of node `i`. -/
def simAt (t : GameTree) (i : Nat) : Nat :=
  (nodeAt t i).simCount

/-- The indices stored in the child slots of node `i`. -/
def childIdxs (t : GameTree) (i : Nat) : List Nat :=
  (nodeAt t i).children.filterMap id

/-- Sum of the children's visit counts of node `i`. -/
def childSimSum (t : GameTree) (i : Nat) : Nat :=
  ((childIdxs t i).map (simAt t)).sum

/-- `GameTree::new`: a fresh root tagged as an opponent node. -/
def GameTree.new (st : GState) (selfId enemyId : String) : GameTree :=
  ⟨[⟨none, [none, none, none, none], 0, 0, st, none, false⟩], selfId, enemyId⟩

/-- `GameTree::node_is_leaf` (`children[0].is_none()`). -/
def node_is_leaf (t : GameTree) (i : Nat) : Bool :=
  ((nodeAt t i).children.getD 0 none).isNone

/-- `GameTree::node_has_sims`. -/
def node_has_sims (t : GameTree) (i : Nat) : Bool :=
  0 < simAt t i

/-- `get_snake_successors` from src/profile/mcts/game_tree.rs. -/
def get_snake_successors (s : Snake) (st : GState) (avoidRisky : Bool) :
    List Dir :=
  s.head.orthogonal.filterMap fun e =>
    match e.safety_index s st with
    | .Safe => s.head.dir_to e
    | .Risky => if avoidRisky then none else s.head.dir_to e
    | .Unsafe => none

/-- `GameTree::create_node`: run the one-turn simulator on a clone with a
single-move map, overwrite the outcome's direction, and append the node. -/
def create_node (t : GameTree) (parentId : Nat) (st : GState)
    (nodeMove : Dir) (nodeSnakeId : String) (isSelfNode : Bool) : GameTree :=
  let r := process_step st t.selfId [(nodeSnakeId, nodeMove)]
  let fut := { r.2 with dir := nodeMove }
  { t with
      innerVec :=
        t.innerVec ++
          [⟨some parentId, [none, none, none, none], 0, 0, r.1, some fut,
            isSelfNode⟩] }

/-- `GameTree::create_terminal_node`. -/
def create_terminal_node (t : GameTree) (parentId : Nat) (st : GState)
    (moves : List (String × Dir)) (score : Nat) : GameTree :=
  let r := process_step st t.selfId moves
  { t with
      innerVec :=
        t.innerVec ++
          [⟨some parentId, [none, none, none, none], score, 0, r.1,
            some r.2, true⟩] }

/-- Write child slot `slot` of node `i` (`children[idx] = Some(c)`). -/
def set_child_slot (t : GameTree) (i : Nat) (slot : Nat) (c : Nat) :
    GameTree :=
  match t.innerVec.get? i with
  | none => t
  | some n =>
    { t with
        innerVec :=
          t.innerVec.set i { n with children := n.children.set slot (some c) } }

/-- The successor loop of `GameTree::expand` (one child per successor
direction, slots filled in enumeration order). -/
def expand_succ_loop (t : GameTree) (nodeId currIdx : Nat) (currState : GState)
    (nodeSnakeId : String) (isSelf : Bool) : List (Nat × Dir) → GameTree
  | [] => t
  | (idx, dir) :: rest =>
    let t1 := create_node t nodeId currState dir nodeSnakeId isSelf
    let t2 := set_child_slot t1 nodeId idx (currIdx + idx)
    expand_succ_loop t2 nodeId currIdx currState nodeSnakeId isSelf rest

/-- The pre-terminated "loss children" loop of `GameTree::expand`: for every
orthogonal point of the protagonist's head that is `Risky`, synthesise a
head-on collision child.  `none` models the `unwrap` panics (absent enemy,
`dir_to` of coincident points). -/
def expand_term_loop (t : GameTree) (nodeId currIdx : Nat) (currState : GState)
    (nodeSnake : Snake) : List Point → Nat → Option GameTree
  | [], _ => some t
  | p :: rest, termIdx =>
    if p.safety_index nodeSnake currState = .Risky then
      match slookup currState.board.snakes t.enemyId with
      | none => none
      | some enemySnake =>
        match nodeSnake.head.dir_to p, enemySnake.head.dir_to p with
        | some d1, some d2 =>
          let t1 :=
            create_terminal_node t nodeId currState
              [(t.selfId, d1), (t.enemyId, d2)] 0
          let t2 := set_child_slot t1 nodeId termIdx (currIdx + termIdx)
          expand_term_loop t2 nodeId currIdx currState nodeSnake rest
            (termIdx + 1)
        | _, _ => none
    else expand_term_loop t nodeId currIdx currState nodeSnake rest termIdx

/-- The body of `GameTree::expand` after the finished-future early return. -/
def expand_core (t : GameTree) (i : Nat) (node : MNode) : Option GameTree :=
  let currState := node.state
  let currIdx := t.innerVec.length
  let isSelf := !node.isSelfNode
  let nodeSnakeId := if isSelf then t.selfId else t.enemyId
  match slookup currState.board.snakes nodeSnakeId with
  | none => none
  | some nodeSnake =>
    let succs := get_snake_successors nodeSnake currState isSelf
    let t1 := expand_succ_loop t i currIdx currState nodeSnakeId isSelf
      succs.enum
    if isSelf then
      expand_term_loop t1 i currIdx currState nodeSnake
        nodeSnake.head.orthogonal succs.length
    else some t1

/-- `GameTree::expand` as a tree transformer; `none` models a panic, and a
finished future leaves the tree unchanged (the source returns `None` there
without touching the arena). -/
def expandO (t : GameTree) (i : Nat) : Option GameTree :=
  match t.innerVec.get? i with
  | none => none
  | some node =>
    match node.future with
    | some f => if f.finished then some t else expand_core t i node
    | none => expand_core t i node

/-- The back-propagation loop of `GameTree::rollout`: add the rollout score
and one visit to every node from the origin up the parent chain.  Fuel
`inner_vec.len()` is enough because parent indices strictly decrease. -/
def backprop_aux (s : Nat) : List MNode → Nat → Nat → List MNode
  | vec, _, 0 => vec
  | vec, i, fuel + 1 =>
    match vec.get? i with
    | none => vec
    | some n =>
      let vec' :=
        vec.set i { n with score := n.score + s, simCount := n.simCount + 1 }
      match n.parent with
      | none => vec'
      | some p => backprop_aux s vec' p fuel

/-- The tree change performed by `GameTree::rollout` once the rollout score
`s ∈ {0, 1}` is known (the default-policy playout itself only clones the
state and consults the RNG, so the score is left nondeterministic in the
step relation). -/
def rollout_update (t : GameTree) (i : Nat) (s : Nat) : GameTree :=
  { t with innerVec := backprop_aux s t.innerVec i t.innerVec.length }

/-- The parent chain that `backprop_aux` walks (same fuel discipline). -/
def pchain : List MNode → Nat → Nat → List Nat
  | _, _, 0 => []
  | vec, i, fuel + 1 =>
    match vec.get? i with
    | none => []
    | some n =>
      i ::
        (match n.parent with
         | none => []
         | some p => pchain vec p fuel)

/-- One tree-mutating step of the MCTS driver loop
(src/profile/mcts/mod.rs): `expand` is called on a leaf that has sims (or
on the fresh root for the initial `expand(0)`), `rollout` on a leaf without
sims.  Selection (`next_node`) does not change the tree, so reachability
with these two steps covers every interleaving of the three operations. -/
inductive MStep : GameTree → GameTree → Prop where
  | expand (t : GameTree) (i : Nat) (t' : GameTree)
      (hleaf : node_is_leaf t i = true)
      (hsim : 0 < simAt t i ∨ i = 0)
      (hx : expandO t i = some t') : MStep t t'
  | rollout (t : GameTree) (i : Nat) (s : Nat)
      (hi : i < t.innerVec.length)
      (hleaf : node_is_leaf t i = true)
      (hsim : simAt t i = 0)
      (hs : s ≤ 1) : MStep t (rollout_update t i s)

/-- Tree states reachable from a given tree by MCTS steps. -/
def MReachable (t t' : GameTree) : Prop :=
  Relation.ReflTransGen MStep t t'

/-! ### UCB selection (`Node::ucb_one`, `GameTree::next_node`)

`f32` arithmetic is modelled over `ℝ`; the `f32::MAX` sentinel is the exact
value of the largest finite f32. -/

/-- The exact value of `f32::MAX`. -/
noncomputable def f32_MAX : ℝ :=
  (2 ^ 24 - 1) * 2 ^ 104

/-- `Node::ucb_one`: `N` is the visit count the caller passes in (which
`next_node` takes from the *root*). -/
noncomputable def ucb_one (n : MNode) (N : Nat) : ℝ :=
  if n.simCount = 0 then f32_MAX
  else (n.score : ℝ) / n.simCount + 2 * Real.sqrt (Real.log N / n.simCount)

/-- First maximum of a sorted-descending stable selection: replace the
current best only on a strictly larger key, which is what the stable
descending sort followed by `scores[0]` computes. -/
noncomputable def pick_first_max : ℝ × Nat → List (ℝ × Nat) → ℝ × Nat
  | best, [] => best
  | best, x :: xs => pick_first_max (if best.1 < x.1 then x else best) xs

/-- `GameTree::next_node`: descend to the child with the best `ucb_one`
score, where the `N` handed to every child is the root's visit count. -/
noncomputable def next_node (t : GameTree) (i : Nat) : Nat :=
  let N := simAt t 0
  match (childIdxs t i).map fun c => (ucb_one (nodeAt t c) N, c) with
  | [] => 0
  | x :: xs => (pick_first_max x xs).2

/-- Modelled from the spec: the UCB1 formula claim C5 attributes to the
selection step, with exploration constant sqrt 2 and the visit count of the
child's parent node. -/
noncomputable def ucb_claim (n : MNode) (parentVisits : Nat) : ℝ :=
  (n.score : ℝ) / n.simCount +
    Real.sqrt 2 * Real.sqrt (Real.log parentVisits / n.simCount)

/-! ## Helper lemmas about the association-list operations -/

@[simp] theorem supdate_nil {α : Type} (key : String) (f : α → α) :
    supdate ([] : List (String × α)) key f = [] := rfl

@[simp] theorem supdate_cons {α : Type} (k' : String) (v : α)
    (rest : List (String × α)) (key : String) (f : α → α) :
    supdate ((k', v) :: rest) key f =
      (if k' = key then (k', f v) else (k', v)) :: supdate rest key f := by
  by_cases h : k' = key <;> simp [supdate, h]

theorem slookup_supdate_ne {α : Type} (l : List (String × α)) (key k : String)
    (f : α → α) (h : k ≠ key) : slookup (supdate l key f) k = slookup l k := by
  induction l with
  | nil => rfl
  | cons e rest ih =>
    obtain ⟨k', v⟩ := e
    rw [supdate_cons]
    by_cases hk' : k' = key
    · rw [if_pos hk', slookup_cons, slookup_cons]
      have h1 : ¬ k' = k := fun hkk => h (hkk ▸ hk')
      rw [if_neg h1, if_neg h1]
      exact ih
    · rw [if_neg hk', slookup_cons, slookup_cons]
      by_cases hk : k' = k
      · rw [if_pos hk, if_pos hk]
      · rw [if_neg hk, if_neg hk]
        exact ih

theorem slookup_supdate_self {α : Type} (l : List (String × α)) (key : String)
    (f : α → α) : slookup (supdate l key f) key = (slookup l key).map f := by
  induction l with
  | nil => rfl
  | cons e rest ih =>
    obtain ⟨k', v⟩ := e
    rw [supdate_cons]
    by_cases hk' : k' = key
    · rw [if_pos hk', slookup_cons, slookup_cons, if_pos hk', if_pos hk']
      simp
    · rw [if_neg hk', slookup_cons, slookup_cons, if_neg hk', if_neg hk']
      exact ih

theorem slookup_none_of_not_mem_keys {α : Type} (l : List (String × α))
    (k : String) (h : k ∉ l.map Prod.fst) : slookup l k = none := by
  induction l with
  | nil => rfl
  | cons e rest ih =>
    rw [slookup_cons]
    simp only [List.map_cons, List.mem_cons] at h
    push_neg at h
    rw [if_neg fun h' => h.1 h'.symm]
    exact ih h.2

theorem slookup_of_mem_nodup {α : Type} (l : List (String × α))
    (e : String × α) (hnd : (l.map Prod.fst).Nodup) (he : e ∈ l) :
    slookup l e.1 = some e.2 := by
  induction l with
  | nil => simp at he
  | cons e' rest ih =>
    rw [slookup_cons]
    rcases List.mem_cons.mp he with h | h
    · rw [h, if_pos rfl]
    · simp only [List.map_cons, List.nodup_cons] at hnd
      have hne : e'.1 ≠ e.1 := by
        intro heq
        exact hnd.1 (heq ▸ (List.mem_map.mpr ⟨e, h, rfl⟩))
      rw [if_neg hne]
      exact ih hnd.2 h

theorem supdate_keys {α : Type} (l : List (String × α)) (key : String)
    (f : α → α) : (supdate l key f).map Prod.fst = l.map Prod.fst := by
  induction l with
  | nil => rfl
  | cons e rest ih =>
    obtain ⟨k', v⟩ := e
    rw [supdate_cons]
    by_cases hk' : k' = key
    · rw [if_pos hk']
      simp [ih]
    · rw [if_neg hk']
      simp [ih]

/-! ## Characterisation of the moves loop of `process_step`

`apply_moves` gives the pointwise effect of the loop on the snake map,
`nhS` the result head each mover reports. -/

/-- Placeholder snake for lookups that the Rust code would `unwrap`. -/
def dummySnake : Snake := ⟨"", 0, []⟩

/-- The result head of a mover: its move applied to the head of its
pre-loop snake. -/
def nhS (snakes : List (String × Snake)) (m : String × Dir) : Point :=
  m.2.resulting_point ((slookup snakes m.1).getD dummySnake).head

/-- Pointwise effect of the moves loop on the snake map: every snake with a
supplied move is updated once against the fixed food set. -/
def apply_moves (snakes : List (String × Snake))
    (moves : List (String × Dir)) (food : Finset Point) :
    List (String × Snake) :=
  snakes.map fun e =>
    match slookup moves e.1 with
    | some d => (e.1, (e.2.update_from_move d food).1)
    | none => e

theorem apply_moves_nil (snakes : List (String × Snake)) (food : Finset Point) :
    apply_moves snakes [] food = snakes := by
  unfold apply_moves
  simp [slookup]

theorem apply_moves_keys (snakes : List (String × Snake))
    (moves : List (String × Dir)) (food : Finset Point) :
    (apply_moves snakes moves food).map Prod.fst = snakes.map Prod.fst := by
  unfold apply_moves
  rw [List.map_map]
  apply List.map_congr_left
  intro e _
  rcases h : slookup moves e.1 with _ | d <;>
    simp [Function.comp_apply, h]

theorem apply_moves_cons (snakes : List (String × Snake)) (m : String × Dir)
    (rest : List (String × Dir)) (food : Finset Point) (sn : Snake)
    (hnd : (snakes.map Prod.fst).Nodup)
    (hm : slookup snakes m.1 = some sn)
    (hrest : m.1 ∉ rest.map Prod.fst) :
    apply_moves snakes (m :: rest) food =
      apply_moves
        (supdate snakes m.1 fun _ => (sn.update_from_move m.2 food).1)
        rest food := by
  unfold apply_moves supdate
  rw [List.map_map]
  apply List.map_congr_left
  intro e he
  by_cases hek : e.1 = m.1
  · have hesn : e.2 = sn := by
      have := slookup_of_mem_nodup snakes e hnd he
      rw [hek, hm] at this
      exact (Option.some.injEq _ _).mp this.symm
    have h1 : slookup (m :: rest) e.1 = some m.2 := by
      rw [slookup_cons, if_pos hek.symm]
    simp only [Function.comp_apply, h1, if_pos hek]
    have h2 : slookup rest m.1 = none := slookup_none_of_not_mem_keys _ _ hrest
    rw [hek, h2, hesn]
  · have h1 : slookup (m :: rest) e.1 = slookup rest e.1 := by
      rw [slookup_cons, if_neg (fun h => hek h.symm)]
    simp only [Function.comp_apply, h1, if_neg hek]

theorem update_from_move_head (s : Snake) (d : Dir) (food : Finset Point) :
    (s.update_from_move d food).2.1 = d.resulting_point s.head := by
  unfold Snake.update_from_move
  by_cases h : d.will_collect_food s food = true <;> simp [h]

theorem update_from_move_eaten (s : Snake) (d : Dir) (food : Finset Point) :
    (s.update_from_move d food).2.2 =
      if d.resulting_point s.head ∈ food then some (d.resulting_point s.head)
      else none := by
  unfold Snake.update_from_move Dir.will_collect_food
  by_cases h : d.resulting_point s.head ∈ food <;> simp [h]

theorem move_loop_cons (selfId : String) (food : Finset Point)
    (m : String × Dir) (rest : List (String × Dir)) (acc : MoveAcc) :
    move_loop selfId food (m :: rest) acc =
      move_loop selfId food rest (move_loop_step selfId food acc m) := rfl

/-- Full characterisation of the moves loop of `process_step`: updated
snakes, result heads, eaten-food set, pickup counters, and untouched
outcome flags. -/
theorem move_loop_full (selfId : String) (food : Finset Point)
    (snakes0 : List (String × Snake)) :
    ∀ (moves : List (String × Dir)) (acc : MoveAcc),
      (acc.snakes.map Prod.fst).Nodup →
      (moves.map Prod.fst).Nodup →
      (∀ m ∈ moves, slookup acc.snakes m.1 = slookup snakes0 m.1) →
      (∀ m ∈ moves, (slookup snakes0 m.1).isSome) →
      (move_loop selfId food moves acc).snakes =
          apply_moves acc.snakes moves food ∧
      (move_loop selfId food moves acc).results =
          acc.results ++ moves.map (fun m => (m.1, nhS snakes0 m)) ∧
      (move_loop selfId food moves acc).eaten =
          acc.eaten ∪
            ((moves.filter fun m => decide (nhS snakes0 m ∈ food)).map
              (nhS snakes0)).toFinset ∧
      (move_loop selfId food moves acc).fut.foods +
            (move_loop selfId food moves acc).fut.enemy_foods =
          acc.fut.foods + acc.fut.enemy_foods +
            (moves.filter fun m => decide (nhS snakes0 m ∈ food)).length ∧
      (move_loop selfId food moves acc).fut.alive = acc.fut.alive ∧
      (move_loop selfId food moves acc).fut.finished = acc.fut.finished ∧
      (move_loop selfId food moves acc).fut.dead_snakes =
        acc.fut.dead_snakes := by
  intro moves
  induction moves with
  | nil =>
    intro acc hknd hmnd hagree hsome
    simp [move_loop, apply_moves_nil]
  | cons m rest ih =>
    intro acc hknd hmnd hagree hsome
    have hsm : (slookup snakes0 m.1).isSome := hsome m (by simp)
    obtain ⟨sn, hsn⟩ : ∃ sn, slookup snakes0 m.1 = some sn := by
      cases h : slookup snakes0 m.1 with
      | none => rw [h] at hsm; simp at hsm
      | some sn => exact ⟨sn, rfl⟩
    have hacc_m : slookup acc.snakes m.1 = some sn := by
      rw [hagree m (by simp), hsn]
    have hnh : nhS snakes0 m = m.2.resulting_point sn.head := by
      unfold nhS
      rw [hsn]
      rfl
    have hrestkeys : m.1 ∉ rest.map Prod.fst := by
      simp only [List.map_cons, List.nodup_cons] at hmnd
      exact hmnd.1
    -- compute the step
    have hstep : move_loop_step selfId food acc m =
        { snakes :=
            supdate acc.snakes m.1 fun _ => (sn.update_from_move m.2 food).1,
          results := acc.results ++ [(m.1, (sn.update_from_move m.2 food).2.1)],
          eaten :=
            (if nhS snakes0 m ∈ food then insert (nhS snakes0 m) acc.eaten
             else acc.eaten),
          fut :=
            { (if m.1 = selfId then { acc.fut with dir := m.2 } else acc.fut) with
                foods :=
                  (if m.1 = selfId then { acc.fut with dir := m.2 } else acc.fut).foods +
                    (if nhS snakes0 m ∈ food ∧ m.1 = selfId then 1 else 0),
                enemy_foods :=
                  (if m.1 = selfId then { acc.fut with dir := m.2 } else acc.fut).enemy_foods +
                    (if nhS snakes0 m ∈ food ∧ m.1 ≠ selfId then 1 else 0) } } := by
      unfold move_loop_step
      rw [hacc_m]
      simp only [update_from_move_eaten]
      by_cases hcol : m.2.resulting_point sn.head ∈ food
      · rw [if_pos hcol]
        have hcol' : nhS snakes0 m ∈ food := by rw [hnh]; exact hcol
        by_cases hself : m.1 = selfId
        · simp [hself, hcol, hcol', hnh]
        · simp [hself, hcol, hcol', hnh]
      · rw [if_neg hcol]
        have hcol' : ¬ nhS snakes0 m ∈ food := by rw [hnh]; exact hcol
        by_cases hself : m.1 = selfId
        · simp [hself, hcol, hcol']
        · simp [hself, hcol, hcol']
    -- apply the induction hypothesis to the stepped accumulator
    set acc1 := move_loop_step selfId food acc m with hacc1
    have hknd1 : (acc1.snakes.map Prod.fst).Nodup := by
      rw [hstep]
      simpa [supdate_keys] using hknd
    have hmnd1 : (rest.map Prod.fst).Nodup := by
      simp only [List.map_cons, List.nodup_cons] at hmnd
      exact hmnd.2
    have hagree1 : ∀ m' ∈ rest, slookup acc1.snakes m'.1 = slookup snakes0 m'.1 := by
      intro m' hm'
      rw [hstep]
      show slookup
        (supdate acc.snakes m.1 fun _ => (sn.update_from_move m.2 food).1)
        m'.1 = _
      rw [slookup_supdate_ne]
      · exact hagree m' (by simp [hm'])
      · intro heq
        exact hrestkeys (heq ▸ List.mem_map.mpr ⟨m', hm', rfl⟩)
    have hsome1 : ∀ m' ∈ rest, (slookup snakes0 m'.1).isSome := fun m' hm' =>
      hsome m' (by simp [hm'])
    obtain ⟨i1, i2, i3, i4, i5, i6, i7⟩ := ih acc1 hknd1 hmnd1 hagree1 hsome1
    rw [move_loop_cons]
    refine ⟨?_, ?_, ?_, ?_, ?_, ?_, ?_⟩
    · rw [i1, hstep]
      exact (apply_moves_cons acc.snakes m rest food sn hknd hacc_m
        hrestkeys).symm
    · rw [i2, hstep]
      have hhead : (sn.update_from_move m.2 food).2.1 = nhS snakes0 m := by
        rw [update_from_move_head, hnh]
      simp [hhead]
    · rw [i3, hstep]
      by_cases hcol : nhS snakes0 m ∈ food
      · have hfilter :
            List.filter (fun m' => decide (nhS snakes0 m' ∈ food)) (m :: rest) =
              m :: List.filter (fun m' => decide (nhS snakes0 m' ∈ food)) rest := by
          simp [List.filter_cons, hcol]
        rw [if_pos hcol, hfilter, List.map_cons, List.toFinset_cons,
          Finset.insert_union, ← Finset.union_insert]
      · have hfilter :
            List.filter (fun m' => decide (nhS snakes0 m' ∈ food)) (m :: rest) =
              List.filter (fun m' => decide (nhS snakes0 m' ∈ food)) rest := by
          simp [List.filter_cons, hcol]
        rw [if_neg hcol, hfilter]
    · rw [i4, hstep]
      by_cases hcol : nhS snakes0 m ∈ food
      · by_cases hself : m.1 = selfId
        · simp only [List.filter_cons, hcol, hself]
          simp [hcol, hself]
          omega
        · simp only [List.filter_cons, hcol, hself]
          simp [hcol, hself]
          omega
      · by_cases hself : m.1 = selfId
        · simp only [List.filter_cons, hcol, hself]
          simp [hcol, hself]
        · simp only [List.filter_cons, hcol, hself]
          simp [hcol, hself]
    · rw [i5, hstep]
      by_cases hself : m.1 = selfId <;> simp [hself]
    · rw [i6, hstep]
      by_cases hself : m.1 = selfId <;> simp [hself]
    · rw [i7, hstep]
      by_cases hself : m.1 = selfId <;> simp [hself]

/-! ### The validity loop does not touch the pickup counters -/

theorem check_foldl_keeps (selfId : String) (stMid : GState) :
    ∀ (results : List (String × Point)) (acc : List String × Future),
      (results.foldl (check_step selfId stMid) acc).2.foods = acc.2.foods ∧
      (results.foldl (check_step selfId stMid) acc).2.enemy_foods =
        acc.2.enemy_foods ∧
      (results.foldl (check_step selfId stMid) acc).2.dir = acc.2.dir := by
  intro results
  induction results with
  | nil => intro acc; exact ⟨rfl, rfl, rfl⟩
  | cons r rest ih =>
    intro acc
    rw [List.foldl_cons]
    obtain ⟨h1, h2, h3⟩ := ih (check_step selfId stMid acc r)
    have hstep : (check_step selfId stMid acc r).2.foods = acc.2.foods ∧
        (check_step selfId stMid acc r).2.enemy_foods = acc.2.enemy_foods ∧
        (check_step selfId stMid acc r).2.dir = acc.2.dir := by
      cases hl : slookup stMid.board.snakes r.1 with
      | none => simp [check_step, hl]
      | some sn =>
        simp only [check_step, hl]
        by_cases hd : ¬ (r.2.is_valid sn stMid = true) ∨ sn.health = 0
        · rw [if_pos hd]
          by_cases hs : r.1 = selfId
          · rw [if_pos hs]; exact ⟨rfl, rfl, rfl⟩
          · rw [if_neg hs]; exact ⟨rfl, rfl, rfl⟩
        · rw [if_neg hd]; exact ⟨rfl, rfl, rfl⟩
    exact ⟨h1.trans hstep.1, h2.trans hstep.2.1, h3.trans hstep.2.2⟩

theorem process_step_fut_foods (st : GState) (selfId : String)
    (moves : List (String × Dir)) :
    (process_step st selfId moves).2.foods =
        (ps_acc st selfId moves).fut.foods ∧
    (process_step st selfId moves).2.enemy_foods =
      (ps_acc st selfId moves).fut.enemy_foods := by
  obtain ⟨h1, h2, _⟩ := check_foldl_keeps selfId (ps_mid st selfId moves)
    (ps_results st selfId moves) ([], (ps_acc st selfId moves).fut)
  unfold process_step check_loop
  dsimp only
  constructor
  · split
    · exact h1
    · exact h1
  · split
    · exact h2
    · exact h2

/-! ## Claim C3: food accounting of the Turn Simulator -/

/-- The result head of a mover in the pre-turn state. -/
def new_head (st : GState) (m : String × Dir) : Point :=
  nhS st.board.snakes m

/-- The set of food cells picked up in a turn, judged against the pre-turn
food set (simultaneous semantics). -/
def eaten_foods (st : GState) (moves : List (String × Dir)) : Finset Point :=
  ((moves.filter fun m => decide (new_head st m ∈ st.board.food)).map
    (new_head st)).toFinset

/-- Claim C3: the Turn Simulator removes exactly the set of food cells
picked up this turn (each cell removed once, as a set difference), every
removed cell was present in the pre-turn food set, and every mover's pickup
is judged against the pre-turn food set — so the total pickup count equals
the number of movers landing on pre-turn food cells even when two movers
hit the same cell. -/
theorem c3_food_removal (st : GState) (selfId : String)
    (moves : List (String × Dir))
    (hknd : (st.board.snakes.map Prod.fst).Nodup)
    (hmnd : (moves.map Prod.fst).Nodup)
    (hpresent : ∀ m ∈ moves, (slookup st.board.snakes m.1).isSome)
    (hbody : ∀ e ∈ st.board.snakes, e.2.body ≠ []) :
    (process_step st selfId moves).1.board.food =
        st.board.food \ eaten_foods st moves ∧
    eaten_foods st moves ⊆ st.board.food ∧
    (process_step st selfId moves).2.foods +
        (process_step st selfId moves).2.enemy_foods =
      (moves.filter fun m => decide (new_head st m ∈ st.board.food)).length := by
  obtain ⟨_, _, he, hc, _, _, _⟩ := move_loop_full selfId st.board.food
    st.board.snakes moves ⟨st.board.snakes, [], ∅, ps_init_fut⟩ hknd hmnd
    (fun m _ => rfl) hpresent
  have hacc : ps_acc st selfId moves =
      move_loop selfId st.board.food moves
        ⟨st.board.snakes, [], ∅, ps_init_fut⟩ := rfl
  refine ⟨?_, ?_, ?_⟩
  · have hfood : (process_step st selfId moves).1.board.food =
        st.board.food \ (ps_acc st selfId moves).eaten := rfl
    rw [hfood, hacc, he]
    simp only [Finset.empty_union]
    rfl
  · intro x hx
    simp only [eaten_foods, List.mem_toFinset, List.mem_map,
      List.mem_filter, decide_eq_true_eq] at hx
    obtain ⟨m, ⟨_, hmem⟩, rfl⟩ := hx
    exact hmem
  · obtain ⟨hf, hef⟩ := process_step_fut_foods st selfId moves
    rw [hf, hef, hacc]
    simpa [ps_init_fut] using hc

/-! ## Machinery for claim C1: the validity and removal phases -/

theorem scontains_append {α : Type} (l1 l2 : List (String × α)) (k : String) :
    scontains (l1 ++ l2) k = (scontains l1 k || scontains l2 k) := by
  simp [scontains, List.any_append]

theorem scontains_eq_mem_keys {α : Type} (l : List (String × α)) (k : String) :
    scontains l k = decide (k ∈ l.map Prod.fst) := by
  induction l with
  | nil => rfl
  | cons e rest ih =>
    simp only [scontains, List.any_cons, List.map_cons, List.mem_cons] at *
    rw [ih]
    by_cases h1 : e.1 = k
    · simp [h1]
    · have h1' : ¬ k = e.1 := fun h => h1 h.symm
      simp [h1, h1']

/-- `add_non_movers` appends exactly the snakes whose key is not already a
result key (snake-map keys must be distinct). -/
theorem add_non_movers_eq (snakes : List (String × Snake)) :
    ∀ (rs : List (String × Point)),
      (snakes.map Prod.fst).Nodup →
      add_non_movers snakes rs =
        rs ++ (snakes.filter fun e => !(scontains rs e.1)).map
          (fun e => (e.1, e.2.head)) := by
  induction snakes with
  | nil =>
    intro rs _
    unfold add_non_movers
    simp
  | cons e rest ih =>
    intro rs hnd
    simp only [List.map_cons, List.nodup_cons] at hnd
    unfold add_non_movers
    rw [List.foldl_cons]
    by_cases hc : scontains rs e.1 = true
    · rw [if_pos hc]
      have := ih rs hnd.2
      unfold add_non_movers at this
      rw [this, List.filter_cons]
      simp [hc]
    · rw [if_neg hc]
      have := ih (rs ++ [(e.1, e.2.head)]) hnd.2
      unfold add_non_movers at this
      rw [this, List.filter_cons]
      have hfe : ∀ e' ∈ rest,
          scontains (rs ++ [(e.1, e.2.head)]) e'.1 = scontains rs e'.1 := by
        intro e' he'
        rw [scontains_append]
        have : scontains [(e.1, e.2.head)] e'.1 = false := by
          simp only [scontains, List.any_cons, List.any_nil, Bool.or_false]
          simp only [decide_eq_false_iff_not]
          intro hk
          exact hnd.1 (hk ▸ List.mem_map.mpr ⟨e', he', rfl⟩)
        rw [this, Bool.or_false]
      have hfilter : rest.filter (fun e' => !(scontains (rs ++ [(e.1, e.2.head)]) e'.1))
          = rest.filter (fun e' => !(scontains rs e'.1)) := by
        apply List.filter_congr
        intro e' he'
        rw [hfe e' he']
      rw [hfilter]
      simp [hc, List.append_assoc]

theorem slookup_apply_moves (snakes : List (String × Snake))
    (moves : List (String × Dir)) (food : Finset Point) (k : String) :
    slookup (apply_moves snakes moves food) k =
      (slookup snakes k).map fun sn =>
        match slookup moves k with
        | some d => (sn.update_from_move d food).1
        | none => sn := by
  induction snakes with
  | nil => rfl
  | cons e rest ih =>
    obtain ⟨k', v⟩ := e
    unfold apply_moves
    rw [List.map_cons]
    cases hm : slookup moves k' with
    | none =>
      simp only [hm]
      rw [slookup_cons, slookup_cons]
      by_cases hk : k' = k
      · subst hk
        rw [if_pos rfl, if_pos rfl, hm]
        rfl
      · rw [if_neg hk, if_neg hk]
        exact ih
    | some d =>
      simp only [hm]
      rw [slookup_cons, slookup_cons]
      by_cases hk : k' = k
      · subst hk
        rw [if_pos rfl, if_pos rfl, hm]
        rfl
      · rw [if_neg hk, if_neg hk]
        exact ih

/-- After a non-panicking `update_from_move`, the snake's head is the move's
resulting point. -/
theorem update_from_move_fst_head (s : Snake) (d : Dir) (food : Finset Point)
    (h : s.body ≠ []) :
    (s.update_from_move d food).1.head = d.resulting_point s.head := by
  obtain ⟨x, xs, hx⟩ : ∃ x xs, s.body = x :: xs := by
    cases hb : s.body with
    | nil => exact absurd hb h
    | cons x xs => exact ⟨x, xs, rfl⟩
  have hh : s.head = x := by simp [Snake.head, hx]
  unfold Snake.update_from_move
  by_cases hc : d.will_collect_food s food = true
  · rw [if_pos hc]
    simp only [hh, hx, List.dropLast_cons₂, Snake.head]
    cases hgl : ((d.resulting_point x :: (x :: xs).dropLast).getLast? : Option Point) with
    | none => simp [hgl]
    | some p => simp [hgl]
  · rw [if_neg hc]
    simp only [hh, hx, List.dropLast_cons₂, Snake.head]
    simp

/-- The snake-removal loop at the end of `process_step` filters out exactly
the collected ids. -/
theorem foldl_sremove_eq (ids : List String) :
    ∀ (snakes : List (String × Snake)),
      ids.foldl (fun sns id => sremove sns id) snakes =
        snakes.filter fun e => decide (e.1 ∉ ids) := by
  induction ids with
  | nil => intro snakes; simp
  | cons i rest ih =>
    intro snakes
    rw [List.foldl_cons, ih, sremove, List.filter_filter]
    apply List.filter_congr
    intro e _
    simp only [List.mem_cons, decide_not]
    by_cases h1 : e.1 = i <;> by_cases h2 : e.1 ∈ rest <;> simp [h1, h2]

/-- Whether the snake registered under `id` in the post-move state is
invalid or starved (the per-agent death test of the validity loop). -/
def dead_id (stMid : GState) (id : String) : Bool :=
  match slookup stMid.board.snakes id with
  | none => false
  | some sn => !(sn.head.is_valid sn stMid) || decide (sn.health = 0)

/-- Full characterisation of the validity loop, provided every result entry
carries the current head of the snake it refers to. -/
theorem check_loop_full (selfId : String) (stMid : GState) :
    ∀ (results : List (String × Point)) (acc : List String × Future),
      (∀ r ∈ results, ∀ sn, slookup stMid.board.snakes r.1 = some sn →
        r.2 = sn.head) →
      (results.foldl (check_step selfId stMid) acc).1 =
          acc.1 ++ (results.filter fun r =>
            dead_id stMid r.1 && !(r.1 = selfId)).map Prod.fst ∧
      (results.foldl (check_step selfId stMid) acc).2.dead_snakes =
          acc.2.dead_snakes + (results.filter fun r =>
            dead_id stMid r.1 && !(r.1 = selfId)).length ∧
      (results.foldl (check_step selfId stMid) acc).2.alive =
          (acc.2.alive && !(results.any fun r =>
            r.1 = selfId && dead_id stMid r.1)) ∧
      (results.foldl (check_step selfId stMid) acc).2.finished =
          (acc.2.finished || (results.any fun r =>
            r.1 = selfId && dead_id stMid r.1)) := by
  intro results
  induction results with
  | nil =>
    intro acc _
    simp
  | cons r rest ih =>
    intro acc hheads
    have hhead_r := hheads r (by simp)
    have hheads' : ∀ r' ∈ rest, ∀ sn,
        slookup stMid.board.snakes r'.1 = some sn → r'.2 = sn.head :=
      fun r' hr' => hheads r' (by simp [hr'])
    rw [List.foldl_cons]
    obtain ⟨i1, i2, i3, i4⟩ := ih (check_step selfId stMid acc r) hheads'
    -- evaluate the step on r
    cases hl : slookup stMid.board.snakes r.1 with
    | none =>
      have hstep : check_step selfId stMid acc r = acc := by
        simp [check_step, hl]
      have hdead : dead_id stMid r.1 = false := by
        simp [dead_id, hl]
      rw [hstep] at i1 i2 i3 i4 ⊢
      refine ⟨?_, ?_, ?_, ?_⟩
      · rw [i1, List.filter_cons]
        simp [hdead]
      · rw [i2, List.filter_cons]
        simp [hdead]
      · rw [i3, List.any_cons]
        simp [hdead]
      · rw [i4, List.any_cons]
        simp [hdead]
    | some sn =>
      have hr2 : r.2 = sn.head := hhead_r sn hl
      have hdead : dead_id stMid r.1 =
          (!(sn.head.is_valid sn stMid) || decide (sn.health = 0)) := by
        simp [dead_id, hl]
      by_cases hd : ¬ (r.2.is_valid sn stMid = true) ∨ sn.health = 0
      · have hdead_t : dead_id stMid r.1 = true := by
          rw [hdead, hr2] at *
          rcases hd with hd | hd
          · simp [Bool.eq_false_iff.mpr hd]
          · simp [hd]
        by_cases hs : r.1 = selfId
        · have hstep : check_step selfId stMid acc r =
              (acc.1, { acc.2 with alive := false, finished := true }) := by
            simp only [check_step, hl]
            rw [if_pos hd, if_pos hs]
          rw [hstep] at i1 i2 i3 i4 ⊢
          refine ⟨?_, ?_, ?_, ?_⟩
          · rw [i1, List.filter_cons]
            simp [hs]
          · rw [i2, List.filter_cons]
            simp [hs]
          · rw [i3, List.any_cons]
            have hdead_s : dead_id stMid selfId = true := by
              rw [← hs]; exact hdead_t
            simp [hs, hdead_s]
          · rw [i4, List.any_cons]
            have hdead_s : dead_id stMid selfId = true := by
              rw [← hs]; exact hdead_t
            simp [hs, hdead_s]
        · have hstep : check_step selfId stMid acc r =
              (acc.1 ++ [r.1],
                { acc.2 with dead_snakes := acc.2.dead_snakes + 1 }) := by
            simp only [check_step, hl]
            rw [if_pos hd, if_neg hs]
          rw [hstep] at i1 i2 i3 i4 ⊢
          refine ⟨?_, ?_, ?_, ?_⟩
          · rw [i1, List.filter_cons]
            simp [hs, hdead_t]
          · rw [i2, List.filter_cons]
            simp [hs, hdead_t]
            omega
          · rw [i3, List.any_cons]
            simp [hs]
          · rw [i4, List.any_cons]
            simp [hs]
      · have hdead_f : dead_id stMid r.1 = false := by
          rw [hdead]
          push_neg at hd
          simp [hr2 ▸ hd.1, hd.2]
        have hstep : check_step selfId stMid acc r = acc := by
          simp only [check_step, hl]
          rw [if_neg hd]
        rw [hstep] at i1 i2 i3 i4 ⊢
        refine ⟨?_, ?_, ?_, ?_⟩
        · rw [i1, List.filter_cons]
          simp [hdead_f]
        · rw [i2, List.filter_cons]
          simp [hdead_f]
        · rw [i3, List.any_cons]
          simp [hdead_f]
        · rw [i4, List.any_cons]
          simp [hdead_f]

theorem mem_of_slookup_eq_some {α : Type} (l : List (String × α))
    (k : String) (v : α) (h : slookup l k = some v) : (k, v) ∈ l := by
  induction l with
  | nil => simp at h
  | cons e rest ih =>
    rw [slookup_cons] at h
    by_cases he : e.1 = k
    · rw [if_pos he] at h
      have hv : e.2 = v := (Option.some.injEq _ _).mp h
      have hekv : e = (k, v) := by
        obtain ⟨k', v'⟩ := e
        simp only at he hv
        rw [he, hv]
      rw [← hekv]
      exact List.mem_cons_self _ _
    · rw [if_neg he] at h
      exact List.mem_cons.mpr (Or.inr (ih h))

theorem mem_keys_of_slookup_isSome {α : Type} (l : List (String × α))
    (k : String) (h : (slookup l k).isSome) : k ∈ l.map Prod.fst := by
  cases hl : slookup l k with
  | none => rw [hl] at h; simp at h
  | some v => exact List.mem_map.mpr ⟨(k, v), mem_of_slookup_eq_some l k v hl, rfl⟩

/-- Keys of the mover part of the result map. -/
theorem movers_results_keys (snakes0 : List (String × Snake))
    (moves : List (String × Dir)) :
    (moves.map fun m => (m.1, nhS snakes0 m)).map Prod.fst =
      moves.map Prod.fst := by
  rw [List.map_map]
  rfl

/-- Well-formedness facts about the result map fed to the validity loop:
every entry carries the current head of the snake it refers to, keys are
distinct, and the keys are a permutation of the post-move snake map keys. -/
theorem ps_results_spec (st : GState) (selfId : String)
    (moves : List (String × Dir))
    (hknd : (st.board.snakes.map Prod.fst).Nodup)
    (hmnd : (moves.map Prod.fst).Nodup)
    (hpresent : ∀ m ∈ moves, (slookup st.board.snakes m.1).isSome)
    (hbody : ∀ e ∈ st.board.snakes, e.2.body ≠ []) :
    (∀ r ∈ ps_results st selfId moves, ∀ sn,
      slookup (ps_mid st selfId moves).board.snakes r.1 = some sn →
        r.2 = sn.head) ∧
    ((ps_results st selfId moves).map Prod.fst).Nodup ∧
    ((ps_results st selfId moves).map Prod.fst).Perm
      ((ps_mid st selfId moves).board.snakes.map Prod.fst) := by
  obtain ⟨h1, h2, _, _, _, _, _⟩ := move_loop_full selfId st.board.food
    st.board.snakes moves ⟨st.board.snakes, [], ∅, ps_init_fut⟩ hknd hmnd
    (fun m _ => rfl) hpresent
  have hsnakes : (ps_acc st selfId moves).snakes =
      apply_moves st.board.snakes moves st.board.food := h1
  have hres : (ps_acc st selfId moves).results =
      moves.map (fun m => (m.1, nhS st.board.snakes m)) := by
    rw [show (ps_acc st selfId moves).results =
      (move_loop selfId st.board.food moves
        ⟨st.board.snakes, [], ∅, ps_init_fut⟩).results from rfl, h2]
    simp
  have hmid : (ps_mid st selfId moves).board.snakes =
      apply_moves st.board.snakes moves st.board.food := hsnakes
  have hmidkeys : (ps_mid st selfId moves).board.snakes.map Prod.fst =
      st.board.snakes.map Prod.fst := by
    rw [hmid, apply_moves_keys]
  have hmidnd : ((ps_mid st selfId moves).board.snakes.map Prod.fst).Nodup := by
    rw [hmidkeys]; exact hknd
  have hresults : ps_results st selfId moves =
      (moves.map fun m => (m.1, nhS st.board.snakes m)) ++
        ((ps_mid st selfId moves).board.snakes.filter fun e =>
          !(scontains (moves.map fun m => (m.1, nhS st.board.snakes m)) e.1)).map
          (fun e => (e.1, e.2.head)) := by
    show add_non_movers (ps_acc st selfId moves).snakes
      (ps_acc st selfId moves).results = _
    rw [hres, hsnakes, ← hmid]
    exact add_non_movers_eq _ _ hmidnd
  have hsc : ∀ k, scontains (moves.map fun m => (m.1, nhS st.board.snakes m)) k =
      decide (k ∈ moves.map Prod.fst) := by
    intro k
    rw [scontains_eq_mem_keys, movers_results_keys]
  refine ⟨?_, ?_, ?_⟩
  · intro r hr sn hsn
    rw [hresults] at hr
    rcases List.mem_append.mp hr with hr | hr
    · obtain ⟨m, hm, hmr⟩ := List.mem_map.mp hr
      obtain ⟨sn0, hsn0⟩ : ∃ sn0, slookup st.board.snakes m.1 = some sn0 := by
        cases hq : slookup st.board.snakes m.1 with
        | none =>
          have := hpresent m hm
          rw [hq] at this
          simp at this
        | some sn0 => exact ⟨sn0, rfl⟩
      have hmv : slookup moves m.1 = some m.2 :=
        slookup_of_mem_nodup moves m hmnd hm
      have hlook : slookup (ps_mid st selfId moves).board.snakes m.1 =
          some ((sn0.update_from_move m.2 st.board.food).1) := by
        rw [hmid, slookup_apply_moves, hsn0, hmv]
        rfl
      rw [← hmr] at hsn ⊢
      simp only at hsn
      rw [hlook] at hsn
      have hsn' : sn = (sn0.update_from_move m.2 st.board.food).1 :=
        ((Option.some.injEq _ _).mp hsn).symm
      have hb0 : sn0.body ≠ [] :=
        hbody (m.1, sn0) (mem_of_slookup_eq_some _ _ _ hsn0)
      show nhS st.board.snakes m = sn.head
      rw [hsn', update_from_move_fst_head sn0 m.2 st.board.food hb0]
      unfold nhS
      rw [hsn0]
      rfl
    · obtain ⟨e, he, her⟩ := List.mem_map.mp hr
      have he' : e ∈ (ps_mid st selfId moves).board.snakes :=
        List.mem_of_mem_filter he
      have hlook : slookup (ps_mid st selfId moves).board.snakes e.1 =
          some e.2 := slookup_of_mem_nodup _ e hmidnd he'
      rw [← her] at hsn ⊢
      simp only at hsn
      rw [hlook] at hsn
      rw [((Option.some.injEq _ _).mp hsn).symm]
  · rw [hresults, List.map_append, movers_results_keys]
    rw [List.nodup_append]
    refine ⟨hmnd, ?_, ?_⟩
    · rw [List.map_map]
      have hsub : ((ps_mid st selfId moves).board.snakes.filter fun e =>
          !(scontains (moves.map fun m => (m.1, nhS st.board.snakes m)) e.1)).map
            (Prod.fst ∘ fun e => (e.1, e.2.head)) =
          ((ps_mid st selfId moves).board.snakes.filter fun e =>
          !(scontains (moves.map fun m => (m.1, nhS st.board.snakes m)) e.1)).map
            Prod.fst := rfl
      rw [hsub]
      exact hmidnd.sublist ((List.filter_sublist _).map Prod.fst)
    · intro k hk hk'
      rw [List.map_map] at hk'
      obtain ⟨e, he, hek⟩ := List.mem_map.mp hk'
      have := List.of_mem_filter he
      rw [hsc] at this
      simp only [Bool.not_eq_true', decide_eq_false_iff_not] at this
      apply this
      show e.1 ∈ moves.map Prod.fst
      have : (Prod.fst ∘ fun e : String × Snake => (e.1, e.2.head)) e = e.1 := rfl
      rw [this] at hek
      rw [hek]
      exact hk
  · apply List.perm_of_nodup_nodup_toFinset_eq
    · rw [hresults, List.map_append, movers_results_keys, List.nodup_append]
      refine ⟨hmnd, ?_, ?_⟩
      · rw [List.map_map]
        exact hmidnd.sublist ((List.filter_sublist _).map Prod.fst)
      · intro k hk hk'
        rw [List.map_map] at hk'
        obtain ⟨e, he, hek⟩ := List.mem_map.mp hk'
        have := List.of_mem_filter he
        rw [hsc] at this
        simp only [Bool.not_eq_true', decide_eq_false_iff_not] at this
        apply this
        show e.1 ∈ moves.map Prod.fst
        rw [show (Prod.fst ∘ fun e : String × Snake => (e.1, e.2.head)) e = e.1
          from rfl] at hek
        rw [hek]
        exact hk
    · exact hmidnd
    · ext k
      simp only [List.mem_toFinset]
      rw [hresults, List.map_append, movers_results_keys, List.map_map]
      constructor
      · intro hk
        rcases List.mem_append.mp hk with hk | hk
        · rw [hmidkeys]
          obtain ⟨m, hm, hmk⟩ := List.mem_map.mp hk
          have := hpresent m hm
          rw [hmk] at this
          exact mem_keys_of_slookup_isSome _ _ this
        · obtain ⟨e, he, hek⟩ := List.mem_map.mp hk
          rw [show (Prod.fst ∘ fun e : String × Snake => (e.1, e.2.head)) e = e.1
            from rfl] at hek
          exact hek ▸ List.mem_map.mpr ⟨e, List.mem_of_mem_filter he, rfl⟩
      · intro hk
        by_cases hmv : k ∈ moves.map Prod.fst
        · exact List.mem_append.mpr (Or.inl hmv)
        · obtain ⟨e, he, hek⟩ := List.mem_map.mp hk
          refine List.mem_append.mpr (Or.inr ?_)
          apply List.mem_map.mpr
          refine ⟨e, ?_, hek⟩
          apply List.mem_filter.mpr
          refine ⟨he, ?_⟩
          rw [hsc]
          simp only [Bool.not_eq_true', decide_eq_false_iff_not]
          rw [hek]
          exact hmv

theorem process_step_proj (st : GState) (selfId : String)
    (moves : List (String × Dir)) :
    (process_step st selfId moves).2.alive =
        (check_loop selfId (ps_mid st selfId moves)
          (ps_results st selfId moves) (ps_acc st selfId moves).fut).2.alive ∧
    (process_step st selfId moves).2.dead_snakes =
        (check_loop selfId (ps_mid st selfId moves)
          (ps_results st selfId moves) (ps_acc st selfId moves).fut).2.dead_snakes ∧
    (process_step st selfId moves).1.board.snakes =
        (check_loop selfId (ps_mid st selfId moves)
          (ps_results st selfId moves) (ps_acc st selfId moves).fut).1.foldl
          (fun sns id => sremove sns id) (ps_mid st selfId moves).board.snakes ∧
    (process_step st selfId moves).2.foods =
        (check_loop selfId (ps_mid st selfId moves)
          (ps_results st selfId moves) (ps_acc st selfId moves).fut).2.foods ∧
    (process_step st selfId moves).2.enemy_foods =
        (check_loop selfId (ps_mid st selfId moves)
          (ps_results st selfId moves) (ps_acc st selfId moves).fut).2.enemy_foods ∧
    (process_step st selfId moves).2.dir =
        (check_loop selfId (ps_mid st selfId moves)
          (ps_results st selfId moves) (ps_acc st selfId moves).fut).2.dir := by
  unfold process_step
  dsimp only
  refine ⟨?_, ?_, rfl, ?_, ?_, ?_⟩ <;> (split <;> rfl)

/-- Claim C1 (amended).  The source sets `alive := false` and
`finished := true` when the protagonist is invalid or starved, but it does
NOT stop removing agents: every invalid or starved non-protagonist is still
removed from the board in the same call and counted in `dead_snakes`.  This
theorem proves the amended statement: given the protagonist died this turn,
the outcome is finished, the surviving snake map is exactly the post-move
map with every dead non-protagonist filtered out, and `dead_snakes` counts
those dead non-protagonists. -/
theorem c1_amended (st : GState) (selfId : String)
    (moves : List (String × Dir))
    (hknd : (st.board.snakes.map Prod.fst).Nodup)
    (hmnd : (moves.map Prod.fst).Nodup)
    (hpresent : ∀ m ∈ moves, (slookup st.board.snakes m.1).isSome)
    (hbody : ∀ e ∈ st.board.snakes, e.2.body ≠ [])
    (halive : (process_step st selfId moves).2.alive = false) :
    (process_step st selfId moves).2.finished = true ∧
    (process_step st selfId moves).1.board.snakes =
      (ps_mid st selfId moves).board.snakes.filter
        (fun e => !(dead_id (ps_mid st selfId moves) e.1 &&
          !(decide (e.1 = selfId)))) ∧
    (process_step st selfId moves).2.dead_snakes =
      ((ps_mid st selfId moves).board.snakes.filter
        (fun e => dead_id (ps_mid st selfId moves) e.1 &&
          !(decide (e.1 = selfId)))).length := by
  obtain ⟨hheads, hndres, hperm⟩ := ps_results_spec st selfId moves hknd hmnd
    hpresent hbody
  obtain ⟨hc1, hc2, hc3, hc4⟩ := check_loop_full selfId (ps_mid st selfId moves)
    (ps_results st selfId moves) ([], (ps_acc st selfId moves).fut) hheads
  obtain ⟨_, _, _, _, ha, hf, hd⟩ := move_loop_full selfId st.board.food
    st.board.snakes moves ⟨st.board.snakes, [], ∅, ps_init_fut⟩ hknd hmnd
    (fun m _ => rfl) hpresent
  have ha' : (ps_acc st selfId moves).fut.alive = true := ha
  have hf' : (ps_acc st selfId moves).fut.finished = false := hf
  have hd' : (ps_acc st selfId moves).fut.dead_snakes = 0 := hd
  obtain ⟨hp_alive, hp_dead, hp_snakes, hp_foods, hp_efoods, hp_dir⟩ :=
    process_step_proj st selfId moves
  have hchk :
      check_loop selfId (ps_mid st selfId moves) (ps_results st selfId moves)
        (ps_acc st selfId moves).fut =
      (ps_results st selfId moves).foldl
        (check_step selfId (ps_mid st selfId moves))
        ([], (ps_acc st selfId moves).fut) := rfl
  -- the protagonist's entry was found dead
  have hX : ((ps_results st selfId moves).any fun r =>
      decide (r.1 = selfId) && dead_id (ps_mid st selfId moves) r.1) = true := by
    have := halive
    rw [hp_alive, hchk, hc3, ha', Bool.true_and] at this
    simpa using this
  refine ⟨?_, ?_, ?_⟩
  · -- finished
    unfold process_step
    dsimp only
    split
    · rfl
    · rw [hchk, hc4, hf', hX]
      rfl
  · -- the surviving snake map
    rw [hp_snakes, hchk, hc1, foldl_sremove_eq]
    apply List.filter_congr
    intro e he
    have hmem : e.1 ∈ (ps_results st selfId moves).map Prod.fst :=
      hperm.mem_iff.mpr (List.mem_map.mpr ⟨e, he, rfl⟩)
    simp only [List.nil_append]
    by_cases hdead : (dead_id (ps_mid st selfId moves) e.1 &&
        !(decide (e.1 = selfId))) = true
    · have : e.1 ∈ (List.filter
          (fun r => dead_id (ps_mid st selfId moves) r.1 &&
            !(decide (r.1 = selfId))) (ps_results st selfId moves)).map
          Prod.fst := by
        obtain ⟨r, hr, hrk⟩ := List.mem_map.mp hmem
        apply List.mem_map.mpr
        refine ⟨r, List.mem_filter.mpr ⟨hr, ?_⟩, hrk⟩
        rw [hrk]
        exact hdead
      simp [this, hdead]
    · have : e.1 ∉ (List.filter
          (fun r => dead_id (ps_mid st selfId moves) r.1 &&
            !(decide (r.1 = selfId))) (ps_results st selfId moves)).map
          Prod.fst := by
        intro hin
        obtain ⟨r, hr, hrk⟩ := List.mem_map.mp hin
        have := List.of_mem_filter hr
        rw [hrk] at this
        exact hdead this
      simp [this, hdead]
  · -- the dead count
    rw [hp_dead, hchk, hc2, hd', Nat.zero_add]
    rw [← List.countP_eq_length_filter, ← List.countP_eq_length_filter]
    have h1 : (ps_results st selfId moves).countP
        (fun r => dead_id (ps_mid st selfId moves) r.1 &&
          !(decide (r.1 = selfId))) =
        ((ps_results st selfId moves).map Prod.fst).countP
        (fun k => dead_id (ps_mid st selfId moves) k &&
          !(decide (k = selfId))) := by
      rw [List.countP_map]
      rfl
    have h2 : ((ps_mid st selfId moves).board.snakes).countP
        (fun e => dead_id (ps_mid st selfId moves) e.1 &&
          !(decide (e.1 = selfId))) =
        (((ps_mid st selfId moves).board.snakes).map Prod.fst).countP
        (fun k => dead_id (ps_mid st selfId moves) k &&
          !(decide (k = selfId))) := by
      rw [List.countP_map]
      rfl
    rw [h1, h2]
    exact hperm.countP_eq _

/-! ## Concrete example states used by witnesses and counterexamples -/

/-- A quiet two-snake state: both snakes far apart, one food cell. -/
def exSt : GState :=
  ⟨3, ⟨7, 7, {⟨3, 3⟩}, [("a", ⟨"a", 90, [⟨1, 1⟩, ⟨1, 2⟩, ⟨1, 3⟩]⟩),
    ("b", ⟨"b", 90, [⟨5, 5⟩, ⟨5, 4⟩, ⟨5, 3⟩]⟩)]⟩⟩

/-- A three-snake state where the protagonist "a" and the enemy "b" both
move out of bounds while "c" stays alive. -/
def exC1 : GState :=
  ⟨0, ⟨5, 5, ∅, [("a", ⟨"a", 50, [⟨0, 0⟩, ⟨0, 1⟩]⟩),
    ("b", ⟨"b", 50, [⟨4, 4⟩, ⟨4, 3⟩]⟩),
    ("c", ⟨"c", 50, [⟨2, 2⟩, ⟨2, 1⟩]⟩)]⟩⟩

/-- Moves driving "a" and "b" out of bounds. -/
def exC1Moves : List (String × Dir) := [("a", .Up), ("b", .Down), ("c", .Down)]

/-- Counterexample to C1 as stated: the protagonist "a" dies this turn
(alive = false, finished = true) and its death is resolved first in
iteration order, yet the dead enemy "b" is still removed from the board in
the same call — the claim asserts no non-protagonist is removed. -/
theorem c1_counterexample :
    (process_step exC1 "a" exC1Moves).2.alive = false ∧
    (process_step exC1 "a" exC1Moves).2.finished = true ∧
    scontains exC1.board.snakes "b" = true ∧
    scontains (process_step exC1 "a" exC1Moves).1.board.snakes "b" = false ∧
    (process_step exC1 "a" exC1Moves).2.dead_snakes = 1 := by
  decide

/-- Witness for the amended C1 at the concrete state `exC1`. -/
theorem c1_amended_witness :
    (process_step exC1 "a" exC1Moves).2.finished = true ∧
    (process_step exC1 "a" exC1Moves).1.board.snakes =
      (ps_mid exC1 "a" exC1Moves).board.snakes.filter
        (fun e => !(dead_id (ps_mid exC1 "a" exC1Moves) e.1 &&
          !(decide (e.1 = "a")))) ∧
    (process_step exC1 "a" exC1Moves).2.dead_snakes =
      ((ps_mid exC1 "a" exC1Moves).board.snakes.filter
        (fun e => dead_id (ps_mid exC1 "a" exC1Moves) e.1 &&
          !(decide (e.1 = "a")))).length :=
  c1_amended exC1 "a" exC1Moves (by decide) (by decide) (by decide)
    (by decide) (by decide)

/-- A state where both snakes' moves land on the same food cell. -/
def exShared : GState :=
  ⟨0, ⟨7, 7, {⟨3, 3⟩}, [("a", ⟨"a", 50, [⟨2, 3⟩, ⟨2, 4⟩]⟩),
    ("b", ⟨"b", 50, [⟨4, 3⟩, ⟨4, 4⟩]⟩)]⟩⟩

/-- The full move map driving both snakes of `exShared` onto the food. -/
def exSharedMoves : List (String × Dir) := [("a", .Right), ("b", .Left)]

/-- Witness for C3: with both movers landing on the one food cell, the cell
is removed once while two pickups are counted. -/
theorem c3_food_removal_witness :
    (process_step exShared "a" exSharedMoves).1.board.food =
        exShared.board.food \ eaten_foods exShared exSharedMoves ∧
    eaten_foods exShared exSharedMoves ⊆ exShared.board.food ∧
    (process_step exShared "a" exSharedMoves).2.foods +
        (process_step exShared "a" exSharedMoves).2.enemy_foods = 2 := by
  have h := c3_food_removal exShared "a" exSharedMoves (by decide) (by decide)
    (by decide) (by decide)
  refine ⟨h.1, h.2.1, ?_⟩
  rw [h.2.2]
  decide

/-! ## Machinery for claim C2: relating the two per-turn transitions -/

/-- Field-wise relation between the two outcome records (the Turn
Simulator's `finished` and the branch simulator's `winner` are the two
fields claim C2 does not compare). -/
def futRel (sf : SimFuture) (f : Future) : Prop :=
  sf.alive = f.alive ∧ sf.dead_snakes = f.dead_snakes ∧ sf.foods = f.foods ∧
  sf.enemy_foods = f.enemy_foods ∧ sf.dir = f.dir

/-- `update_from_move` only consults the food set through the pickup test,
so two food sets agreeing at the landing cell give identical updates. -/
theorem update_from_move_congr (s : Snake) (d : Dir) (f1 f2 : Finset Point)
    (h : d.resulting_point s.head ∈ f1 ↔ d.resulting_point s.head ∈ f2) :
    s.update_from_move d f1 = s.update_from_move d f2 := by
  unfold Snake.update_from_move Dir.will_collect_food
  by_cases h1 : d.resulting_point s.head ∈ f1
  · simp [h1, h.mp h1]
  · have h2 : d.resulting_point s.head ∉ f2 := fun hx => h1 (h.mpr hx)
    simp [h1, h2]

theorem sim_move_loop_rel (selfId : String)
    (snakes0 : List (String × Snake)) (food0 : Finset Point) :
    ∀ (moves : List (String × Dir)) (acc : MoveAcc) (sacc : SimMoveAcc),
      sacc.snakes = acc.snakes →
      sacc.results = acc.results →
      sacc.food = food0 \ acc.eaten →
      futRel sacc.fut acc.fut →
      (moves.map Prod.fst).Nodup →
      (∀ m ∈ moves, slookup acc.snakes m.1 = slookup snakes0 m.1) →
      (∀ m ∈ moves, (slookup snakes0 m.1).isSome) →
      (∀ m ∈ moves, nhS snakes0 m ∈ food0 → nhS snakes0 m ∉ acc.eaten) →
      List.Pairwise (fun m m' =>
        ¬(nhS snakes0 m = nhS snakes0 m' ∧ nhS snakes0 m ∈ food0)) moves →
      (moves.foldl (sim_move_loop_step selfId) sacc).snakes =
          (move_loop selfId food0 moves acc).snakes ∧
      (moves.foldl (sim_move_loop_step selfId) sacc).results =
          (move_loop selfId food0 moves acc).results ∧
      (moves.foldl (sim_move_loop_step selfId) sacc).food =
          food0 \ (move_loop selfId food0 moves acc).eaten ∧
      futRel (moves.foldl (sim_move_loop_step selfId) sacc).fut
        (move_loop selfId food0 moves acc).fut := by
  intro moves
  induction moves with
  | nil =>
    intro acc sacc hsn hres hfood hfut _ _ _ _ _
    exact ⟨hsn, hres, hfood, hfut⟩
  | cons m rest ih =>
    intro acc sacc hsn hres hfood hfut hmnd hagree hsome hsafe hpw
    have hsm : (slookup snakes0 m.1).isSome := hsome m (by simp)
    obtain ⟨sn, hsn0⟩ : ∃ sn, slookup snakes0 m.1 = some sn := by
      cases h : slookup snakes0 m.1 with
      | none => rw [h] at hsm; simp at hsm
      | some sn => exact ⟨sn, rfl⟩
    have hacc_m : slookup acc.snakes m.1 = some sn := by
      rw [hagree m (by simp), hsn0]
    have hsacc_m : slookup sacc.snakes m.1 = some sn := by rw [hsn, hacc_m]
    have hnh : nhS snakes0 m = m.2.resulting_point sn.head := by
      unfold nhS
      rw [hsn0]
      rfl
    have hrestkeys : m.1 ∉ rest.map Prod.fst := by
      simp only [List.map_cons, List.nodup_cons] at hmnd
      exact hmnd.1
    have hcoleq : m.2.resulting_point sn.head ∈ sacc.food ↔
        m.2.resulting_point sn.head ∈ food0 := by
      rw [hfood, Finset.mem_sdiff, ← hnh]
      constructor
      · exact fun h => h.1
      · intro h
        exact ⟨h, hsafe m (by simp) h⟩
    have hueq : sn.update_from_move m.2 sacc.food =
        sn.update_from_move m.2 food0 :=
      update_from_move_congr sn m.2 sacc.food food0 hcoleq
    -- the Turn Simulator step (same computation as in move_loop_full)
    have hstep : move_loop_step selfId food0 acc m =
        { snakes :=
            supdate acc.snakes m.1 fun _ => (sn.update_from_move m.2 food0).1,
          results :=
            acc.results ++ [(m.1, (sn.update_from_move m.2 food0).2.1)],
          eaten :=
            (if nhS snakes0 m ∈ food0 then insert (nhS snakes0 m) acc.eaten
             else acc.eaten),
          fut :=
            { (if m.1 = selfId then { acc.fut with dir := m.2 } else acc.fut) with
                foods :=
                  (if m.1 = selfId then { acc.fut with dir := m.2 } else acc.fut).foods +
                    (if nhS snakes0 m ∈ food0 ∧ m.1 = selfId then 1 else 0),
                enemy_foods :=
                  (if m.1 = selfId then { acc.fut with dir := m.2 } else acc.fut).enemy_foods +
                    (if nhS snakes0 m ∈ food0 ∧ m.1 ≠ selfId then 1 else 0) } } := by
      unfold move_loop_step
      rw [hacc_m]
      simp only [update_from_move_eaten]
      by_cases hcol : m.2.resulting_point sn.head ∈ food0
      · rw [if_pos hcol]
        have hcol' : nhS snakes0 m ∈ food0 := by rw [hnh]; exact hcol
        by_cases hself : m.1 = selfId
        · simp [hself, hcol, hcol', hnh]
        · simp [hself, hcol, hcol', hnh]
      · rw [if_neg hcol]
        have hcol' : ¬ nhS snakes0 m ∈ food0 := by rw [hnh]; exact hcol
        by_cases hself : m.1 = selfId
        · simp [hself, hcol, hcol']
        · simp [hself, hcol, hcol']
    -- the branch simulator step
    have hstep_s : sim_move_loop_step selfId sacc m =
        { snakes :=
            supdate sacc.snakes m.1 fun _ => (sn.update_from_move m.2 food0).1,
          food :=
            (if nhS snakes0 m ∈ food0 then sacc.food.erase (nhS snakes0 m)
             else sacc.food),
          results :=
            sacc.results ++ [(m.1, (sn.update_from_move m.2 food0).2.1)],
          fut :=
            { (if m.1 = selfId then { sacc.fut with dir := m.2 } else sacc.fut) with
                foods :=
                  (if m.1 = selfId then { sacc.fut with dir := m.2 } else sacc.fut).foods +
                    (if nhS snakes0 m ∈ food0 ∧ m.1 = selfId then 1 else 0),
                enemy_foods :=
                  (if m.1 = selfId then { sacc.fut with dir := m.2 } else sacc.fut).enemy_foods +
                    (if nhS snakes0 m ∈ food0 ∧ m.1 ≠ selfId then 1 else 0) } } := by
      unfold sim_move_loop_step
      rw [hsacc_m]
      simp only [hueq]
      simp only [update_from_move_eaten]
      by_cases hcol : m.2.resulting_point sn.head ∈ food0
      · rw [if_pos hcol]
        have hcol' : nhS snakes0 m ∈ food0 := by rw [hnh]; exact hcol
        by_cases hself : m.1 = selfId
        · simp [hself, hcol, hcol', hnh]
        · simp [hself, hcol, hcol', hnh]
      · rw [if_neg hcol]
        have hcol' : ¬ nhS snakes0 m ∈ food0 := by rw [hnh]; exact hcol
        by_cases hself : m.1 = selfId
        · simp [hself, hcol, hcol']
        · simp [hself, hcol, hcol']
    rw [move_loop_cons, List.foldl_cons]
    -- invariants for the stepped accumulators
    obtain ⟨hfa, hfd, hff, hfe, hfdir⟩ := hfut
    apply ih
    · rw [hstep, hstep_s]
      simp only
      rw [hsn]
    · rw [hstep, hstep_s]
      simp only
      rw [hres]
    · rw [hstep, hstep_s]
      simp only
      by_cases hcol : nhS snakes0 m ∈ food0
      · rw [if_pos hcol, if_pos hcol, hfood, Finset.sdiff_insert]
      · rw [if_neg hcol, if_neg hcol, hfood]
    · rw [hstep, hstep_s]
      unfold futRel
      by_cases hcol : nhS snakes0 m ∈ food0 <;>
        by_cases hself : m.1 = selfId <;>
          simp [hcol, hself, hfa, hfd, hff, hfe, hfdir]
    · simp only [List.map_cons, List.nodup_cons] at hmnd
      exact hmnd.2
    · intro m' hm'
      rw [hstep]
      show slookup
        (supdate acc.snakes m.1 fun _ => (sn.update_from_move m.2 food0).1)
        m'.1 = _
      rw [slookup_supdate_ne]
      · exact hagree m' (by simp [hm'])
      · intro heq
        exact hrestkeys (heq ▸ List.mem_map.mpr ⟨m', hm', rfl⟩)
    · exact fun m' hm' => hsome m' (by simp [hm'])
    · intro m' hm' hfood'
      rw [hstep]
      simp only
      by_cases hcol : nhS snakes0 m ∈ food0
      · rw [if_pos hcol]
        intro hin
        rcases Finset.mem_insert.mp hin with hin | hin
        · exact (List.pairwise_cons.mp hpw).1 m' hm' ⟨hin.symm, hcol⟩
        · exact hsafe m' (by simp [hm']) hfood' hin
      · rw [if_neg hcol]
        exact hsafe m' (by simp [hm']) hfood'
    · exact (List.pairwise_cons.mp hpw).2

/-- With a full move map, the non-mover pass adds nothing. -/
theorem add_non_movers_full (snakes : List (String × Snake))
    (rs : List (String × Point))
    (h : ∀ e ∈ snakes, scontains rs e.1 = true) :
    add_non_movers snakes rs = rs := by
  induction snakes with
  | nil => rfl
  | cons e rest ih =>
    unfold add_non_movers at *
    rw [List.foldl_cons, if_pos (h e (by simp))]
    exact ih fun e' he' => h e' (by simp [he'])

/-- The branch simulator's validity loop agrees with the Turn Simulator's
when the protagonist is never found dead (no early return). -/
theorem sim_check_loop_rel (selfId : String) (stMid : GState) :
    ∀ (results : List (String × Point)) (toRemove : List String)
      (fut : SimFuture) (acc : List String × Future),
      toRemove = acc.1 →
      futRel fut acc.2 →
      (∀ r ∈ results, r.1 = selfId → ∀ sn,
        slookup stMid.board.snakes r.1 = some sn →
          ¬(¬ (r.2.is_valid sn stMid = true) ∨ sn.health = 0)) →
      (sim_check_loop selfId stMid results toRemove fut).1 =
          (results.foldl (check_step selfId stMid) acc).1 ∧
      (sim_check_loop selfId stMid results toRemove fut).2.2 = false ∧
      futRel (sim_check_loop selfId stMid results toRemove fut).2.1
        (results.foldl (check_step selfId stMid) acc).2 ∧
      (sim_check_loop selfId stMid results toRemove fut).2.1.winner =
        fut.winner := by
  intro results
  induction results with
  | nil =>
    intro toRemove fut acc h1 h2 _
    exact ⟨h1, rfl, h2, rfl⟩
  | cons r rest ih =>
    intro toRemove fut acc h1 h2 hsafe
    have hsafe' : ∀ r' ∈ rest, r'.1 = selfId → ∀ sn,
        slookup stMid.board.snakes r'.1 = some sn →
          ¬(¬ (r'.2.is_valid sn stMid = true) ∨ sn.health = 0) :=
      fun r' hr' => hsafe r' (by simp [hr'])
    rw [List.foldl_cons]
    obtain ⟨hfa, hfd, hff, hfe, hfdir⟩ := h2
    cases hl : slookup stMid.board.snakes r.1 with
    | none =>
      have hs : sim_check_loop selfId stMid (r :: rest) toRemove fut =
          sim_check_loop selfId stMid rest toRemove fut := by
        simp [sim_check_loop, hl]
      have hc : check_step selfId stMid acc r = acc := by
        simp [check_step, hl]
      rw [hs, hc]
      exact ih toRemove fut acc h1 ⟨hfa, hfd, hff, hfe, hfdir⟩ hsafe'
    | some sn =>
      by_cases hd : ¬ (r.2.is_valid sn stMid = true) ∨ sn.health = 0
      · have hns : ¬ r.1 = selfId := by
          intro hsid
          exact hsafe r (by simp) hsid sn hl hd
        have hs : sim_check_loop selfId stMid (r :: rest) toRemove fut =
            sim_check_loop selfId stMid rest (toRemove ++ [r.1])
              { fut with dead_snakes := fut.dead_snakes + 1 } := by
          simp only [sim_check_loop, hl]
          rw [if_pos hd, if_neg hns]
        have hc : check_step selfId stMid acc r =
            (acc.1 ++ [r.1],
              { acc.2 with dead_snakes := acc.2.dead_snakes + 1 }) := by
          simp only [check_step, hl]
          rw [if_pos hd, if_neg hns]
        rw [hs, hc]
        apply ih
        · rw [h1]
        · exact ⟨hfa, by simp [hfd], hff, hfe, hfdir⟩
        · exact hsafe'
      · have hs : sim_check_loop selfId stMid (r :: rest) toRemove fut =
            sim_check_loop selfId stMid rest toRemove fut := by
          simp only [sim_check_loop, hl]
          rw [if_neg hd]
        have hc : check_step selfId stMid acc r = acc := by
          simp only [check_step, hl]
          rw [if_neg hd]
        rw [hs, hc]
        exact ih toRemove fut acc h1 ⟨hfa, hfd, hff, hfe, hfdir⟩ hsafe'

theorem is_valid_board_congr (p : Point) (s : Snake) (st1 st2 : GState)
    (h : st1.board = st2.board) : p.is_valid s st1 = p.is_valid s st2 := by
  obtain ⟨t1, b1⟩ := st1
  obtain ⟨t2, b2⟩ := st2
  simp only at h
  subst h
  unfold Point.is_valid Point.in_bounds
  rfl

theorem check_step_board_congr (selfId : String) (st1 st2 : GState)
    (h : st1.board = st2.board) :
    check_step selfId st1 = check_step selfId st2 := by
  obtain ⟨t1, b1⟩ := st1
  obtain ⟨t2, b2⟩ := st2
  simp only at h
  subst h
  funext acc r
  unfold check_step Point.is_valid Point.in_bounds
  rfl

/-- Claim C2 (amended): the two per-turn transitions agree — same successor
board and same compared outcome fields (alive, dead snake count, foods,
enemy foods, initiating direction) — for every state and full move map,
PROVIDED no two movers land on the same food cell and the Turn Simulator
reports the protagonist alive.  (Without those side conditions the two
differ: the branch simulator removes food mid-loop and returns early on
protagonist death; see the counterexample.)  The turn counter is outside
the board and differs (only the Turn Simulator increments it). -/
theorem c2_amended (st : GState) (selfId : String)
    (moves : List (String × Dir))
    (hknd : (st.board.snakes.map Prod.fst).Nodup)
    (hmnd : (moves.map Prod.fst).Nodup)
    (hpresent : ∀ m ∈ moves, (slookup st.board.snakes m.1).isSome)
    (hbody : ∀ e ∈ st.board.snakes, e.2.body ≠ [])
    (hfull : ∀ e ∈ st.board.snakes, e.1 ∈ moves.map Prod.fst)
    (hnoshare : List.Pairwise (fun m m' =>
      ¬(nhS st.board.snakes m = nhS st.board.snakes m' ∧
        nhS st.board.snakes m ∈ st.board.food)) moves)
    (halive : (process_step st selfId moves).2.alive = true) :
    (sim_process_step st selfId moves).1.board =
        (process_step st selfId moves).1.board ∧
    (sim_process_step st selfId moves).2.alive =
        (process_step st selfId moves).2.alive ∧
    (sim_process_step st selfId moves).2.dead_snakes =
        (process_step st selfId moves).2.dead_snakes ∧
    (sim_process_step st selfId moves).2.foods =
        (process_step st selfId moves).2.foods ∧
    (sim_process_step st selfId moves).2.enemy_foods =
        (process_step st selfId moves).2.enemy_foods ∧
    (sim_process_step st selfId moves).2.dir =
        (process_step st selfId moves).2.dir := by
  -- relate the two move loops
  obtain ⟨s1, s2, s3, s4⟩ := sim_move_loop_rel selfId st.board.snakes
    st.board.food moves ⟨st.board.snakes, [], ∅, ps_init_fut⟩
    ⟨st.board.snakes, st.board.food, [], sps_init_fut⟩ rfl rfl
    (by rw [Finset.sdiff_empty]) ⟨rfl, rfl, rfl, rfl, rfl⟩ hmnd
    (fun m _ => rfl) hpresent (fun m _ _ h => (Finset.not_mem_empty _) h)
    hnoshare
  have hs1 : (sps_acc st selfId moves).snakes = (ps_acc st selfId moves).snakes := s1
  have hs2 : (sps_acc st selfId moves).results = (ps_acc st selfId moves).results := s2
  have hs3 : (sps_acc st selfId moves).food =
      st.board.food \ (ps_acc st selfId moves).eaten := s3
  have hs4 : futRel (sps_acc st selfId moves).fut (ps_acc st selfId moves).fut := s4
  -- the two post-move boards coincide
  have hB : (sps_mid st selfId moves).board = (ps_mid st selfId moves).board := by
    unfold sps_mid ps_mid
    rw [hs1, hs3]
  -- with a full move map the non-mover pass adds nothing
  have hres_full : ps_results st selfId moves = (ps_acc st selfId moves).results := by
    obtain ⟨h1, h2, _, _, _, _, _⟩ := move_loop_full selfId st.board.food
      st.board.snakes moves ⟨st.board.snakes, [], ∅, ps_init_fut⟩ hknd hmnd
      (fun m _ => rfl) hpresent
    apply add_non_movers_full
    intro e he
    have hkeys : (ps_acc st selfId moves).snakes.map Prod.fst =
        st.board.snakes.map Prod.fst := by
      rw [show (ps_acc st selfId moves).snakes =
        (move_loop selfId st.board.food moves
          ⟨st.board.snakes, [], ∅, ps_init_fut⟩).snakes from rfl, h1,
        apply_moves_keys]
    have he' : e.1 ∈ st.board.snakes.map Prod.fst := by
      rw [← hkeys]
      exact List.mem_map.mpr ⟨e, he, rfl⟩
    obtain ⟨e0, he0, he0k⟩ := List.mem_map.mp he'
    rw [show (ps_acc st selfId moves).results =
      (move_loop selfId st.board.food moves
        ⟨st.board.snakes, [], ∅, ps_init_fut⟩).results from rfl, h2]
    rw [scontains_eq_mem_keys]
    simp only [List.nil_append, movers_results_keys, decide_eq_true_eq]
    exact he0k ▸ hfull e0 he0
  -- the protagonist is never found dead in the validity loop
  obtain ⟨hheads, _, _⟩ := ps_results_spec st selfId moves hknd hmnd hpresent hbody
  obtain ⟨hc1, hc2, hc3, hc4⟩ := check_loop_full selfId (ps_mid st selfId moves)
    (ps_results st selfId moves) ([], (ps_acc st selfId moves).fut) hheads
  obtain ⟨_, _, _, _, ha, _, _⟩ := move_loop_full selfId st.board.food
    st.board.snakes moves ⟨st.board.snakes, [], ∅, ps_init_fut⟩ hknd hmnd
    (fun m _ => rfl) hpresent
  obtain ⟨hp_alive, hp_dead, hp_snakes, hp_foods, hp_efoods, hp_dir⟩ :=
    process_step_proj st selfId moves
  have hany : ((ps_results st selfId moves).any fun r =>
      decide (r.1 = selfId) && dead_id (ps_mid st selfId moves) r.1) = false := by
    have := halive
    rw [hp_alive, show check_loop selfId (ps_mid st selfId moves)
      (ps_results st selfId moves) (ps_acc st selfId moves).fut =
      (ps_results st selfId moves).foldl
        (check_step selfId (ps_mid st selfId moves))
        ([], (ps_acc st selfId moves).fut) from rfl, hc3] at this
    rw [show (ps_acc st selfId moves).fut.alive = true from ha,
      Bool.true_and] at this
    simpa using this
  have hsafe : ∀ r ∈ (sps_acc st selfId moves).results, r.1 = selfId → ∀ sn,
      slookup (sps_mid st selfId moves).board.snakes r.1 = some sn →
        ¬(¬ (r.2.is_valid sn (sps_mid st selfId moves) = true) ∨
          sn.health = 0) := by
    intro r hr hrs sn hlook hdead
    have hrmem : r ∈ ps_results st selfId moves := by
      rw [hres_full, ← hs2]
      exact hr
    have hlook' : slookup (ps_mid st selfId moves).board.snakes r.1 = some sn := by
      rw [← hB]
      exact hlook
    have hr2 : r.2 = sn.head := hheads r hrmem sn hlook'
    have hdid : dead_id (ps_mid st selfId moves) r.1 = true := by
      unfold dead_id
      rw [hlook']
      rcases hdead with hdead | hdead
      · have : sn.head.is_valid sn (ps_mid st selfId moves) = false := by
          rw [← is_valid_board_congr sn.head sn (sps_mid st selfId moves)
            (ps_mid st selfId moves) hB, ← hr2]
          exact Bool.eq_false_iff.mpr hdead
        simp [this]
      · simp [hdead]
    have : ((ps_results st selfId moves).any fun r' =>
        decide (r'.1 = selfId) && dead_id (ps_mid st selfId moves) r'.1) = true := by
      rw [List.any_eq_true]
      exact ⟨r, hrmem, by rw [hdid, hrs]; simp⟩
    rw [this] at hany
    simp at hany
  -- relate the two validity loops
  obtain ⟨crel1, crel2, crel3, _⟩ := sim_check_loop_rel selfId
    (sps_mid st selfId moves) (sps_acc st selfId moves).results []
    (sps_acc st selfId moves).fut ([], (ps_acc st selfId moves).fut) rfl hs4
    hsafe
  have hstep_eq : check_step selfId (sps_mid st selfId moves) =
      check_step selfId (ps_mid st selfId moves) :=
    check_step_board_congr selfId _ _ hB
  have hfold_eq : (sps_acc st selfId moves).results.foldl
      (check_step selfId (sps_mid st selfId moves))
      ([], (ps_acc st selfId moves).fut) =
      (ps_results st selfId moves).foldl
        (check_step selfId (ps_mid st selfId moves))
        ([], (ps_acc st selfId moves).fut) := by
    rw [hstep_eq, hs2, hres_full]
  rw [hfold_eq] at crel1 crel3
  -- name the two final check results
  have hchkT : check_loop selfId (ps_mid st selfId moves)
      (ps_results st selfId moves) (ps_acc st selfId moves).fut =
      (ps_results st selfId moves).foldl
        (check_step selfId (ps_mid st selfId moves))
        ([], (ps_acc st selfId moves).fut) := rfl
  -- project the branch simulator's result past the two final ifs
  have hsimboard : (sim_process_step st selfId moves).1.board =
      { (sps_mid st selfId moves).board with
          snakes :=
            (sim_check_loop selfId (sps_mid st selfId moves)
              (sps_acc st selfId moves).results []
              (sps_acc st selfId moves).fut).1.foldl
                (fun sns id => sremove sns id)
                (sps_mid st selfId moves).board.snakes } := by
    unfold sim_process_step
    dsimp only
    rw [crel2]
    simp
  have hsimfut : (sim_process_step st selfId moves).2.alive =
        (sim_check_loop selfId (sps_mid st selfId moves)
          (sps_acc st selfId moves).results []
          (sps_acc st selfId moves).fut).2.1.alive ∧
      (sim_process_step st selfId moves).2.dead_snakes =
        (sim_check_loop selfId (sps_mid st selfId moves)
          (sps_acc st selfId moves).results []
          (sps_acc st selfId moves).fut).2.1.dead_snakes ∧
      (sim_process_step st selfId moves).2.foods =
        (sim_check_loop selfId (sps_mid st selfId moves)
          (sps_acc st selfId moves).results []
          (sps_acc st selfId moves).fut).2.1.foods ∧
      (sim_process_step st selfId moves).2.enemy_foods =
        (sim_check_loop selfId (sps_mid st selfId moves)
          (sps_acc st selfId moves).results []
          (sps_acc st selfId moves).fut).2.1.enemy_foods ∧
      (sim_process_step st selfId moves).2.dir =
        (sim_check_loop selfId (sps_mid st selfId moves)
          (sps_acc st selfId moves).results []
          (sps_acc st selfId moves).fut).2.1.dir := by
    unfold sim_process_step
    dsimp only
    rw [crel2]
    simp only [Bool.false_eq_true, if_false]
    refine ⟨?_, ?_, ?_, ?_, ?_⟩ <;> (split <;> rfl)
  obtain ⟨hsa, hsd, hsf, hse, hsr⟩ := hsimfut
  obtain ⟨ra, rd, rf, re, rr⟩ := crel3
  refine ⟨?_, ?_, ?_, ?_, ?_, ?_⟩
  · rw [hsimboard, hB]
    have hb2 : (process_step st selfId moves).1.board =
        { (ps_mid st selfId moves).board with
            snakes := (process_step st selfId moves).1.board.snakes } := by
      unfold process_step
      dsimp only
    rw [hb2, hp_snakes, hchkT, ← crel1]
  · rw [hsa, ra, hp_alive, hchkT]
  · rw [hsd, rd, hp_dead, hchkT]
  · rw [hsf, rf, hp_foods, hchkT]
  · rw [hse, re, hp_efoods, hchkT]
  · rw [hsr, rr, hp_dir, hchkT]

/-- A two-snake state where both snakes move out of bounds; the protagonist
is checked first, so the branch simulator's early return skips the enemy's
removal while the Turn Simulator still removes it. -/
def exC2 : GState :=
  ⟨0, ⟨5, 5, ∅, [("a", ⟨"a", 50, [⟨0, 0⟩, ⟨0, 1⟩]⟩),
    ("b", ⟨"b", 50, [⟨4, 4⟩, ⟨4, 3⟩]⟩)]⟩⟩

/-- Moves driving both snakes of `exC2` out of bounds. -/
def exC2Moves : List (String × Dir) := [("a", .Up), ("b", .Down)]

/-- Counterexample to C2 as stated.  First input: both snakes die out of
bounds; the branch simulator returns early at the protagonist's death and
never removes the dead enemy, so the successor boards and the dead snake
counts differ.  Second input: both snakes of `exShared` move onto the same
food cell; the branch simulator removes the food mid-loop, so the second
mover neither eats nor grows, changing the head-on length comparison — the
protagonist's survival and the enemy food count differ. -/
theorem c2_counterexample :
    ((sim_process_step exC2 "a" exC2Moves).1.board ≠
        (process_step exC2 "a" exC2Moves).1.board ∧
      (sim_process_step exC2 "a" exC2Moves).2.dead_snakes ≠
        (process_step exC2 "a" exC2Moves).2.dead_snakes) ∧
    ((sim_process_step exShared "a" exSharedMoves).2.alive ≠
        (process_step exShared "a" exSharedMoves).2.alive ∧
      (sim_process_step exShared "a" exSharedMoves).2.enemy_foods ≠
        (process_step exShared "a" exSharedMoves).2.enemy_foods) := by
  decide

/-- Witness for the amended C2: on a quiet two-snake state with no shared
food landing and the protagonist surviving, the two transitions agree on
the board and on every compared outcome field. -/
theorem c2_amended_witness :
    (sim_process_step exSt "a" [("a", .Up), ("b", .Down)]).1.board =
        (process_step exSt "a" [("a", .Up), ("b", .Down)]).1.board ∧
    (sim_process_step exSt "a" [("a", .Up), ("b", .Down)]).2.alive =
        (process_step exSt "a" [("a", .Up), ("b", .Down)]).2.alive ∧
    (sim_process_step exSt "a" [("a", .Up), ("b", .Down)]).2.dead_snakes =
        (process_step exSt "a" [("a", .Up), ("b", .Down)]).2.dead_snakes ∧
    (sim_process_step exSt "a" [("a", .Up), ("b", .Down)]).2.foods =
        (process_step exSt "a" [("a", .Up), ("b", .Down)]).2.foods ∧
    (sim_process_step exSt "a" [("a", .Up), ("b", .Down)]).2.enemy_foods =
        (process_step exSt "a" [("a", .Up), ("b", .Down)]).2.enemy_foods ∧
    (sim_process_step exSt "a" [("a", .Up), ("b", .Down)]).2.dir =
        (process_step exSt "a" [("a", .Up), ("b", .Down)]).2.dir :=
  c2_amended exSt "a" [("a", .Up), ("b", .Down)] (by decide) (by decide)
    (by decide) (by decide) (by decide) (by decide) (by decide)

/-! ## Claim C8: the Ensemble Simulator's final decision walk -/

/-- A 7x7 state holding a single short snake away from the edge. -/
def exC8 : GState :=
  ⟨0, ⟨7, 7, ∅, [("a", ⟨"a", 90, [⟨1, 1⟩, ⟨2, 1⟩]⟩)]⟩⟩

/-- The snake of `exC8`. -/
def exC8Snake : Snake := ⟨"a", 90, [⟨1, 1⟩, ⟨2, 1⟩]⟩

/-- A sorted candidate vector whose top move steps from an inner cell onto
the outer edge. -/
def exC8Vec : List (Dir × ℚ × Nat) := [(.Up, 100, 50), (.Down, 99, 50)]

/-- Claim C8 (amended): the decision walk returns the first candidate that
is Safe, not corner-risky, AND does not step from an inner cell onto the
outer edge (the third condition is what the claim omits); and a candidate
failing that test is still returned — not skipped — when no later candidate
passes the Safe/score-tolerance/length-tolerance skip test. -/
theorem c8_amended (s : Snake) (st : GState) (c : Dir × ℚ × Nat)
    (rest : List (Dir × ℚ × Nat)) :
    (sim_qualify s st c.1 = true → sim_walk s st (c :: rest) = c.1) ∧
    (sim_qualify s st c.1 = false →
      (rest.any fun c' => sim_skip_cond s st c.2.1 c.2.2 c') = false →
      sim_walk s st (c :: rest) = c.1) := by
  constructor
  · intro h
    simp [sim_walk, h]
  · intro h1 h2
    simp [sim_walk, h1, h2]

/-- Witness for the amended C8: a qualifying top candidate is returned. -/
theorem c8_amended_witness :
    sim_qualify exC8Snake exC8 Dir.Down = true ∧
    sim_walk exC8Snake exC8 [(Dir.Down, 99, 50)] = Dir.Down :=
  ⟨by decide, (c8_amended exC8Snake exC8 (Dir.Down, 99, 50) []).1 (by decide)⟩

/-- Counterexample to C8 as stated: in `exC8` the top-ranked move Up is
Safe for the live state and not corner-risky, yet the walk skips it —
because it moves the snake from an inner cell onto the outer edge — and
returns Down instead. -/
theorem c8_counterexample :
    Dir.Up.is_safety_index exC8Snake exC8 .Safe = true ∧
    Dir.Up.is_corner_risky exC8Snake exC8 = false ∧
    sim_walk exC8Snake exC8 exC8Vec = Dir.Down := by
  refine ⟨by decide, by decide, ?_⟩
  have hq1 : sim_qualify exC8Snake exC8 Dir.Up = false := by decide
  have hq2 : sim_qualify exC8Snake exC8 Dir.Down = true := by decide
  have hrat : (100 : ℚ) - |(100 : ℚ) / (33 / 10)| < 99 := by
    rw [abs_of_nonneg (by norm_num)]
    norm_num
  have hskip : sim_skip_cond exC8Snake exC8 100 50 (Dir.Down, 99, 50) = true := by
    unfold sim_skip_cond
    rw [decide_eq_true hrat]
    decide
  show sim_walk exC8Snake exC8 ((Dir.Up, 100, 50) :: [(Dir.Down, 99, 50)]) = Dir.Down
  simp only [sim_walk, hq1, Bool.false_eq_true, if_false, List.any_cons,
    List.any_nil, Bool.or_false]
  rw [hskip]
  simp [sim_walk, hq2]

/-! ## Claim C9: AlphaBeta decision structure -/

/-- Every successor produced by `Point::successors` is one of the four
orthogonal neighbours. -/
theorem successors_fst_mem (p : Point) (s : Snake) (st : GState)
    (x : Point × Nat) (hx : x ∈ p.successors s st) : x.1 ∈ p.orthogonal := by
  unfold Point.successors at hx
  obtain ⟨q, hq, hqx⟩ := List.mem_filterMap.mp hx
  cases h : q.safety_index s st <;> rw [h] at hqx <;>
    simp only [Option.some.injEq, reduceCtorEq] at hqx
  · rw [← hqx]
    exact hq
  · rw [← hqx]
    exact hq

/-- For an orthogonal neighbour, `dir_to` recovers a direction whose
`resulting_point` is that neighbour. -/
theorem dir_to_orthogonal (p q : Point) (h : q ∈ p.orthogonal) :
    ((p.dir_to q).getD .Up).resulting_point p = q := by
  simp only [Point.orthogonal, List.mem_cons, List.not_mem_nil, or_false] at h
  rcases h with h | h | h | h <;> subst h <;>
    simp only [Point.dir_to] <;> norm_num <;> rfl

/-- Invariant of the maximizing successor loop: if the final best score
beats the `MIN` sentinel, the final best move satisfies any predicate that
holds of the incoming best move (when its score already beat the sentinel)
and of every successor point in the list. -/
theorem ab_loop_max_mem (eval : GState → Bool → Int) (selfId enemyId : String)
    (st : GState) (temp_snake : Snake) (alpha beta : Int) (P : Point → Prop) :
    ∀ (l : List (Point × Nat)) (bs : Int) (bm : Point),
      (AB_MIN < bs → P bm) → (∀ x ∈ l, P x.1) →
      AB_MIN <
        (ab_loop eval selfId enemyId st true temp_snake bs bm alpha beta l).1 →
      P (ab_loop eval selfId enemyId st true temp_snake bs bm alpha beta l).2 := by
  intro l
  induction l with
  | nil =>
    intro bs bm hbm _ hgt
    exact hbm hgt
  | cons c rest ih =>
    intro bs bm hbm hl hgt
    obtain ⟨pm, w⟩ := c
    have hpm : P pm := hl (pm, w) (List.mem_cons_self _ _)
    have hrest : ∀ x ∈ rest, P x.1 := fun x hx => hl x (List.mem_cons_of_mem _ hx)
    simp only [ab_loop, if_true] at hgt ⊢
    cases hlk : slookup st.board.snakes selfId with
    | none =>
      rw [hlk] at hgt
      exact hbm hgt
    | some sn =>
      rw [hlk] at hgt
      dsimp only at hgt ⊢
      by_cases hh : (minimax_apply_move st selfId sn
          ((temp_snake.head.dir_to pm).getD .Up)).1.health = 0
      · rw [if_pos hh] at hgt ⊢
        exact ih bs bm hbm hrest hgt
      · rw [if_neg hh] at hgt ⊢
        set val := eval (minimax_apply_move st selfId sn
          ((temp_snake.head.dir_to pm).getD .Up)).2 false with hval
        have hbm' : AB_MIN < max bs val → P (if bs < val then pm else bm) := by
          intro hlt
          by_cases hv : bs < val
          · rw [if_pos hv]
            exact hpm
          · rw [if_neg hv]
            rw [max_eq_left (not_lt.mp hv)] at hlt
            exact hbm hlt
        by_cases hbr : beta ≤ max alpha (max bs val)
        · rw [if_pos hbr] at hgt ⊢
          exact hbm' hgt
        · rw [if_neg hbr] at hgt ⊢
          exact ih (max bs val) (if bs < val then pm else bm) hbm' hrest hgt

/-- Unfolding of the top-level `minimax` call: at depth 1 with the
protagonist on the board, it is the maximizing successor loop over the
protagonist head's successors. -/
theorem minimax_top (selfId enemyId : String) (st : GState) (s : Snake)
    (hlook : slookup st.board.snakes selfId = some s) :
    minimax 11 selfId enemyId 1 st true AB_MIN AB_MAX =
      ab_loop
        (fun st' mx => (minimax 10 selfId enemyId 2 st' mx AB_MIN AB_MAX).1)
        selfId enemyId st true s AB_MIN ⟨0, 0⟩ AB_MIN AB_MAX
        (s.head.successors s st) := by
  show minimax (10 + 1) selfId enemyId 1 st true AB_MIN AB_MAX = _
  rw [minimax]
  rw [if_neg (by decide : ¬ MAX_DEPTH < 1)]
  simp only [if_true, hlook]

/-- Claim C9: on a two-snake state carrying the protagonist, whenever the
top-level minimax score beats the `MIN` sentinel, `AlphaBeta::get_move`
returns a direction whose resulting point is one of the protagonist head's
Safe-or-Risky orthogonal successors; and whenever no improving score is
found, it returns exactly `find_safe_move`. -/
theorem c9 (s : Snake) (st : GState)
    (hlen : st.board.snakes.length = 2)
    (hlook : slookup st.board.snakes s.id = some s) :
    (AB_MIN < (minimax 11 s.id (alpha_beta_enemy_id s.id st.board.snakes) 1
        st true AB_MIN AB_MAX).1 →
      (alpha_beta_get_move s st).resulting_point s.head ∈
        (s.head.successors s st).map Prod.fst) ∧
    ((minimax 11 s.id (alpha_beta_enemy_id s.id st.board.snakes) 1
        st true AB_MIN AB_MAX).1 ≤ AB_MIN →
      alpha_beta_get_move s st = s.find_safe_move st) := by
  have _ := hlen
  constructor
  · intro hgt
    have hmem : (minimax 11 s.id (alpha_beta_enemy_id s.id st.board.snakes) 1
        st true AB_MIN AB_MAX).2 ∈ (s.head.successors s st).map Prod.fst := by
      rw [minimax_top s.id _ st s hlook] at hgt ⊢
      exact ab_loop_max_mem _ s.id _ st s AB_MIN AB_MAX
        (fun p => p ∈ (s.head.successors s st).map Prod.fst)
        (s.head.successors s st) AB_MIN ⟨0, 0⟩
        (fun h => absurd h (lt_irrefl _))
        (fun x hx => List.mem_map.mpr ⟨x, hx, rfl⟩) hgt
    have horth : (minimax 11 s.id (alpha_beta_enemy_id s.id st.board.snakes) 1
        st true AB_MIN AB_MAX).2 ∈ s.head.orthogonal := by
      obtain ⟨x, hx, hxe⟩ := List.mem_map.mp hmem
      exact hxe ▸ successors_fst_mem _ _ _ x hx
    unfold alpha_beta_get_move
    dsimp only
    rw [if_pos hgt, dir_to_orthogonal _ _ horth]
    exact hmem
  · intro hle
    unfold alpha_beta_get_move
    dsimp only
    rw [if_neg (not_lt.mpr hle)]

/-- A boxed-in protagonist: every orthogonal neighbour of the head is
Unsafe (the coiled tail is not vacating), so minimax finds no successor. -/
def exC9Snake : Snake :=
  ⟨"a", 50, [⟨0, 0⟩, ⟨0, 1⟩, ⟨1, 1⟩, ⟨1, 0⟩, ⟨1, 0⟩]⟩

/-- A two-snake state holding the boxed-in protagonist of `exC9Snake`. -/
def exC9 : GState :=
  ⟨0, ⟨7, 7, ∅, [("a", exC9Snake), ("b", ⟨"b", 50, [⟨5, 5⟩, ⟨5, 6⟩]⟩)]⟩⟩

/-- Witness for C9: the boxed-in protagonist gets no improving score, and
`AlphaBeta::get_move` falls back to `find_safe_move`. -/
theorem c9_witness :
    exC9.board.snakes.length = 2 ∧
    slookup exC9.board.snakes "a" = some exC9Snake ∧
    (minimax 11 "a" (alpha_beta_enemy_id "a" exC9.board.snakes) 1 exC9
      true AB_MIN AB_MAX).1 ≤ AB_MIN ∧
    alpha_beta_get_move exC9Snake exC9 = exC9Snake.find_safe_move exC9 :=
  ⟨by decide, by decide, by decide,
    (c9 exC9Snake exC9 (by decide) (by decide)).2 (by decide)⟩

/-! ## Claim C7: the Opponent Profiler's match bookkeeping -/

/-- A one-opponent state whose snake "x" just moved Up. -/
def exC7State : GState :=
  ⟨0, ⟨7, 7, ∅, [("x", ⟨"x", 50, [⟨1, 1⟩, ⟨1, 2⟩]⟩)]⟩⟩

/-- An Analytics record in which opponent "x"'s observed buffer agrees with
the first tracked heuristic on all ten slots and with the second on none. -/
def exC7 : Analytics :=
  { realMoves := [("x", List.replicate 10 .Up)]
    expectedMoves := [("x", [("cautious", List.replicate 10 .Up),
      ("astarbasic", List.replicate 10 .Down)])]
    profMatches := []
    algs := [("cautious", fun _ _ => .Up), ("astarbasic", fun _ _ => .Down)] }

/-- Claim C7 exhibits a code bug: opponent "x"'s observed buffer agrees
with the tracked heuristic "cautious" on all ten slots (well above the
match threshold), yet after `Analytics::fire` no matched profile is
recorded for "x" — the heuristic compared after "cautious" fails its own
threshold test and its `else` branch removes the match just inserted. -/
theorem c7_code_bug :
    MATCH_THRESH ≤ match_count (List.replicate 10 Dir.Up)
      ((slookup (exC7.fire "me" exC7State).realMoves "x").getD []) ∧
    slookup (exC7.fire "me" exC7State).profMatches "x" = none := by
  constructor
  · decide
  · decide

/-! ## Claim C5: UCB selection -/

theorem pick_first_max_spec (l : List (ℝ × Nat)) :
    ∀ best : ℝ × Nat,
      (pick_first_max best l = best ∨ pick_first_max best l ∈ l) ∧
      best.1 ≤ (pick_first_max best l).1 ∧
      ∀ x ∈ l, x.1 ≤ (pick_first_max best l).1 := by
  induction l with
  | nil =>
    intro best
    refine ⟨Or.inl rfl, le_refl _, ?_⟩
    intro x hx
    exact absurd hx (List.not_mem_nil x)
  | cons a l ih =>
    intro best
    by_cases hb : best.1 < a.1
    · have hstep : pick_first_max best (a :: l) = pick_first_max a l := by
        rw [show pick_first_max best (a :: l) =
          pick_first_max (if best.1 < a.1 then a else best) l from rfl,
          if_pos hb]
      obtain ⟨ih1, ih2, ih3⟩ := ih a
      refine ⟨?_, ?_, ?_⟩
      · rw [hstep]
        rcases ih1 with h1 | h1
        · exact Or.inr (by rw [h1]; exact List.mem_cons_self a l)
        · exact Or.inr (List.mem_cons_of_mem a h1)
      · rw [hstep]
        exact le_trans (le_of_lt hb) ih2
      · rw [hstep]
        intro x hx
        rcases List.mem_cons.mp hx with hx | hx
        · rw [hx]
          exact ih2
        · exact ih3 x hx
    · have hstep : pick_first_max best (a :: l) = pick_first_max best l := by
        rw [show pick_first_max best (a :: l) =
          pick_first_max (if best.1 < a.1 then a else best) l from rfl,
          if_neg hb]
      obtain ⟨ih1, ih2, ih3⟩ := ih best
      refine ⟨?_, ?_, ?_⟩
      · rw [hstep]
        rcases ih1 with h1 | h1
        · exact Or.inl h1
        · exact Or.inr (List.mem_cons_of_mem a h1)
      · rw [hstep]
        exact ih2
      · rw [hstep]
        intro x hx
        rcases List.mem_cons.mp hx with hx | hx
        · rw [hx]
          exact le_trans (not_lt.mp hb) ih2
        · exact ih3 x hx

theorem next_node_cons (t : GameTree) (i : Nat) (c0 : Nat) (cs : List Nat)
    (hch : childIdxs t i = c0 :: cs) :
    next_node t i = (pick_first_max (ucb_one (nodeAt t c0) (simAt t 0), c0)
      (cs.map fun c => (ucb_one (nodeAt t c) (simAt t 0), c))).2 := by
  unfold next_node
  rw [hch]
  simp only [List.map_cons]

/-- Claim C5 (amended): descent selects the child maximizing the code UCB
`mean + 2 * sqrt(ln(ROOT visits) / child visits)` (first maximum on ties),
and an unvisited child scores the `f32::MAX` sentinel rather than infinity. -/
theorem c5_amended (t : GameTree) (i : Nat) (h : childIdxs t i ≠ []) :
    next_node t i ∈ childIdxs t i ∧
    (∀ c ∈ childIdxs t i,
      ucb_one (nodeAt t c) (simAt t 0) ≤
        ucb_one (nodeAt t (next_node t i)) (simAt t 0)) ∧
    (∀ c ∈ childIdxs t i, (nodeAt t c).simCount = 0 →
      ucb_one (nodeAt t c) (simAt t 0) = f32_MAX) := by
  cases hch : childIdxs t i with
  | nil => exact absurd hch h
  | cons c0 cs =>
    have hnn := next_node_cons t i c0 cs hch
    obtain ⟨hmem, hx, hall⟩ := pick_first_max_spec
      (cs.map fun c => (ucb_one (nodeAt t c) (simAt t 0), c))
      (ucb_one (nodeAt t c0) (simAt t 0), c0)
    have hform : ∃ c, c ∈ c0 :: cs ∧
        pick_first_max (ucb_one (nodeAt t c0) (simAt t 0), c0)
          (cs.map fun c => (ucb_one (nodeAt t c) (simAt t 0), c)) =
          (ucb_one (nodeAt t c) (simAt t 0), c) := by
      rcases hmem with h1 | h1
      · exact ⟨c0, List.mem_cons_self _ _, h1⟩
      · obtain ⟨c, hc, hce⟩ := List.mem_map.mp h1
        exact ⟨c, List.mem_cons_of_mem _ hc, hce.symm⟩
    obtain ⟨c, hcmem, hce⟩ := hform
    have hr2 : next_node t i = c := by rw [hnn, hce]
    refine ⟨?_, ?_, ?_⟩
    · rw [hr2]
      exact hcmem
    · intro c' hc'
      have hrucb : ucb_one (nodeAt t (next_node t i)) (simAt t 0) =
          (pick_first_max (ucb_one (nodeAt t c0) (simAt t 0), c0)
            (cs.map fun c => (ucb_one (nodeAt t c) (simAt t 0), c))).1 := by
        rw [hr2, hce]
      rw [hrucb]
      rcases List.mem_cons.mp hc' with h1 | h1
      · rw [h1]
        exact hx
      · exact hall _ (List.mem_map.mpr ⟨c', h1, rfl⟩)
    · intro c' _ h0
      rw [ucb_one, if_pos h0]

/-- A reachable-shaped tree: root visited 64 times, an internal node 1
visited 4 times, its children 2 (mean 1, two visits) and 3 (mean 0, one
visit). -/
def exT5 : GameTree :=
  ⟨[⟨none, [some 1, none, none, none], 30, 64, ⟨0, ⟨0, 0, ∅, []⟩⟩, none, false⟩,
    ⟨some 0, [some 2, some 3, none, none], 2, 4, ⟨0, ⟨0, 0, ∅, []⟩⟩, none, true⟩,
    ⟨some 1, [none, none, none, none], 2, 2, ⟨0, ⟨0, 0, ∅, []⟩⟩, none, false⟩,
    ⟨some 1, [none, none, none, none], 0, 1, ⟨0, ⟨0, 0, ∅, []⟩⟩, none, false⟩],
   "a", "b"⟩

/-- Witness for the amended C5. -/
theorem c5_amended_witness :
    childIdxs exT5 1 ≠ [] ∧ next_node exT5 1 ∈ childIdxs exT5 1 :=
  ⟨by decide, (c5_amended exT5 1 (by decide)).1⟩

/-- Counterexample to C5 as stated: descending from node 1, the code
selects child 3, although the claim formula (constant sqrt 2, parent
visit count) scores child 3 strictly below child 2. -/
theorem c5_counterexample :
    next_node exT5 1 = 3 ∧
    ucb_claim (nodeAt exT5 3) (simAt exT5 1) <
      ucb_claim (nodeAt exT5 2) (simAt exT5 1) := by
  have hL1 := Real.log_two_gt_d9
  have hL2 := Real.log_two_lt_d9
  have h2 : ucb_one (nodeAt exT5 2) 64 = 1 + 2 * Real.sqrt (3 * Real.log 2) := by
    rw [ucb_one, if_neg (by decide)]
    rw [show (nodeAt exT5 2).score = 2 from rfl,
      show (nodeAt exT5 2).simCount = 2 from rfl]
    push_cast
    rw [show (64 : ℝ) = 2 ^ 6 by norm_num, Real.log_pow]
    rw [show ((6 : ℕ) : ℝ) * Real.log 2 / 2 = 3 * Real.log 2 by push_cast; ring]
    norm_num
  have h3 : ucb_one (nodeAt exT5 3) 64 = 2 * Real.sqrt (6 * Real.log 2) := by
    rw [ucb_one, if_neg (by decide)]
    rw [show (nodeAt exT5 3).score = 0 from rfl,
      show (nodeAt exT5 3).simCount = 1 from rfl]
    push_cast
    rw [show (64 : ℝ) = 2 ^ 6 by norm_num, Real.log_pow]
    rw [show ((6 : ℕ) : ℝ) * Real.log 2 / 1 = 6 * Real.log 2 by push_cast; ring]
    norm_num
  have hlt : ucb_one (nodeAt exT5 2) 64 < ucb_one (nodeAt exT5 3) 64 := by
    rw [h2, h3]
    have hxb : Real.sqrt (3 * Real.log 2) < 29 / 20 := by
      rw [Real.sqrt_lt' (by norm_num)]
      nlinarith [hL2]
    have hyb : (203 / 100 : ℝ) < Real.sqrt (6 * Real.log 2) := by
      rw [Real.lt_sqrt (by norm_num)]
      nlinarith [hL1]
    linarith
  constructor
  · have hstep : next_node exT5 1 =
        (if ucb_one (nodeAt exT5 2) 64 < ucb_one (nodeAt exT5 3) 64
          then (ucb_one (nodeAt exT5 3) 64, 3)
          else (ucb_one (nodeAt exT5 2) 64, 2)).2 := rfl
    rw [hstep, if_pos hlt]
  · have g3 : ucb_claim (nodeAt exT5 3) (simAt exT5 1) =
        Real.sqrt 2 * Real.sqrt (2 * Real.log 2) := by
      unfold ucb_claim
      rw [show (nodeAt exT5 3).score = 0 from rfl,
        show (nodeAt exT5 3).simCount = 1 from rfl,
        show simAt exT5 1 = 4 from rfl]
      push_cast
      rw [show (4 : ℝ) = 2 ^ 2 by norm_num, Real.log_pow]
      rw [show ((2 : ℕ) : ℝ) * Real.log 2 / 1 = 2 * Real.log 2 by push_cast; ring]
      norm_num
    have g2 : ucb_claim (nodeAt exT5 2) (simAt exT5 1) =
        1 + Real.sqrt 2 * Real.sqrt (Real.log 2) := by
      unfold ucb_claim
      rw [show (nodeAt exT5 2).score = 2 from rfl,
        show (nodeAt exT5 2).simCount = 2 from rfl,
        show simAt exT5 1 = 4 from rfl]
      push_cast
      rw [show (4 : ℝ) = 2 ^ 2 by norm_num, Real.log_pow]
      rw [show ((2 : ℕ) : ℝ) * Real.log 2 / 2 = Real.log 2 by push_cast; ring]
      norm_num
    rw [g2, g3]
    have s2u : Real.sqrt 2 < 1415 / 1000 := by
      rw [Real.sqrt_lt' (by norm_num)]
      norm_num
    have s2l : (1414 / 1000 : ℝ) < Real.sqrt 2 := by
      rw [Real.lt_sqrt (by norm_num)]
      norm_num
    have hu : Real.sqrt (2 * Real.log 2) < 1178 / 1000 := by
      rw [Real.sqrt_lt' (by norm_num)]
      nlinarith [hL2]
    have hlo : (83 / 100 : ℝ) < Real.sqrt (Real.log 2) := by
      rw [Real.lt_sqrt (by norm_num)]
      nlinarith [hL1]
    have lhs_lt : Real.sqrt 2 * Real.sqrt (2 * Real.log 2) <
        (1415 / 1000) * (1178 / 1000) :=
      mul_lt_mul'' s2u hu (Real.sqrt_nonneg _) (Real.sqrt_nonneg _)
    have rhs_gt : (1414 / 1000 : ℝ) * (83 / 100) <
        Real.sqrt 2 * Real.sqrt (Real.log 2) :=
      mul_lt_mul'' s2l hlo (by norm_num) (by norm_num)
    linarith

/-! ## Claim C6: visit-count bookkeeping of the MCTS tree -/

/-- The structural well-formedness invariant of the arena tree, together
with the (corrected) visit-count bookkeeping: parent indices point
backwards, child slots point forwards at nodes whose parent field points
back, child lists hold no duplicates, every expanded non-root node has
strictly more visits than its children combined, and the root dominates
its children's visits (without the strict gap — the root is expanded
before it is ever visited). -/
structure TreeWF (t : GameTree) : Prop where
  root_pos : 0 < t.innerVec.length
  parent_lt : ∀ j n p, t.innerVec.get? j = some n → n.parent = some p → p < j
  parent_none : ∀ j n, t.innerVec.get? j = some n → n.parent = none → j = 0
  child_lt : ∀ j, ∀ c ∈ childIdxs t j,
    c < t.innerVec.length ∧ j < c ∧ (nodeAt t c).parent = some j
  child_nodup : ∀ j, (childIdxs t j).Nodup
  count_nonroot : ∀ j, j ≠ 0 → childIdxs t j ≠ [] →
    childSimSum t j + 1 ≤ simAt t j
  count_root : childSimSum t 0 ≤ simAt t 0

theorem nodeAt_of_get? (t : GameTree) (j : Nat) (n : MNode)
    (h : t.innerVec.get? j = some n) : nodeAt t j = n := by
  rw [nodeAt, h]
  rfl

theorem get?_lt_length {α : Type} (l : List α) (n : Nat) (a : α)
    (h : l.get? n = some a) : n < l.length := by
  by_contra hc
  rw [List.get?_eq_none.mpr (not_lt.mp hc)] at h
  exact Option.noConfusion h

theorem get?_of_lt_length {α : Type} (l : List α) (n : Nat)
    (h : n < l.length) : ∃ a, l.get? n = some a := by
  rw [List.get?_eq_get h]
  exact ⟨_, rfl⟩

theorem childIdxs_of_ge (t : GameTree) (j : Nat)
    (h : t.innerVec.length ≤ j) : childIdxs t j = [] := by
  rw [childIdxs, nodeAt, List.get?_eq_none.mpr h]
  rfl

/-- The node update performed at every step of the back-propagation loop. -/
def bpUpd (s : Nat) (n : MNode) : MNode :=
  { n with score := n.score + s, simCount := n.simCount + 1 }

theorem backprop_aux_spec (s : Nat) :
    ∀ (fuel : Nat) (vec : List MNode) (i : Nat),
      (∀ j n p, vec.get? j = some n → n.parent = some p → p < j) →
      (∀ j n, vec.get? j = some n → n.parent = none → j = 0) →
      i < vec.length → i < fuel →
      ∃ C : List Nat,
        C.Nodup ∧ i ∈ C ∧ (∀ x ∈ C, x ≤ i) ∧ 0 ∈ C ∧
        (∀ c nc p, c ∈ C → vec.get? c = some nc → nc.parent = some p →
          p ∈ C) ∧
        (∀ p c1 n1 c2 n2, c1 ∈ C → c2 ∈ C → vec.get? c1 = some n1 →
          vec.get? c2 = some n2 → n1.parent = some p → n2.parent = some p →
          c1 = c2) ∧
        (∀ c ∈ C, c < vec.length) ∧
        (backprop_aux s vec i fuel).length = vec.length ∧
        ∀ j, (backprop_aux s vec i fuel).get? j =
          if j ∈ C then (vec.get? j).map (bpUpd s) else vec.get? j := by
  intro fuel
  induction fuel with
  | zero =>
    intro vec i _ _ _ hf
    exact absurd hf (Nat.not_lt_zero i)
  | succ fuel ih =>
    intro vec i hplt hpz hlen hf
    obtain ⟨n, hn⟩ := get?_of_lt_length vec i hlen
    have hstep : backprop_aux s vec i (fuel + 1) =
        match n.parent with
        | none => vec.set i (bpUpd s n)
        | some p => backprop_aux s (vec.set i (bpUpd s n)) p fuel := by
      rw [backprop_aux, hn]
      rfl
    cases hpar : n.parent with
    | none =>
      have hi0 : i = 0 := hpz i n hn hpar
      refine ⟨[i], List.nodup_singleton i, List.mem_singleton_self i,
        ?_, ?_, ?_, ?_, ?_, ?_, ?_⟩
      · intro x hx
        rw [List.mem_singleton.mp hx]
      · rw [hi0]
        exact List.mem_singleton_self 0
      · intro c nc p hc hnc hp
        rw [List.mem_singleton.mp hc] at hnc
        rw [hn] at hnc
        injection hnc with hnc
        rw [← hnc] at hp
        rw [hpar] at hp
        exact Option.noConfusion hp
      · intro p c1 n1 c2 n2 hc1 hc2 _ _ _ _
        rw [List.mem_singleton.mp hc1, List.mem_singleton.mp hc2]
      · intro c hc
        rw [List.mem_singleton.mp hc]
        exact hlen
      · rw [hstep, hpar, List.length_set]
      · intro j
        rw [hstep, hpar]
        by_cases hj : j ∈ [i]
        · rw [if_pos hj, List.mem_singleton.mp hj, List.get?_set_eq, hn]
          rfl
        · rw [if_neg hj]
          exact List.get?_set_ne _ _ (fun he => hj (by rw [← he]; exact List.mem_singleton_self i))
    | some p =>
      have hpi : p < i := hplt i n p hn hpar
      have hplt' : ∀ j n' p', (vec.set i (bpUpd s n)).get? j = some n' →
          n'.parent = some p' → p' < j := by
        intro j n' p' hg hp'
        by_cases hj : i = j
        · rw [← hj, List.get?_set_eq, hn] at hg
          injection hg with hg
          refine hplt j n p' (hj ▸ hn) ?_
          rw [← hg] at hp'
          exact hp'
        · rw [List.get?_set_ne _ _ hj] at hg
          exact hplt j n' p' hg hp'
      have hpz' : ∀ j n', (vec.set i (bpUpd s n)).get? j = some n' →
          n'.parent = none → j = 0 := by
        intro j n' hg hp'
        by_cases hj : i = j
        · rw [← hj, List.get?_set_eq, hn] at hg
          injection hg with hg
          refine hpz j n (hj ▸ hn) ?_
          rw [← hg] at hp'
          exact hp'
        · rw [List.get?_set_ne _ _ hj] at hg
          exact hpz j n' hg hp'
      obtain ⟨C', hnd, hpm, hub, hz, hcl, hun, hbd, hlen', hchar⟩ :=
        ih (vec.set i (bpUpd s n)) p hplt' hpz'
          (by rw [List.length_set]; exact lt_trans hpi hlen)
          (lt_of_lt_of_le hpi (Nat.lt_succ_iff.mp hf))
      have hres : backprop_aux s vec i (fuel + 1) =
          backprop_aux s (vec.set i (bpUpd s n)) p fuel := by
        rw [hstep, hpar]
      have hCne : ∀ c ∈ C', ¬ c = i :=
        fun c hc => Nat.ne_of_lt (lt_of_le_of_lt (hub c hc) hpi)
      have hgeq : ∀ c ∈ C', (vec.set i (bpUpd s n)).get? c = vec.get? c :=
        fun c hc => List.get?_set_ne _ _ (fun he => (hCne c hc) he.symm)
      refine ⟨i :: C', ?_, List.mem_cons_self i C', ?_, ?_, ?_, ?_, ?_, ?_, ?_⟩
      · exact List.nodup_cons.mpr
          ⟨fun hmem => (hCne i hmem) rfl, hnd⟩
      · intro x hx
        rcases List.mem_cons.mp hx with hx | hx
        · rw [hx]
        · exact le_trans (hub x hx) (le_of_lt hpi)
      · exact List.mem_cons_of_mem i hz
      · intro c nc q hc hnc hq
        rcases List.mem_cons.mp hc with hc | hc
        · rw [hc, hn] at hnc
          injection hnc with hnc
          rw [← hnc, hpar] at hq
          injection hq with hq
          rw [← hq]
          exact List.mem_cons_of_mem i hpm
        · have : (vec.set i (bpUpd s n)).get? c = some nc := by
            rw [hgeq c hc]
            exact hnc
          exact List.mem_cons_of_mem i (hcl c nc q hc this hq)
      · intro q c1 n1 c2 n2 hc1 hc2 hg1 hg2 hq1 hq2
        rcases List.mem_cons.mp hc1 with hc1 | hc1 <;>
          rcases List.mem_cons.mp hc2 with hc2 | hc2
        · rw [hc1, hc2]
        · exfalso
          rw [hc1, hn] at hg1
          injection hg1 with hg1
          rw [← hg1, hpar] at hq1
          injection hq1 with hq1
          have hqc2 : q < c2 := hplt c2 n2 q hg2 hq2
          rw [← hq1] at hqc2
          exact absurd (hub c2 hc2) (not_le.mpr hqc2)
        · exfalso
          rw [hc2, hn] at hg2
          injection hg2 with hg2
          rw [← hg2, hpar] at hq2
          injection hq2 with hq2
          have hqc1 : q < c1 := hplt c1 n1 q hg1 hq1
          rw [← hq2] at hqc1
          exact absurd (hub c1 hc1) (not_le.mpr hqc1)
        · refine hun q c1 n1 c2 n2 hc1 hc2 ?_ ?_ hq1 hq2
          · rw [hgeq c1 hc1]
            exact hg1
          · rw [hgeq c2 hc2]
            exact hg2
      · intro c hc
        rcases List.mem_cons.mp hc with hc | hc
        · rw [hc]
          exact hlen
        · have := hbd c hc
          rw [List.length_set] at this
          exact this
      · rw [hres, hlen', List.length_set]
      · intro j
        rw [hres, hchar j]
        by_cases hj : j = i
        · rw [hj]
          have hni : i ∉ C' := fun hmem => (hCne i hmem) rfl
          rw [if_neg hni, if_pos (List.mem_cons_self i C'), List.get?_set_eq,
            hn]
          rfl
        · rw [List.get?_set_ne _ _ (fun he => hj he.symm)]
          by_cases hjc : j ∈ C'
          · rw [if_pos hjc, if_pos (List.mem_cons_of_mem i hjc)]
          · rw [if_neg hjc, if_neg (fun hmem => by
              rcases List.mem_cons.mp hmem with hmem | hmem
              · exact hj hmem
              · exact hjc hmem)]

theorem sum_map_add {α : Type} (l : List α) (f g : α → Nat) :
    (l.map fun x => f x + g x).sum = (l.map f).sum + (l.map g).sum := by
  induction l with
  | nil => rfl
  | cons a l ih =>
    simp only [List.map_cons, List.sum_cons, ih]
    omega

theorem sum_map_ite_mem (l : List Nat) (C : List Nat) :
    (l.map fun c => if c ∈ C then 1 else 0).sum =
      l.countP fun c => decide (c ∈ C) := by
  induction l with
  | nil => rfl
  | cons a l ih =>
    rw [List.map_cons, List.sum_cons, ih, List.countP_cons]
    by_cases h : a ∈ C
    · rw [if_pos h, decide_eq_true h, if_pos (rfl : (true : Bool) = true)]
      omega
    · rw [if_neg h, decide_eq_false h,
        if_neg (fun hc => Bool.noConfusion hc : ¬ (false : Bool) = true)]
      omega

theorem countP_le_one_of_unique (l : List Nat) (P : Nat → Bool)
    (hnd : l.Nodup)
    (h : ∀ a ∈ l, ∀ b ∈ l, P a = true → P b = true → a = b) :
    l.countP P ≤ 1 := by
  rw [List.countP_eq_length_filter]
  cases hf : l.filter P with
  | nil => exact Nat.zero_le 1
  | cons a tl =>
    cases htl : tl with
    | nil => exact le_refl 1
    | cons b tl2 =>
      exfalso
      have ha : a ∈ l.filter P := by
        rw [hf]
        exact List.mem_cons_self _ _
      have hb : b ∈ l.filter P := by
        rw [hf, htl]
        exact List.mem_cons_of_mem _ (List.mem_cons_self _ _)
      have hnd' : (l.filter P).Nodup := hnd.filter P
      rw [hf, htl] at hnd'
      have hab : a ≠ b := by
        intro he
        exact (List.nodup_cons.mp hnd').1 (he ▸ List.mem_cons_self b tl2)
      exact hab (h a (List.mem_filter.mp ha).1 b (List.mem_filter.mp hb).1
        (List.mem_filter.mp ha).2 (List.mem_filter.mp hb).2)

theorem rollout_preserves (t : GameTree) (i s : Nat)
    (hi : i < t.innerVec.length) (wf : TreeWF t) :
    TreeWF (rollout_update t i s) := by
  obtain ⟨C, hnd, hiC, hub, h0, hcl, hun, hbd, hlen, hchar⟩ :=
    backprop_aux_spec s t.innerVec.length t.innerVec i
      wf.parent_lt wf.parent_none hi hi
  have hveq : (rollout_update t i s).innerVec =
      backprop_aux s t.innerVec i t.innerVec.length := rfl
  have hlen' : (rollout_update t i s).innerVec.length = t.innerVec.length := by
    rw [hveq, hlen]
  have hget : ∀ j, (rollout_update t i s).innerVec.get? j =
      if j ∈ C then (t.innerVec.get? j).map (bpUpd s)
      else t.innerVec.get? j := by
    intro j
    rw [hveq]
    exact hchar j
  have hnodeAt : ∀ j, (nodeAt (rollout_update t i s) j).parent =
      (nodeAt t j).parent ∧
      (nodeAt (rollout_update t i s) j).children = (nodeAt t j).children := by
    intro j
    rw [nodeAt, nodeAt, hget j]
    by_cases hj : j ∈ C
    · rw [if_pos hj]
      cases hv : t.innerVec.get? j with
      | none => exact ⟨rfl, rfl⟩
      | some n => exact ⟨rfl, rfl⟩
    · rw [if_neg hj]
      exact ⟨rfl, rfl⟩
  have hchildIdxs : ∀ j, childIdxs (rollout_update t i s) j = childIdxs t j := by
    intro j
    rw [childIdxs, childIdxs, (hnodeAt j).2]
  have hsim : ∀ j, simAt (rollout_update t i s) j =
      simAt t j + (if j ∈ C then 1 else 0) := by
    intro j
    rw [simAt, simAt, nodeAt, nodeAt, hget j]
    by_cases hj : j ∈ C
    · rw [if_pos hj, if_pos hj]
      cases hv : t.innerVec.get? j with
      | none =>
        exfalso
        obtain ⟨a, ha⟩ := get?_of_lt_length _ _ (hbd j hj)
        rw [ha] at hv
        exact Option.noConfusion hv
      | some n => rfl
    · rw [if_neg hj, if_neg hj, Nat.add_zero]
  have hsum : ∀ j, childSimSum (rollout_update t i s) j =
      childSimSum t j + (childIdxs t j).countP fun c => decide (c ∈ C) := by
    intro j
    rw [childSimSum, childSimSum, hchildIdxs j,
      List.map_congr_left fun c _ => hsim c, sum_map_add, sum_map_ite_mem]
  have hkey : ∀ j, ((childIdxs t j).countP fun c => decide (c ∈ C)) ≤ 1 ∧
      (((childIdxs t j).countP fun c => decide (c ∈ C)) = 0 ∨ j ∈ C) := by
    intro j
    have hpar : ∀ c ∈ childIdxs t j, ∃ nc, t.innerVec.get? c = some nc ∧
        nc.parent = some j := by
      intro c hc
      obtain ⟨hclen, _, hcp⟩ := wf.child_lt j c hc
      obtain ⟨nc, hnc⟩ := get?_of_lt_length _ _ hclen
      refine ⟨nc, hnc, ?_⟩
      rw [← nodeAt_of_get? t c nc hnc]
      exact hcp
    constructor
    · apply countP_le_one_of_unique _ _ (wf.child_nodup j)
      intro a ha b hb hpa hpb
      obtain ⟨na, hna, hnap⟩ := hpar a ha
      obtain ⟨nb, hnb, hnbp⟩ := hpar b hb
      exact hun j a na b nb (of_decide_eq_true hpa) (of_decide_eq_true hpb)
        hna hnb hnap hnbp
    · by_cases hz : ((childIdxs t j).countP fun c => decide (c ∈ C)) = 0
      · exact Or.inl hz
      · right
        rw [List.countP_eq_length_filter] at hz
        have hne : (childIdxs t j).filter (fun c => decide (c ∈ C)) ≠ [] := by
          intro hcon
          rw [hcon] at hz
          exact hz rfl
        obtain ⟨c, hc⟩ := List.exists_mem_of_ne_nil _ hne
        have hcm : c ∈ childIdxs t j := (List.mem_filter.mp hc).1
        have hcC : c ∈ C := of_decide_eq_true (List.mem_filter.mp hc).2
        obtain ⟨nc, hnc, hncp⟩ := hpar c hcm
        exact hcl c nc j hcC hnc hncp
  refine ⟨?_, ?_, ?_, ?_, ?_, ?_, ?_⟩
  · rw [hlen']
    exact wf.root_pos
  · intro j n p hg hp
    rw [hget j] at hg
    by_cases hj : j ∈ C
    · rw [if_pos hj] at hg
      cases hv : t.innerVec.get? j with
      | none =>
        rw [hv] at hg
        exact Option.noConfusion hg
      | some n0 =>
        rw [hv] at hg
        injection hg with hg
        refine wf.parent_lt j n0 p hv ?_
        rw [← hg] at hp
        exact hp
    · rw [if_neg hj] at hg
      exact wf.parent_lt j n p hg hp
  · intro j n hg hp
    rw [hget j] at hg
    by_cases hj : j ∈ C
    · rw [if_pos hj] at hg
      cases hv : t.innerVec.get? j with
      | none =>
        rw [hv] at hg
        exact Option.noConfusion hg
      | some n0 =>
        rw [hv] at hg
        injection hg with hg
        refine wf.parent_none j n0 hv ?_
        rw [← hg] at hp
        exact hp
    · rw [if_neg hj] at hg
      exact wf.parent_none j n hg hp
  · intro j c hc
    rw [hchildIdxs j] at hc
    obtain ⟨h1, h2, h3⟩ := wf.child_lt j c hc
    refine ⟨by rw [hlen']; exact h1, h2, ?_⟩
    rw [(hnodeAt c).1]
    exact h3
  · intro j
    rw [hchildIdxs j]
    exact wf.child_nodup j
  · intro j hj0 hne
    rw [hchildIdxs j] at hne
    rw [hsum j, hsim j]
    obtain ⟨hk1, hk2⟩ := hkey j
    rcases hk2 with hk0 | hkC
    · rw [hk0]
      have := wf.count_nonroot j hj0 hne
      by_cases hj : j ∈ C
      · rw [if_pos hj]
        omega
      · rw [if_neg hj]
        omega
    · rw [if_pos hkC]
      have := wf.count_nonroot j hj0 hne
      omega
  · rw [hsum 0, hsim 0, if_pos h0]
    have := wf.count_root
    have := (hkey 0).1
    omega

theorem filterMap_id_cons_mem (a : Option Nat) (ch : List (Option Nat))
    (c : Nat) (h : c ∈ ch.filterMap id) : c ∈ (a :: ch).filterMap id := by
  cases a with
  | none => exact h
  | some w => exact List.mem_cons_of_mem w h

theorem filterMap_id_set_subset (ch : List (Option Nat)) (v : Nat) :
    ∀ (s : Nat), ∀ c ∈ (ch.set s (some v)).filterMap id,
      c = v ∨ c ∈ ch.filterMap id := by
  induction ch with
  | nil =>
    intro s c hc
    rw [List.set_nil] at hc
    exact absurd hc (List.not_mem_nil c)
  | cons a ch ih =>
    intro s c hc
    cases s with
    | zero =>
      rw [List.set_cons_zero] at hc
      rcases List.mem_cons.mp hc with hc | hc
      · exact Or.inl hc
      · exact Or.inr (filterMap_id_cons_mem a ch c hc)
    | succ s =>
      rw [List.set_cons_succ] at hc
      cases a with
      | none =>
        rcases ih s c hc with h | h
        · exact Or.inl h
        · exact Or.inr h
      | some w =>
        rcases List.mem_cons.mp hc with hc | hc
        · exact Or.inr (by rw [hc]; exact List.mem_cons_self w _)
        · rcases ih s c hc with h | h
          · exact Or.inl h
          · exact Or.inr (List.mem_cons_of_mem w h)

theorem filterMap_id_set_nodup (ch : List (Option Nat)) (v : Nat) :
    ∀ (s : Nat), (ch.filterMap id).Nodup →
      (∀ c ∈ ch.filterMap id, c < v) →
      ((ch.set s (some v)).filterMap id).Nodup := by
  induction ch with
  | nil =>
    intro s _ _
    rw [List.set_nil]
    exact List.nodup_nil
  | cons a ch ih =>
    intro s hnd hb
    cases s with
    | zero =>
      rw [List.set_cons_zero]
      refine List.nodup_cons.mpr ⟨?_, ?_⟩
      · intro hmem
        have := hb v (filterMap_id_cons_mem a ch v hmem)
        exact absurd this (lt_irrefl v)
      · cases a with
        | none => exact hnd
        | some w => exact (List.nodup_cons.mp hnd).2
    | succ s =>
      rw [List.set_cons_succ]
      cases a with
      | none =>
        exact ih s hnd (fun c hc => hb c hc)
      | some w =>
        have hnd' := List.nodup_cons.mp hnd
        refine List.nodup_cons.mpr ⟨?_, ?_⟩
        · intro hmem
          rcases filterMap_id_set_subset ch v s w hmem with h | h
          · have := hb w (List.mem_cons_self w _)
            rw [h] at this
            exact absurd this (lt_irrefl v)
          · exact hnd'.1 h
        · exact ih s hnd'.2 (fun c hc => hb c (List.mem_cons_of_mem w hc))

theorem filterMap_id_set_sum (ch : List (Option Nat)) (v : Nat)
    (g : Nat → Nat) :
    ∀ (s : Nat), (((ch.set s (some v)).filterMap id).map g).sum ≤
      g v + ((ch.filterMap id).map g).sum := by
  induction ch with
  | nil =>
    intro s
    rw [List.set_nil]
    exact Nat.zero_le _
  | cons a ch ih =>
    intro s
    cases s with
    | zero =>
      rw [List.set_cons_zero]
      have : (((some v :: ch).filterMap id).map g).sum =
          g v + ((ch.filterMap id).map g).sum := rfl
      rw [this]
      cases a with
      | none => exact le_refl _
      | some w =>
        have hw : (((some w :: ch).filterMap id).map g).sum =
            g w + ((ch.filterMap id).map g).sum := rfl
        rw [hw]
        omega
    | succ s =>
      rw [List.set_cons_succ]
      cases a with
      | none => exact ih s
      | some w =>
        have h1 : (((some w :: ch.set s (some v)).filterMap id).map g).sum =
            g w + (((ch.set s (some v)).filterMap id).map g).sum := rfl
        have h2 : (((some w :: ch).filterMap id).map g).sum =
            g w + ((ch.filterMap id).map g).sum := rfl
        rw [h1, h2]
        have := ih s
        omega

/-- The invariant carried through the two child-creating loops of
`GameTree::expand`: well-formedness away from the node being expanded,
plus a bound on the expanded node's child visit sum (`B`), its unchanged
visit count (`S`), and the freshness of the appended zone. -/
structure XInv (t : GameTree) (i currIdx B S : Nat) : Prop where
  hicur : i < currIdx
  hcur : currIdx ≤ t.innerVec.length
  parent_lt : ∀ j n p, t.innerVec.get? j = some n → n.parent = some p → p < j
  parent_none : ∀ j n, t.innerVec.get? j = some n → n.parent = none → j = 0
  child_lt : ∀ j, ∀ c ∈ childIdxs t j,
    c < t.innerVec.length ∧ j < c ∧ (nodeAt t c).parent = some j
  child_nodup : ∀ j, (childIdxs t j).Nodup
  count_other : ∀ j, j ≠ i → j ≠ 0 → childIdxs t j ≠ [] →
    childSimSum t j + 1 ≤ simAt t j
  count_root' : i ≠ 0 → childSimSum t 0 ≤ simAt t 0
  sum_i : childSimSum t i ≤ B
  sim_i : simAt t i = S
  fresh : ∀ c n, currIdx ≤ c → t.innerVec.get? c = some n →
    n.children = [none, none, none, none]

theorem expand_step_inv (t : GameTree) (i slot currIdx B S : Nat)
    (newn : MNode)
    (hpar : newn.parent = some i)
    (hsim0 : newn.simCount = 0)
    (hch : newn.children = [none, none, none, none])
    (inv : XInv t i currIdx B S) :
    XInv (set_child_slot { t with innerVec := t.innerVec ++ [newn] } i slot
      t.innerVec.length) i currIdx B S ∧
    (set_child_slot { t with innerVec := t.innerVec ++ [newn] } i slot
      t.innerVec.length).innerVec.length = t.innerVec.length + 1 := by
  have hiL : i < t.innerVec.length := lt_of_lt_of_le inv.hicur inv.hcur
  obtain ⟨ni, hni⟩ := get?_of_lt_length _ i hiL
  have hni' : (t.innerVec ++ [newn]).get? i = some ni := by
    rw [List.get?_append hiL]
    exact hni
  have happ : ∀ j, (t.innerVec ++ [newn]).get? j =
      if j < t.innerVec.length then t.innerVec.get? j
      else if j = t.innerVec.length then some newn else none := by
    intro j
    by_cases h1 : j < t.innerVec.length
    · rw [if_pos h1, List.get?_append h1]
    · rw [if_neg h1]
      by_cases h2 : j = t.innerVec.length
      · rw [if_pos h2, h2, List.get?_concat_length]
      · rw [if_neg h2, List.get?_eq_none.mpr]
        rw [List.length_append]
        have : [newn].length = 1 := rfl
        omega
  have hstep : set_child_slot { t with innerVec := t.innerVec ++ [newn] } i
      slot t.innerVec.length =
      { t with innerVec := ((t.innerVec ++ [newn]).set i
          { ni with children :=
              ni.children.set slot (some t.innerVec.length) }) } := by
    unfold set_child_slot
    rw [hni']
  have hg2 : ∀ j, (set_child_slot { t with innerVec := t.innerVec ++ [newn] }
      i slot t.innerVec.length).innerVec.get? j =
      if j = i then
        some { ni with children :=
          ni.children.set slot (some t.innerVec.length) }
      else (t.innerVec ++ [newn]).get? j := by
    intro j
    rw [hstep]
    by_cases hj : j = i
    · rw [if_pos hj, hj, List.get?_set_eq, hni']
      rfl
    · rw [if_neg hj, List.get?_set_ne _ _ (fun he => hj he.symm)]
  have hlen2 : (set_child_slot { t with innerVec := t.innerVec ++ [newn] } i
      slot t.innerVec.length).innerVec.length = t.innerVec.length + 1 := by
    rw [hstep]
    show ((t.innerVec ++ [newn]).set i _).length = _
    rw [List.length_set, List.length_append]
    rfl
  refine ⟨?_, hlen2⟩
  have hchildi : childIdxs (set_child_slot { t with innerVec :=
      t.innerVec ++ [newn] } i slot t.innerVec.length) i =
      (ni.children.set slot (some t.innerVec.length)).filterMap id := by
    rw [childIdxs, nodeAt, hg2 i, if_pos rfl]
    rfl
  have hchildi0 : childIdxs t i = ni.children.filterMap id := by
    rw [childIdxs, nodeAt_of_get? t i ni hni]
  have hchildo : ∀ j, j ≠ i → childIdxs (set_child_slot { t with innerVec :=
      t.innerVec ++ [newn] } i slot t.innerVec.length) j = childIdxs t j := by
    intro j hj
    rw [childIdxs, childIdxs, nodeAt, nodeAt, hg2 j, if_neg hj, happ j]
    by_cases h1 : j < t.innerVec.length
    · rw [if_pos h1]
    · rw [if_neg h1]
      by_cases h2 : j = t.innerVec.length
      · rw [if_pos h2]
        rw [List.get?_eq_none.mpr (not_lt.mp h1)]
        show (newn.children.filterMap id) = _
        rw [hch]
        rfl
      · rw [if_neg h2, List.get?_eq_none.mpr (not_lt.mp h1)]
  have hsims : ∀ j, simAt (set_child_slot { t with innerVec :=
      t.innerVec ++ [newn] } i slot t.innerVec.length) j = simAt t j := by
    intro j
    rw [simAt, simAt, nodeAt, nodeAt, hg2 j]
    by_cases hj : j = i
    · rw [if_pos hj, hj, hni]
      rfl
    · rw [if_neg hj, happ j]
      by_cases h1 : j < t.innerVec.length
      · rw [if_pos h1]
      · rw [if_neg h1]
        by_cases h2 : j = t.innerVec.length
        · rw [if_pos h2, List.get?_eq_none.mpr (not_lt.mp h1)]
          show newn.simCount = _
          rw [hsim0]
          rfl
        · rw [if_neg h2, List.get?_eq_none.mpr (not_lt.mp h1)]
  have hsums : ∀ j, j ≠ i → childSimSum (set_child_slot { t with innerVec :=
      t.innerVec ++ [newn] } i slot t.innerVec.length) j =
      childSimSum t j := by
    intro j hj
    rw [childSimSum, childSimSum, hchildo j hj,
      List.map_congr_left fun c _ => hsims c]
  have hparents : ∀ c, c ≠ i → (nodeAt (set_child_slot { t with innerVec :=
      t.innerVec ++ [newn] } i slot t.innerVec.length) c).parent =
      if c = t.innerVec.length then some i else (nodeAt t c).parent := by
    intro c hc
    rw [nodeAt, nodeAt, hg2 c, if_neg hc, happ c]
    by_cases h1 : c < t.innerVec.length
    · rw [if_pos h1, if_neg (by omega)]
    · rw [if_neg h1]
      by_cases h2 : c = t.innerVec.length
      · rw [if_pos h2, if_pos h2]
        exact hpar
      · rw [if_neg h2, if_neg h2, List.get?_eq_none.mpr (not_lt.mp h1)]
  have hparenti : (nodeAt (set_child_slot { t with innerVec :=
      t.innerVec ++ [newn] } i slot t.innerVec.length) i).parent =
      ni.parent := by
    rw [nodeAt, hg2 i, if_pos rfl]
    rfl
  have hchildibound : ∀ c ∈ childIdxs t i, c < t.innerVec.length :=
    fun c hc => (inv.child_lt i c hc).1
  refine ⟨inv.hicur, by rw [hlen2]; have := inv.hcur; omega, ?_, ?_, ?_, ?_, ?_, ?_, ?_, ?_, ?_⟩
  · intro j n p hg hp
    rw [hg2 j] at hg
    by_cases hj : j = i
    · rw [if_pos hj] at hg
      injection hg with hg
      rw [← hg] at hp
      refine inv.parent_lt j ni p (by rw [hj]; exact hni) hp
    · rw [if_neg hj, happ j] at hg
      by_cases h1 : j < t.innerVec.length
      · rw [if_pos h1] at hg
        exact inv.parent_lt j n p hg hp
      · rw [if_neg h1] at hg
        by_cases h2 : j = t.innerVec.length
        · rw [if_pos h2] at hg
          injection hg with hg
          rw [← hg, hpar] at hp
          injection hp with hp
          rw [← hp, h2]
          exact hiL
        · rw [if_neg h2] at hg
          exact Option.noConfusion hg
  · intro j n hg hp
    rw [hg2 j] at hg
    by_cases hj : j = i
    · rw [if_pos hj] at hg
      injection hg with hg
      rw [← hg] at hp
      exact inv.parent_none j ni (by rw [hj]; exact hni) hp
    · rw [if_neg hj, happ j] at hg
      by_cases h1 : j < t.innerVec.length
      · rw [if_pos h1] at hg
        exact inv.parent_none j n hg hp
      · rw [if_neg h1] at hg
        by_cases h2 : j = t.innerVec.length
        · rw [if_pos h2] at hg
          injection hg with hg
          rw [← hg, hpar] at hp
          exact Option.noConfusion hp
        · rw [if_neg h2] at hg
          exact Option.noConfusion hg
  · intro j c hc
    by_cases hj : j = i
    · rw [hj, hchildi] at hc
      rcases filterMap_id_set_subset ni.children t.innerVec.length slot c hc
        with h | h
      · refine ⟨by rw [hlen2]; omega, by rw [h, hj]; exact hiL, ?_⟩
        rw [hparents c (by rw [h]; omega), if_pos h, hj]
      · have hold := inv.child_lt i c (by rw [hchildi0]; exact h)
        refine ⟨by rw [hlen2]; omega, by rw [hj]; exact hold.2.1, ?_⟩
        rw [hparents c (by omega), if_neg (by omega), hj]
        exact hold.2.2
    · rw [hchildo j hj] at hc
      have hold := inv.child_lt j c hc
      refine ⟨by rw [hlen2]; omega, hold.2.1, ?_⟩
      by_cases hci : c = i
      · rw [hci, hparenti]
        rw [hci] at hold
        rw [← nodeAt_of_get? t i ni hni]
        exact hold.2.2
      · rw [hparents c hci, if_neg (by omega)]
        exact hold.2.2
  · intro j
    by_cases hj : j = i
    · rw [hj, hchildi]
      refine filterMap_id_set_nodup ni.children t.innerVec.length slot ?_ ?_
      · rw [← hchildi0]
        exact inv.child_nodup i
      · intro c hc
        exact hchildibound c (by rw [hchildi0]; exact hc)
    · rw [hchildo j hj]
      exact inv.child_nodup j
  · intro j hji hj0 hne
    rw [hchildo j hji] at hne
    rw [hsums j hji, hsims j]
    exact inv.count_other j hji hj0 hne
  · intro hi0
    rw [hsums 0 (fun he => hi0 he.symm), hsims 0]
    exact inv.count_root' hi0
  · have hsimL : simAt t t.innerVec.length = 0 := by
      rw [simAt, nodeAt, List.get?_eq_none.mpr (le_refl _)]
      rfl
    have h1 := filterMap_id_set_sum ni.children t.innerVec.length (simAt t)
      slot
    have hs : ((ni.children.filterMap id).map (simAt t)).sum ≤ B := by
      rw [← hchildi0]
      exact inv.sum_i
    rw [childSimSum, hchildi, List.map_congr_left fun c _ => hsims c]
    omega
  · rw [hsims i]
    exact inv.sim_i
  · intro c n hcc hgc
    have hci : ¬ c = i := by
      have := inv.hicur
      omega
    rw [hg2 c, if_neg hci, happ c] at hgc
    by_cases h1 : c < t.innerVec.length
    · rw [if_pos h1] at hgc
      exact inv.fresh c n hcc hgc
    · rw [if_neg h1] at hgc
      by_cases h2 : c = t.innerVec.length
      · rw [if_pos h2] at hgc
        injection hgc with hgc
        rw [← hgc]
        exact hch
      · rw [if_neg h2] at hgc
        exact Option.noConfusion hgc

theorem create_node_step_inv (t : GameTree) (i slot currIdx B S : Nat)
    (st : GState) (d : Dir) (sid : String) (self : Bool)
    (inv : XInv t i currIdx B S) :
    XInv (set_child_slot (create_node t i st d sid self) i slot
      t.innerVec.length) i currIdx B S ∧
    (set_child_slot (create_node t i st d sid self) i slot
      t.innerVec.length).innerVec.length = t.innerVec.length + 1 :=
  expand_step_inv t i slot currIdx B S
    ⟨some i, [none, none, none, none], 0, 0,
      (process_step st t.selfId [(sid, d)]).1,
      some { (process_step st t.selfId [(sid, d)]).2 with dir := d },
      self⟩ rfl rfl rfl inv

theorem create_terminal_node_step_inv (t : GameTree)
    (i slot currIdx B S : Nat) (st : GState) (moves : List (String × Dir))
    (score : Nat) (inv : XInv t i currIdx B S) :
    XInv (set_child_slot (create_terminal_node t i st moves score) i slot
      t.innerVec.length) i currIdx B S ∧
    (set_child_slot (create_terminal_node t i st moves score) i slot
      t.innerVec.length).innerVec.length = t.innerVec.length + 1 :=
  expand_step_inv t i slot currIdx B S
    ⟨some i, [none, none, none, none], score, 0,
      (process_step st t.selfId moves).1,
      some (process_step st t.selfId moves).2, true⟩ rfl rfl rfl inv

theorem expand_succ_loop_inv (i currIdx B S : Nat) (currState : GState)
    (nodeSnakeId : String) (isSelf : Bool) :
    ∀ (L : List (Nat × Dir)) (k : Nat) (t : GameTree),
      L.map Prod.fst = List.range' k L.length →
      t.innerVec.length = currIdx + k →
      XInv t i currIdx B S →
      XInv (expand_succ_loop t i currIdx currState nodeSnakeId isSelf L)
        i currIdx B S ∧
      (expand_succ_loop t i currIdx currState nodeSnakeId
        isSelf L).innerVec.length = currIdx + k + L.length := by
  intro L
  induction L with
  | nil =>
    intro k t _ hlen hinv
    refine ⟨hinv, ?_⟩
    rw [show expand_succ_loop t i currIdx currState nodeSnakeId isSelf [] = t
      from rfl, hlen]
    rfl
  | cons hd rest ih =>
    intro k t hmap hlen hinv
    obtain ⟨idx, d⟩ := hd
    rw [List.map_cons, List.length_cons, List.range'_succ] at hmap
    have hidx : idx = k := (List.cons.injEq _ _ _ _).mp hmap |>.1
    have hrest : rest.map Prod.fst = List.range' (k + 1) rest.length :=
      (List.cons.injEq _ _ _ _).mp hmap |>.2
    have harg : currIdx + idx = t.innerVec.length := by
      rw [hlen, hidx]
    have hstep_eq : expand_succ_loop t i currIdx currState nodeSnakeId isSelf
        ((idx, d) :: rest) =
        expand_succ_loop (set_child_slot
          (create_node t i currState d nodeSnakeId isSelf) i idx
          (currIdx + idx)) i currIdx currState nodeSnakeId isSelf rest := rfl
    rw [hstep_eq, harg]
    obtain ⟨hinv2, hlen2⟩ := create_node_step_inv t i idx currIdx B S
      currState d nodeSnakeId isSelf hinv
    obtain ⟨h1, h2⟩ := ih (k + 1) _ hrest
      (by rw [hlen2, hlen]; omega) hinv2
    refine ⟨h1, ?_⟩
    rw [h2, List.length_cons]
    omega

theorem expand_term_loop_inv (i currIdx B S : Nat) (currState : GState)
    (nodeSnake : Snake) :
    ∀ (pts : List Point) (termIdx : Nat) (t res : GameTree),
      t.innerVec.length = currIdx + termIdx →
      XInv t i currIdx B S →
      expand_term_loop t i currIdx currState nodeSnake pts termIdx =
        some res →
      XInv res i currIdx B S := by
  intro pts
  induction pts with
  | nil =>
    intro termIdx t res _ hinv hres
    rw [show expand_term_loop t i currIdx currState nodeSnake [] termIdx =
      some t from rfl] at hres
    injection hres with hres
    rw [← hres]
    exact hinv
  | cons p rest ih =>
    intro termIdx t res hlen hinv hres
    rw [expand_term_loop] at hres
    by_cases hr : p.safety_index nodeSnake currState = .Risky
    · rw [if_pos hr] at hres
      cases hlk : slookup currState.board.snakes t.enemyId with
      | none =>
        rw [hlk] at hres
        exact Option.noConfusion hres
      | some enemySnake =>
        rw [hlk] at hres
        dsimp only at hres
        cases hd1 : nodeSnake.head.dir_to p with
        | none =>
          rw [hd1] at hres
          exact Option.noConfusion hres
        | some d1 =>
          cases hd2 : enemySnake.head.dir_to p with
          | none =>
            rw [hd1, hd2] at hres
            exact Option.noConfusion hres
          | some d2 =>
            rw [hd1, hd2] at hres
            dsimp only at hres
            rw [show currIdx + termIdx = t.innerVec.length from hlen.symm]
              at hres
            obtain ⟨hinv2, hlen2⟩ := create_terminal_node_step_inv t i
              termIdx currIdx B S currState
              [(t.selfId, d1), (t.enemyId, d2)] 0 hinv
            exact ih (termIdx + 1) _ res (by rw [hlen2, hlen]; omega) hinv2
              hres
    · rw [if_neg hr] at hres
      exact ih termIdx t res hlen hinv hres

theorem xinv_final (t' : GameTree) (i currIdx B S : Nat)
    (inv : XInv t' i currIdx B S)
    (hpos : 0 < currIdx)
    (hnr : i ≠ 0 → B + 1 ≤ S ∨ (B = 0 ∧ 1 ≤ S))
    (hr : i = 0 → B ≤ S) :
    TreeWF t' := by
  refine ⟨lt_of_lt_of_le hpos inv.hcur, inv.parent_lt, inv.parent_none,
    inv.child_lt, inv.child_nodup, ?_, ?_⟩
  · intro j hj0 hne
    by_cases hji : j = i
    · rw [hji] at hne hj0 ⊢
      have h1 := inv.sum_i
      have h2 := inv.sim_i
      rcases hnr hj0 with h | h
      · omega
      · omega
    · exact inv.count_other j hji hj0 hne
  · by_cases hi0 : i = 0
    · have h1 := inv.sum_i
      have h2 := inv.sim_i
      rw [hi0] at h1 h2
      have := hr hi0
      omega
    · exact inv.count_root' hi0

theorem expand_preserves (t t' : GameTree) (i : Nat)
    (hsim : 0 < simAt t i ∨ i = 0)
    (wf : TreeWF t) (hx : expandO t i = some t') : TreeWF t' := by
  have hcore : expand_core t i ((t.innerVec.get? i).getD defaultMNode) =
      some t' → TreeWF t' := by
    intro hc
    cases hget : t.innerVec.get? i with
    | none =>
      rw [hget, Option.getD_none] at hc
      rw [expand_core] at hc
      dsimp only at hc
      cases hlk : slookup defaultMNode.state.board.snakes
          (if !defaultMNode.isSelfNode then t.selfId else t.enemyId) with
      | none =>
        rw [hlk] at hc
        exact Option.noConfusion hc
      | some nodeSnake =>
        rw [show slookup defaultMNode.state.board.snakes
          (if !defaultMNode.isSelfNode then t.selfId else t.enemyId) =
          none from rfl] at hlk
        exact Option.noConfusion hlk
    | some node =>
      rw [hget, Option.getD_some] at hc
      have hilen : i < t.innerVec.length := get?_lt_length _ _ _ hget
      have hinv0 : XInv t i t.innerVec.length (childSimSum t i)
          (simAt t i) :=
        ⟨hilen, le_refl _, wf.parent_lt, wf.parent_none, wf.child_lt,
          wf.child_nodup, fun j _ hj0 hne => wf.count_nonroot j hj0 hne,
          fun _ => wf.count_root, le_refl _, rfl,
          fun c n hcc hgc =>
            absurd (get?_lt_length _ _ _ hgc) (by omega)⟩
      rw [expand_core] at hc
      dsimp only at hc
      cases hlk : slookup node.state.board.snakes
          (if !node.isSelfNode then t.selfId else t.enemyId) with
      | none =>
        rw [hlk] at hc
        exact Option.noConfusion hc
      | some nodeSnake =>
        rw [hlk] at hc
        dsimp only at hc
        have hmap : (get_snake_successors nodeSnake node.state
            (!node.isSelfNode)).enum.map Prod.fst =
            List.range' 0 (get_snake_successors nodeSnake node.state
              (!node.isSelfNode)).enum.length := by
          rw [List.enum_map_fst, List.enum_length, List.range_eq_range']
        obtain ⟨hinv1, hlen1⟩ := expand_succ_loop_inv i t.innerVec.length
          (childSimSum t i) (simAt t i) node.state
          (if !node.isSelfNode then t.selfId else t.enemyId)
          (!node.isSelfNode)
          (get_snake_successors nodeSnake node.state (!node.isSelfNode)).enum
          0 t hmap (by omega) hinv0
        have hfinish : ∀ t2 : GameTree,
            XInv t2 i t.innerVec.length (childSimSum t i) (simAt t i) →
            TreeWF t2 := by
          intro t2 hinv2
          refine xinv_final t2 i t.innerVec.length (childSimSum t i)
            (simAt t i) hinv2 wf.root_pos ?_ ?_
          · intro hi0
            by_cases hemp : childIdxs t i = []
            · right
              constructor
              · rw [childSimSum, hemp]
                rfl
              · rcases hsim with h | h
                · omega
                · exact absurd h hi0
            · exact Or.inl (wf.count_nonroot i hi0 hemp)
          · intro hi0
            rw [hi0]
            exact wf.count_root
        by_cases hself : (!node.isSelfNode) = true
        · rw [if_pos hself] at hc
          refine hfinish t' (expand_term_loop_inv i t.innerVec.length
            (childSimSum t i) (simAt t i) node.state nodeSnake
            nodeSnake.head.orthogonal
            (get_snake_successors nodeSnake node.state
              (!node.isSelfNode)).length _ t' ?_ hinv1 hc)
          rw [hlen1, List.enum_length]
          omega
        · rw [if_neg hself] at hc
          injection hc with hc
          rw [← hc]
          exact hfinish _ hinv1
  rw [expandO] at hx
  cases hget : t.innerVec.get? i with
  | none =>
    rw [hget] at hx
    exact Option.noConfusion hx
  | some node =>
    rw [hget] at hx
    dsimp only at hx
    cases hfut : node.future with
    | none =>
      rw [hfut] at hx
      apply hcore
      rw [hget]
      exact hx
    | some f =>
      rw [hfut] at hx
      dsimp only at hx
      by_cases hfin : f.finished = true
      · rw [if_pos hfin] at hx
        injection hx with hx
        rw [← hx]
        exact wf
      · rw [if_neg hfin] at hx
        apply hcore
        rw [hget]
        exact hx

theorem mstep_preserves (t t' : GameTree) (h : MStep t t') (wf : TreeWF t) :
    TreeWF t' := by
  cases h with
  | expand i t2 hleaf hsim hx => exact expand_preserves t _ i hsim wf hx
  | rollout i s hi hleaf hsim hs => exact rollout_preserves t i s hi wf

theorem childIdxs_new (st : GState) (a b : String) (j : Nat) :
    childIdxs (GameTree.new st a b) j = [] := by
  cases j with
  | zero => rfl
  | succ j => rfl

theorem treewf_new (st : GState) (selfId enemyId : String) :
    TreeWF (GameTree.new st selfId enemyId) := by
  refine ⟨?_, ?_, ?_, ?_, ?_, ?_, ?_⟩
  · rw [show (GameTree.new st selfId enemyId).innerVec.length = 1 from rfl]
    exact Nat.one_pos
  · intro j n p hg hp
    cases j with
    | zero =>
      injection hg with hg
      rw [← hg] at hp
      exact Option.noConfusion hp
    | succ j => exact Option.noConfusion hg
  · intro j n hg _
    cases j with
    | zero => rfl
    | succ j => exact Option.noConfusion hg
  · intro j c hc
    rw [childIdxs_new] at hc
    exact absurd hc (List.not_mem_nil c)
  · intro j
    rw [childIdxs_new]
    exact List.nodup_nil
  · intro j _ hne
    rw [childIdxs_new] at hne
    exact absurd rfl hne
  · rw [show childSimSum (GameTree.new st selfId enemyId) 0 = 0 from by
      rw [childSimSum, childIdxs_new]; rfl]
    exact Nat.zero_le _

/-- Claim C6 (amended): in every tree reachable from a fresh root by any
interleaving of expand, rollout (with back-propagation) and selection
steps, every non-root node with a filled child slot has strictly more
visits than its children combined, while the root — expanded before it is
ever visited — satisfies only the non-strict bound, its children's visit
counts summing up to its own visit count. -/
theorem c6_amended (st : GState) (selfId enemyId : String) (t : GameTree)
    (h : MReachable (GameTree.new st selfId enemyId) t) :
    (∀ i, i ≠ 0 → childIdxs t i ≠ [] →
      childSimSum t i + 1 ≤ simAt t i) ∧
    childSimSum t 0 ≤ simAt t 0 := by
  have hwf : TreeWF t := by
    induction h with
    | refl => exact treewf_new st selfId enemyId
    | tail hsteps hstep ih => exact mstep_preserves _ _ hstep ih
  exact ⟨fun i h1 h2 => hwf.count_nonroot i h1 h2, hwf.count_root⟩

/-- A quiet two-snake state from which the root can expand. -/
def exC6St : GState :=
  ⟨0, ⟨5, 5, ∅, [("a", ⟨"a", 50, [⟨2, 2⟩, ⟨2, 1⟩]⟩),
    ("b", ⟨"b", 50, [⟨0, 0⟩, ⟨0, 1⟩]⟩)]⟩⟩

/-- The fresh MCTS tree over `exC6St`. -/
def exC6T0 : GameTree := GameTree.new exC6St "a" "b"

/-- The tree after the driver's initial `expand(0)`. -/
def exC6T1 : GameTree := (expandO exC6T0 0).getD exC6T0

/-- The tree after one rollout (score 1) at the first child. -/
def exC6T2 : GameTree := rollout_update exC6T1 1 1

theorem exC6_reach : MReachable exC6T0 exC6T2 := by
  have h1 : MStep exC6T0 exC6T1 :=
    MStep.expand exC6T0 0 exC6T1 (by decide) (Or.inr rfl) (by decide)
  have h2 : MStep exC6T1 exC6T2 :=
    MStep.rollout exC6T1 1 1 (by decide) (by decide) (by decide)
      (by decide)
  exact Relation.ReflTransGen.head h1 (Relation.ReflTransGen.single h2)

/-- Counterexample to C6 as stated: after the initial expansion and a
single rollout, the root's children hold one visit in total while the root
itself also holds one — the claimed "sum ≤ visits − 1" fails at the root
of this reachable tree. -/
theorem c6_counterexample :
    MReachable exC6T0 exC6T2 ∧
    ¬((childSimSum exC6T2 0 : ℤ) ≤ (simAt exC6T2 0 : ℤ) - 1) :=
  ⟨exC6_reach, by decide⟩

/-- Witness for the amended C6 on the same reachable tree. -/
theorem c6_amended_witness :
    MReachable (GameTree.new exC6St "a" "b") exC6T2 ∧
    ((∀ i, i ≠ 0 → childIdxs exC6T2 i ≠ [] →
        childSimSum exC6T2 i + 1 ≤ simAt exC6T2 i) ∧
      childSimSum exC6T2 0 ≤ simAt exC6T2 0) :=
  ⟨exC6_reach, c6_amended exC6St "a" "b" exC6T2 exC6_reach⟩

/-! ## Claim C10: u8 health wrap-around in `Snake::update_from_move` -/

/-- Claim C10: if a snake enters `update_from_move` with health 0 and its
move does not land on food, the u8 health decrement wraps modulo 2^8 to
255, so the simulator's starvation test (`health == 0` after the move)
does not fire; the test behaves as a starvation rule exactly on the
precondition that the snake enters the turn with health in [1, 255]
(then the new health is `health - 1`, which is 0 iff health was 1). -/
theorem c10_health_wraps (s : Snake) (d : Dir) (food : Finset Point)
    (h0 : s.health = 0) (hf : d.resulting_point s.head ∉ food) :
    (s.update_from_move d food).1.health = 255 ∧
    ¬ (s.update_from_move d food).1.health = 0 ∧
    (∀ h1 : Nat, 1 ≤ h1 → h1 ≤ 255 → ∀ s' : Snake, s'.health = h1 →
      s'.head = s.head →
      ((s'.update_from_move d food).1.health = h1 - 1 ∧
        ((s'.update_from_move d food).1.health = 0 ↔ h1 = 1))) := by
  have hcol : d.will_collect_food s food = false := by
    simp [Dir.will_collect_food, hf]
  refine ⟨?_, ?_, ?_⟩
  · simp [Snake.update_from_move, hcol, wrapDec, h0]
  · simp [Snake.update_from_move, hcol, wrapDec, h0]
  · intro h1 h1pos h1le s' hs' hhead
    have hcol' : d.will_collect_food s' food = false := by
      simp [Dir.will_collect_food, hhead, hf]
    have hdec : wrapDec h1 = h1 - 1 := by
      unfold wrapDec
      omega
    constructor
    · simp [Snake.update_from_move, hcol', hs', hdec]
    · simp only [Snake.update_from_move, hcol', if_neg (by simp : ¬False)]
      simp [hs', hdec]
      omega

/-- Witness for C10 at a concrete snake. -/
theorem c10_health_wraps_witness :
    (Snake.update_from_move ⟨"a", 0, [⟨1, 1⟩, ⟨1, 2⟩]⟩ .Up ∅).1.health = 255 := by
  have h := c10_health_wraps ⟨"a", 0, [⟨1, 1⟩, ⟨1, 2⟩]⟩ .Up ∅ (by rfl)
    (by simp)
  exact h.1

/-! ## Claim C4: `safety_index` on occupied points -/

theorem safety_index_aux_unsafe (p : Point) (s : Snake) (st : GState) :
    ∀ (l : List (String × Snake)) (curr : SafetyIndex),
      (∃ e ∈ l, p ∈ e.2.body ∧
        ¬(p = e.2.tailTip ∧ e.2.tailTip ≠ e.2.beforeTail)) →
      safety_index_aux p s st l curr = .Unsafe := by
  intro l
  induction l with
  | nil => intro curr h; simp at h
  | cons e rest ih =>
    intro curr h
    rcases e with ⟨id, sn⟩
    rcases h with ⟨e', he', hocc, hex⟩
    simp only [List.mem_cons] at he'
    simp only [safety_index_aux]
    by_cases hc : sn.body.any (· = p) = true ∧
        (p ≠ sn.tailTip ∨ sn.tailTip = sn.beforeTail)
    · rw [if_pos hc]
    · rw [if_neg hc]
      rcases he' with he' | he'
      · exfalso
        apply hc
        subst he'
        refine ⟨?_, ?_⟩
        · rw [List.any_eq_true]
          exact ⟨p, by simpa using hocc, by simp⟩
        · by_cases hp : p = sn.tailTip
          · right
            by_contra hne
            exact hex ⟨hp, hne⟩
          · left; exact hp
      · exact ih _ ⟨e', he', hocc, hex⟩

/-- Claim C4: on a state whose snakes all have body length at least two,
`safety_index` returns `Unsafe` whenever the point lies on some snake's
body, unless the point is that snake's tail tip and the tail tip differs
from the segment before it (a coiled tail still blocks); in particular the
result is never `Safe` on such an occupied point. -/
theorem c4_safety_index_occupied (p : Point) (s : Snake) (st : GState)
    (hlen : ∀ e ∈ st.board.snakes, 2 ≤ e.2.body.length)
    (hocc : ∃ e ∈ st.board.snakes, p ∈ e.2.body ∧
      ¬(p = e.2.tailTip ∧ e.2.tailTip ≠ e.2.beforeTail)) :
    p.safety_index s st = .Unsafe ∧ p.safety_index s st ≠ .Safe := by
  have h := safety_index_aux_unsafe p s st st.board.snakes .Safe hocc
  refine ⟨h, ?_⟩
  rw [Point.safety_index, h]
  simp

/-- Witness for C4: the mid-body cell (1, 2) of snake "a" in `exSt` is
`Unsafe` for snake "b". -/
theorem c4_safety_index_occupied_witness :
    Point.safety_index ⟨1, 2⟩ ⟨"b", 90, [⟨5, 5⟩, ⟨5, 4⟩, ⟨5, 3⟩]⟩ exSt =
      .Unsafe := by
  have h := c4_safety_index_occupied ⟨1, 2⟩ ⟨"b", 90, [⟨5, 5⟩, ⟨5, 4⟩, ⟨5, 3⟩]⟩
    exSt (by decide) ⟨("a", ⟨"a", 90, [⟨1, 1⟩, ⟨1, 2⟩, ⟨1, 3⟩]⟩), by decide,
      by decide, by decide⟩
  exact h.1

end BS
